import Mathlib

/-!
# Remus broker: client and worker handlers of `remus::server::Server`

A shallow embedding of `remus/server/Server.cxx` and `remus/common/JobResponse.h`.
The server handlers are translated from the source.  The three containers the
server owns (`JobQueue`, `WorkerPool`, `ActiveJobs`), the message class, the
serialisation helpers and the global constants live in headers that are not
among the sources; they are modelled from the specification or taken as
parameters, and every such definition says so in its doc comment.
-/

namespace Remus

/-! ## Basic data -/

/-- A byte string (`std::string`, `zmq::message_t` content): the list of its byte values. -/
abbrev Bytes := List Nat

/-- A `boost::uuids::uuid`, the job identifier. -/
abbrev uuid := Nat

/-- The routing identity `zmq::socketIdentity` of a peer: an opaque byte string. -/
abbrev SocketIdentity := Bytes

/-- The `remus::MESH_TYPE` tag of a job or a worker (an enumerator value; `std::set<MESH_TYPE>`
orders the tags by value). -/
abbrev MESH_TYPE := Nat

/-- Modelled from the spec: the service tags of section 4.1 (`meshServerGlobals.h` is not among
the sources), together with the tag an unparsable header maps to. -/
inductive SERVICE_TYPE where
  | INVALID_SERVICE
  | MAKE_MESH
  | MESH_STATUS
  | CAN_MESH
  | RETRIEVE_MESH
  | HEARTBEAT
  | SHUTDOWN
  | CAN_MESH_REQUIREMENTS
  | MESH_REQUIREMENTS
  | TERMINATE_JOB
  deriving DecidableEq

/-- Modelled from the spec: the job states of section 3 (`meshServerGlobals.h` is not among the
sources). -/
inductive STATUS_TYPE where
  | INVALID_STATUS
  | QUEUED
  | IN_PROGRESS
  | FINISHED
  | FAILED
  | EXPIRED
  deriving DecidableEq

/-- Enumerator value of a job state, in declaration order. -/
def STATUS_TYPE.toNat : STATUS_TYPE → Nat
  | .INVALID_STATUS => 0
  | .QUEUED => 1
  | .IN_PROGRESS => 2
  | .FINISHED => 3
  | .FAILED => 4
  | .EXPIRED => 5

/-- Terminal states of section 3: `FINISHED`, `FAILED`, `EXPIRED`. -/
def STATUS_TYPE.terminal : STATUS_TYPE → Bool
  | .FINISHED => true
  | .FAILED => true
  | .EXPIRED => true
  | _ => false

/-- Position of a state on the chain `QUEUED → IN_PROGRESS → (FINISHED|FAILED|EXPIRED)` of
invariant 4; `INVALID_STATUS` is not a stored state and sits below the chain. -/
def STATUS_TYPE.rank : STATUS_TYPE → Nat
  | .INVALID_STATUS => 0
  | .QUEUED => 1
  | .IN_PROGRESS => 2
  | .FINISHED => 3
  | .FAILED => 3
  | .EXPIRED => 3

/-- Modelled from the spec: the sentinel `remus::INVALID_MSG` (`meshServerGlobals.h` is not among
the sources), a `std::string` holding the ASCII text of its own name. -/
def INVALID_MSG : Bytes := [73, 78, 86, 65, 76, 73, 68, 95, 77, 83, 71]

/-- Modelled from the spec: progress of a job, section 3 (`JobStatus.h` is not among the
sources). -/
structure JobProgress where
  value : Int
  message : Bytes
  deriving DecidableEq

/-- Modelled from the spec: `remus::JobStatus` (`JobStatus.h` is not among the sources), a state
tagged with the job id plus an optional progress. -/
structure JobStatus where
  JobId : uuid
  Status : STATUS_TYPE
  Progress : Option JobProgress
  deriving DecidableEq

/-- The constructor `JobStatus(id, status)`: no progress. -/
def JobStatus.mk2 (id : uuid) (st : STATUS_TYPE) : JobStatus := ⟨id, st, none⟩

/-- Modelled from the spec: `remus::JobResult` (`JobResult.h` is not among the sources),
`{ JobId, payload: bytes }`. -/
structure JobResult where
  JobId : uuid
  Data : Bytes
  deriving DecidableEq

/-- The constructor `JobResult(id)`: the empty result carrying only the id. -/
def JobResult.empty (id : uuid) : JobResult := ⟨id, []⟩

/-- Modelled from the spec: section 4.6 speaks of "an empty/invalid `JobResult`"; a result is
valid when its payload is not empty. -/
def JobResult.valid (r : JobResult) : Bool := !r.Data.isEmpty

/-- Modelled from the spec: the parsed message of section 4.1 (`JobMessage.h` is not among the
sources): validity flag, service tag, mesh type and payload. -/
structure JobMessage where
  ValidMsg : Bool
  SType : SERVICE_TYPE
  MType : MESH_TYPE
  Data : Bytes
  deriving DecidableEq

/-- Accessor `JobMessage::isValid`. -/
def JobMessage.isValid (m : JobMessage) : Bool := m.ValidMsg

/-- Accessor `JobMessage::serviceType`. -/
def JobMessage.serviceType (m : JobMessage) : SERVICE_TYPE := m.SType

/-- Accessor `JobMessage::meshType`. -/
def JobMessage.meshType (m : JobMessage) : MESH_TYPE := m.MType

/-- Accessor `JobMessage::data` (with `dataSize`, the payload bytes). -/
def JobMessage.data (m : JobMessage) : Bytes := m.Data

/-- Modelled from the spec: the job handed to a worker, `remus::JobDetails` (`JobDetails.h` is not
among the sources): id, mesh type and submission payload. -/
structure JobDetails where
  JobId : uuid
  MType : MESH_TYPE
  Data : Bytes
  deriving DecidableEq

/-- Modelled from the spec: the serialisation helpers `remus::to_string`, `remus::to_uuid`,
`remus::to_JobStatus` and `remus::to_JobResult` are not among the sources; they are taken as
parameters. -/
structure Codec where
  to_uuid : JobMessage → uuid
  to_JobStatus : Bytes → JobStatus
  to_JobResult : Bytes → JobResult
  uuid_to_string : uuid → Bytes
  status_to_string : JobStatus → Bytes
  result_to_string : JobResult → Bytes
  job_to_string : JobDetails → Bytes

/-- Modelled from the spec: the worker factory collaborator (`WorkerFactory.h` is not among the
sources); its answers to `haveSupport` and `createWorker` are taken as parameters. -/
structure WorkerFactory where
  haveSupport : MESH_TYPE → Bool
  createWorker : MESH_TYPE → Bool

/-! ## JobQueue -/

/-- Modelled from the spec: `JobQueue` of section 4.2 (`JobQueue.h` is not among the sources).
Both buckets are kept in submission order. -/
structure JobQueue where
  awaiting_dispatch : List JobDetails
  awaiting_worker : List JobDetails
  deriving DecidableEq

/-- A `std::set<MESH_TYPE>` listed in iteration order: the distinct types of the jobs, ascending. -/
def typeSet (l : List JobDetails) : List MESH_TYPE :=
  ((l.map (fun j => j.MType)).dedup).insertionSort (fun a b => a ≤ b)

/-- Split off the first job of type `T`, keeping the others in order. -/
def takeFirst (T : MESH_TYPE) : List JobDetails → Option (JobDetails × List JobDetails)
  | [] => none
  | j :: js =>
    if j.MType = T then some (j, js)
    else match takeFirst T js with
      | none => none
      | some (k, rest) => some (k, j :: rest)

namespace JobQueue

/-- Modelled from the spec: the queue of a new server. -/
def empty : JobQueue := ⟨[], []⟩

/-- Modelled from the spec: `addJob` appends to the FIFO under `awaiting_dispatch[T]`. -/
def addJob (q : JobQueue) (id : uuid) (msg : JobMessage) : JobQueue :=
  { q with awaiting_dispatch := q.awaiting_dispatch ++ [⟨id, msg.meshType, msg.data⟩] }

/-- Modelled from the spec: `queuedJobTypes`, the set of `T` with non-empty
`awaiting_dispatch[T]`. -/
def queuedJobTypes (q : JobQueue) : List MESH_TYPE := typeSet q.awaiting_dispatch

/-- Modelled from the spec: `waitingForWorkerTypes`, the set of `T` with non-empty
`awaiting_worker[T]`. -/
def waitingForWorkerTypes (q : JobQueue) : List MESH_TYPE := typeSet q.awaiting_worker

/-- Modelled from the spec: `workerDispatched(T)` moves the FIFO-head job of type `T` from
`awaiting_dispatch[T]` to `awaiting_worker[T]`. -/
def workerDispatched (q : JobQueue) (T : MESH_TYPE) : JobQueue :=
  match takeFirst T q.awaiting_dispatch with
  | none => q
  | some (j, rest) => ⟨rest, q.awaiting_worker ++ [j]⟩

/-- Modelled from the spec: `takeJob(T)` pops the FIFO head of `awaiting_worker[T]` and returns
it; there is no job to return when the bucket is empty. -/
def takeJob (q : JobQueue) (T : MESH_TYPE) : Option (JobDetails × JobQueue) :=
  match takeFirst T q.awaiting_worker with
  | none => none
  | some (j, rest) => some (j, { q with awaiting_worker := rest })

/-- The ids held by the queue, in either bucket. -/
def ids (q : JobQueue) : List uuid :=
  (q.awaiting_dispatch ++ q.awaiting_worker).map (fun j => j.JobId)

/-- Modelled from the spec: `haveUUID(JobId)`, membership in either bucket. -/
def haveUUID (q : JobQueue) (id : uuid) : Bool :=
  (q.awaiting_dispatch ++ q.awaiting_worker).any (fun j => j.JobId == id)

end JobQueue

/-! ## WorkerPool -/

/-- Modelled from the spec: `WorkerRecord` of section 3 (`WorkerPool.h` is not among the
sources). -/
structure WorkerRecord where
  Address : SocketIdentity
  MType : MESH_TYPE
  WaitingForWork : Bool
  last_heartbeat : Nat
  deriving DecidableEq

/-- Modelled from the spec: `WorkerPool` of section 4.3, `SocketIdentity → WorkerRecord`, kept as
the list of its records (`WorkerPool.h` is not among the sources). -/
structure WorkerPool where
  Pool : List WorkerRecord
  deriving DecidableEq

/-- The record with the oldest `last_heartbeat`; the earlier record wins a tie. -/
def pickOldest : List WorkerRecord → Option WorkerRecord
  | [] => none
  | r :: rs =>
    match pickOldest rs with
    | none => some r
    | some r2 => if r.last_heartbeat ≤ r2.last_heartbeat then some r else some r2

namespace WorkerPool

/-- Modelled from the spec: the pool of a new server. -/
def empty : WorkerPool := ⟨[]⟩

/-- Modelled from the spec: `haveWorker(id)`, some record has this identity. -/
def haveWorker (p : WorkerPool) (id : SocketIdentity) : Bool :=
  p.Pool.any (fun r => r.Address == id)

/-- Modelled from the spec: `addWorker(id, T)` inserts or refreshes and sets
`ready_for_work = false`.  The clock reading `now` stamps the record. -/
def addWorker (p : WorkerPool) (now : Nat) (id : SocketIdentity) (T : MESH_TYPE) : WorkerPool :=
  if p.haveWorker id then
    ⟨p.Pool.map (fun r =>
      if r.Address = id then { r with WaitingForWork := false, last_heartbeat := now } else r)⟩
  else ⟨p.Pool ++ [⟨id, T, false, now⟩]⟩

/-- Modelled from the spec: `readyForWork(id)` sets the flag. -/
def readyForWork (p : WorkerPool) (id : SocketIdentity) : WorkerPool :=
  ⟨p.Pool.map (fun r => if r.Address = id then { r with WaitingForWork := true } else r)⟩

/-- The ready records of type `T`. -/
def waiting (p : WorkerPool) (T : MESH_TYPE) : List WorkerRecord :=
  p.Pool.filter (fun r => r.MType == T && r.WaitingForWork)

/-- Modelled from the spec: `haveWaitingWorker(T)` is true iff some record has
`type == T ∧ ready_for_work`. -/
def haveWaitingWorker (p : WorkerPool) (T : MESH_TYPE) : Bool :=
  p.Pool.any (fun r => r.MType == T && r.WaitingForWork)

/-- Modelled from the spec: `takeWorker(T)` selects one ready worker of type `T` (the oldest
`last_heartbeat`), removes it from the pool and returns its identity; there is no identity to
return when no worker of that type is ready. -/
def takeWorker (p : WorkerPool) (T : MESH_TYPE) : Option (SocketIdentity × WorkerPool) :=
  match pickOldest (p.waiting T) with
  | none => none
  | some r => some (r.Address, ⟨p.Pool.filter (fun x => x.Address != r.Address)⟩)

/-- Modelled from the spec: `refreshWorker(id)` updates `last_heartbeat` if the worker is
present, and does nothing otherwise. -/
def refreshWorker (p : WorkerPool) (now : Nat) (id : SocketIdentity) : WorkerPool :=
  ⟨p.Pool.map (fun r => if r.Address = id then { r with last_heartbeat := now } else r)⟩

/-- A worker identity is ready in the pool. -/
def isReady (p : WorkerPool) (id : SocketIdentity) : Bool :=
  p.Pool.any (fun r => r.Address == id && r.WaitingForWork)

/-- The pool holds a worker of type `T`, ready or not. -/
def hasAnyOfType (p : WorkerPool) (T : MESH_TYPE) : Bool :=
  p.Pool.any (fun r => r.MType == T)

end WorkerPool

/-! ## ActiveJobs -/

/-- Modelled from the spec: `ActiveJobRecord` of section 3 (`ActiveJobs.h` is not among the
sources).  `add(worker_id, JobId)` receives no mesh type, so the record keeps none. -/
structure ActiveJobRecord where
  JobId : uuid
  WorkerAddress : SocketIdentity
  jstatus : JobStatus
  jresult : Option JobResult
  last_heartbeat : Nat
  deriving DecidableEq

/-- Modelled from the spec: `ActiveJobs` of section 4.4, `JobId → ActiveJobRecord`, kept as the
list of its records (`ActiveJobs.h` is not among the sources). -/
structure ActiveJobs where
  Info : List ActiveJobRecord
  deriving DecidableEq

namespace ActiveJobs

/-- Modelled from the spec: the active jobs of a new server. -/
def empty : ActiveJobs := ⟨[]⟩

/-- The record of a job id. -/
def find (a : ActiveJobs) (id : uuid) : Option ActiveJobRecord :=
  a.Info.find? (fun r => r.JobId == id)

/-- Modelled from the spec: `haveUUID(JobId)`. -/
def haveUUID (a : ActiveJobs) (id : uuid) : Bool :=
  a.Info.any (fun r => r.JobId == id)

/-- The ids held by the active jobs. -/
def ids (a : ActiveJobs) : List uuid := a.Info.map (fun r => r.JobId)

/-- Modelled from the spec: `add(worker_id, JobId)` creates a record in state `IN_PROGRESS` with
empty progress.  The clock reading `now` stamps the record. -/
def add (a : ActiveJobs) (now : Nat) (worker : SocketIdentity) (id : uuid) : ActiveJobs :=
  ⟨a.Info.filter (fun r => r.JobId != id) ++
    [⟨id, worker, JobStatus.mk2 id STATUS_TYPE.IN_PROGRESS, none, now⟩]⟩

/-- Modelled from the spec: `status(JobId)`. -/
def status (a : ActiveJobs) (id : uuid) : Option JobStatus :=
  (a.find id).map (fun r => r.jstatus)

/-- Modelled from the spec: `haveResult(JobId)`. -/
def haveResult (a : ActiveJobs) (id : uuid) : Bool :=
  match a.find id with
  | some r => r.jresult.isSome
  | none => false

/-- Modelled from the spec: `result(JobId)`. -/
def result (a : ActiveJobs) (id : uuid) : Option JobResult :=
  match a.find id with
  | some r => r.jresult
  | none => none

/-- Modelled from the spec: `updateStatus(JobStatus)` merges into the record, monotone per
invariant 4 (the stored state is not terminal and the new state is not lower on the chain);
a status for an unknown `JobId` is silently discarded. -/
def updateStatus (a : ActiveJobs) (js : JobStatus) : ActiveJobs :=
  ⟨a.Info.map (fun r =>
    if r.JobId = js.JobId ∧ r.jstatus.Status.terminal = false
        ∧ r.jstatus.Status.rank ≤ js.Status.rank then
      { r with jstatus := js }
    else r)⟩

/-- Modelled from the spec: `updateResult(JobResult)` attaches the result and transitions the
status to `FINISHED`; by invariant 5 a result is only attached to a job whose current status is
`IN_PROGRESS` or `FINISHED`. -/
def updateResult (a : ActiveJobs) (jr : JobResult) : ActiveJobs :=
  ⟨a.Info.map (fun r =>
    if r.JobId = jr.JobId ∧ (r.jstatus.Status = STATUS_TYPE.IN_PROGRESS
        ∨ r.jstatus.Status = STATUS_TYPE.FINISHED) then
      { r with jresult := some jr, jstatus := JobStatus.mk2 jr.JobId STATUS_TYPE.FINISHED }
    else r)⟩

/-- Modelled from the spec: `refreshJobs(worker_id, now)` bumps `last_heartbeat` of every record
whose `assigned_worker == worker_id`. -/
def refreshJobs (a : ActiveJobs) (now : Nat) (worker : SocketIdentity) : ActiveJobs :=
  ⟨a.Info.map (fun r => if r.WorkerAddress = worker then { r with last_heartbeat := now } else r)⟩

/-- Modelled from the spec: `remove(JobId)` drops the record. -/
def remove (a : ActiveJobs) (id : uuid) : ActiveJobs :=
  ⟨a.Info.filter (fun r => r.JobId != id)⟩

/-- A worker identity is the assigned worker of some record. -/
def isAssigned (a : ActiveJobs) (worker : SocketIdentity) : Bool :=
  a.Info.any (fun r => r.WorkerAddress == worker)

end ActiveJobs

/-! ## JobResponse (`remus/common/JobResponse.h`) -/

/-- What has been written to a socket: the multi-part messages sent so far, oldest first, each
the list of its frames. -/
abbrev Socket := List (List Bytes)

/-- Modelled from the spec: `zmq::attachReqHeader` (`zmqHelper.h` is not among the sources) writes
the fixed protocol header frame, the empty "fake rep spacer". -/
def reqHeader : Bytes := []

/-- Object representation of a `bool`, as copied by the generic `setData<T>`: one byte. -/
def objectBytes_bool (b : Bool) : Bytes := [if b then 1 else 0]

/-- Object representation of a `STATUS_TYPE` enumerator, as copied by the generic `setData<T>`:
the four bytes of its value, low byte first. -/
def objectBytes_STATUS_TYPE (s : STATUS_TYPE) : Bytes := [s.toNat % 256, 0, 0, 0]

/-- The class `JobResponse`: the recipient and the data message (`none` is the `NULL` pointer). -/
structure JobResponse where
  ClientAddress : SocketIdentity
  Data : Option Bytes
  deriving DecidableEq

namespace JobResponse

/-- The constructor `JobResponse(const zmq::socketIdentity& client)`. -/
def new (client : SocketIdentity) : JobResponse := ⟨client, none⟩

/-- Both `setData` templates: clear the old message and build a new one holding the bytes `t`
(the characters of a `std::string`, or the object representation of any other `T`). -/
def setData (r : JobResponse) (t : Bytes) : JobResponse := { r with Data := some t }

/-- The specialisation `dataAs<std::string>`; there is nothing to read behind a `NULL` pointer. -/
def dataAs_string (r : JobResponse) : Option Bytes := r.Data

/-- The method `send`: the flag it returns, the response afterwards (the data bytes have been
moved out of the message) and the socket afterwards. -/
def send (r : JobResponse) (socket : Socket) : Bool × JobResponse × Socket :=
  match r.Data with
  | none => (false, r, socket)
  | some d =>
    let cAddress : List Bytes := if r.ClientAddress.length > 0 then [r.ClientAddress] else []
    (true, { r with Data := some [] }, socket ++ [cAddress ++ [reqHeader] ++ [d]])

end JobResponse

/-! ## Server (`remus/server/Server.cxx`) -/

/-- The broker: both router sockets (what has been sent on each), the three containers, and the
`createWorker` requests made to the worker factory so far. -/
structure Server where
  ClientQueries : Socket
  WorkerQueries : Socket
  QueuedJobs : JobQueue
  WorkerPool : WorkerPool
  ActiveJobs : ActiveJobs
  FactoryRequests : List MESH_TYPE
  deriving DecidableEq

namespace Server

/-- The constructors `Server::Server`: empty containers, nothing sent. -/
def init : Server := ⟨[], [], JobQueue.empty, WorkerPool.empty, ActiveJobs.empty, []⟩

/-- The method `Server::canMesh`. -/
def canMesh (f : WorkerFactory) (msg : JobMessage) : Bool :=
  f.haveSupport msg.meshType

/-- The status computed by `Server::meshStatus` before it is serialised. -/
def meshStatus_js (c : Codec) (s : Server) (msg : JobMessage) : JobStatus :=
  let id := c.to_uuid msg
  let js := JobStatus.mk2 id STATUS_TYPE.INVALID_STATUS
  if s.QueuedJobs.haveUUID id then
    { js with Status := STATUS_TYPE.QUEUED }
  else if s.ActiveJobs.haveUUID id then
    match s.ActiveJobs.status id with
    | some st => st
    | none => js
  else js

/-- The method `Server::meshStatus`. -/
def meshStatus (c : Codec) (s : Server) (msg : JobMessage) : Bytes :=
  c.status_to_string (meshStatus_js c s msg)

/-- The method `Server::queueJob`; `jobUUID` is what `UUIDGenerator()` returns when called. -/
def queueJob (c : Codec) (f : WorkerFactory) (jobUUID : uuid) (s : Server) (msg : JobMessage) :
    Bytes × Server :=
  if canMesh f msg then
    (c.uuid_to_string jobUUID, { s with QueuedJobs := s.QueuedJobs.addJob jobUUID msg })
  else (INVALID_MSG, s)

/-- The result computed by `Server::retrieveMesh` before it is serialised. -/
def retrieveMesh_result (c : Codec) (s : Server) (msg : JobMessage) : JobResult :=
  let id := c.to_uuid msg
  let result := JobResult.empty id
  if s.ActiveJobs.haveUUID id && s.ActiveJobs.haveResult id then
    match s.ActiveJobs.result id with
    | some r => r
    | none => result
  else result

/-- The method `Server::retrieveMesh`. -/
def retrieveMesh (c : Codec) (s : Server) (msg : JobMessage) : Bytes × Server :=
  (c.result_to_string (retrieveMesh_result c s msg),
    { s with ActiveJobs := s.ActiveJobs.remove (c.to_uuid msg) })

/-- The response `Server::DetermineJobQueryResponse` has built when it reaches `response.send`
(on either path), with the server state at that point. -/
def DetermineJobQueryResponse_response (c : Codec) (f : WorkerFactory) (jobUUID : uuid)
    (s : Server) (clientIdentity : SocketIdentity) (msg : JobMessage) : JobResponse × Server :=
  let response := JobResponse.new clientIdentity
  if !msg.isValid then
    (response.setData INVALID_MSG, s)
  else
    match msg.serviceType with
    | SERVICE_TYPE.MAKE_MESH =>
      (response.setData (queueJob c f jobUUID s msg).1, (queueJob c f jobUUID s msg).2)
    | SERVICE_TYPE.MESH_STATUS => (response.setData (meshStatus c s msg), s)
    | SERVICE_TYPE.CAN_MESH => (response.setData (objectBytes_bool (canMesh f msg)), s)
    | SERVICE_TYPE.RETRIEVE_MESH =>
      (response.setData (retrieveMesh c s msg).1, (retrieveMesh c s msg).2)
    | _ => (response.setData (objectBytes_STATUS_TYPE STATUS_TYPE.INVALID_STATUS), s)

/-- The method `Server::DetermineJobQueryResponse`: build the response, then
`response.send(this->ClientQueries)`. -/
def DetermineJobQueryResponse (c : Codec) (f : WorkerFactory) (jobUUID : uuid) (s : Server)
    (clientIdentity : SocketIdentity) (msg : JobMessage) : Server :=
  let rs := DetermineJobQueryResponse_response c f jobUUID s clientIdentity msg
  { rs.2 with ClientQueries := (rs.1.send rs.2.ClientQueries).2.2 }

/-- The frames of a reply to `identity` carrying `payload`: the address frame (only for a
non-empty identity), the header frame, the data frame. -/
def replyFrames (identity : SocketIdentity) (payload : Bytes) : List Bytes :=
  (if identity.length > 0 then [identity] else []) ++ [reqHeader] ++ [payload]

/-- The method `Server::storeMeshStatus`. -/
def storeMeshStatus (c : Codec) (s : Server) (msg : JobMessage) : Server :=
  { s with ActiveJobs := s.ActiveJobs.updateStatus (c.to_JobStatus msg.data) }

/-- The method `Server::storeMesh`. -/
def storeMesh (c : Codec) (s : Server) (msg : JobMessage) : Server :=
  { s with ActiveJobs := s.ActiveJobs.updateResult (c.to_JobResult msg.data) }

/-- The method `Server::DetermineWorkerResponse`; `now` is the clock reading used by the pool. -/
def DetermineWorkerResponse (c : Codec) (now : Nat) (s : Server)
    (workerIdentity : SocketIdentity) (msg : JobMessage) : Server :=
  match msg.serviceType with
  | SERVICE_TYPE.CAN_MESH =>
    { s with WorkerPool := s.WorkerPool.addWorker now workerIdentity msg.meshType }
  | SERVICE_TYPE.MAKE_MESH =>
    let pool :=
      if !s.WorkerPool.haveWorker workerIdentity then
        s.WorkerPool.addWorker now workerIdentity msg.meshType
      else s.WorkerPool
    { s with WorkerPool := pool.readyForWork workerIdentity }
  | SERVICE_TYPE.MESH_STATUS => storeMeshStatus c s msg
  | SERVICE_TYPE.RETRIEVE_MESH => storeMesh c s msg
  | _ => s

/-- The method `Server::assignJobToWorker`. -/
def assignJobToWorker (c : Codec) (now : Nat) (s : Server) (workerIdentity : SocketIdentity)
    (job : JobDetails) : Server :=
  let response := (JobResponse.new workerIdentity).setData (c.job_to_string job)
  { s with
    ActiveJobs := s.ActiveJobs.add now workerIdentity job.JobId
    WorkerQueries := (response.send s.WorkerQueries).2.2 }

/-- Body of the first loop of `Server::FindWorkerForQueuedJob`, for one queued type. -/
def requestWorker (f : WorkerFactory) (s : Server) (T : MESH_TYPE) : Server :=
  if s.WorkerPool.haveWaitingWorker T then
    { s with QueuedJobs := s.QueuedJobs.workerDispatched T }
  else if f.createWorker T then
    { s with
      FactoryRequests := s.FactoryRequests ++ [T]
      QueuedJobs := s.QueuedJobs.workerDispatched T }
  else { s with FactoryRequests := s.FactoryRequests ++ [T] }

/-- Body of the second loop of `Server::FindWorkerForQueuedJob`, for one waiting type.  When the
pool has no worker to take or the queue no job to take there is nothing to assign. -/
def assignWaiting (c : Codec) (now : Nat) (s : Server) (T : MESH_TYPE) : Server :=
  if s.WorkerPool.haveWaitingWorker T then
    match s.WorkerPool.takeWorker T, s.QueuedJobs.takeJob T with
    | some (w, pool), some (job, queue) =>
      assignJobToWorker c now { s with WorkerPool := pool, QueuedJobs := queue } w job
    | _, _ => s
  else s

/-- The method `Server::FindWorkerForQueuedJob`: both sets of types are read before their loop
starts.  `WorkerFactory::updateWorkerCount` changes nothing the broker state records. -/
def FindWorkerForQueuedJob (c : Codec) (f : WorkerFactory) (now : Nat) (s : Server) : Server :=
  let s1 := s.QueuedJobs.queuedJobTypes.foldl (requestWorker f) s
  s1.QueuedJobs.waitingForWorkerTypes.foldl (assignWaiting c now) s1

/-- The client branch of one iteration of `Server::startBrokering` (lines 115-124). -/
def clientBranch (c : Codec) (f : WorkerFactory) (jobUUID : uuid) (s : Server)
    (clientIdentity : SocketIdentity) (message : JobMessage) : Server :=
  DetermineJobQueryResponse c f jobUUID s clientIdentity message

/-- The worker branch of one iteration of `Server::startBrokering` (lines 125-141): the handler,
then the heartbeat refresh of the sender's jobs and of its pool record. -/
def workerBranch (c : Codec) (now : Nat) (s : Server)
    (workerIdentity : SocketIdentity) (message : JobMessage) : Server :=
  let s1 := DetermineWorkerResponse c now s workerIdentity message
  let s2 := { s1 with ActiveJobs := s1.ActiveJobs.refreshJobs now workerIdentity }
  { s2 with WorkerPool := s2.WorkerPool.refreshWorker now workerIdentity }

end Server

/-- A sample serialisation, used to evaluate the handlers on concrete inputs: the id is the first
element of the payload, a status is written as id, state and progress value, a result as id
followed by its bytes. -/
def sampleCodec : Codec where
  to_uuid := fun m => m.Data.headD 0
  to_JobStatus := fun b =>
    ⟨b.headD 0,
      (match b.tail.headD 0 with
        | 1 => STATUS_TYPE.QUEUED
        | 2 => STATUS_TYPE.IN_PROGRESS
        | 3 => STATUS_TYPE.FINISHED
        | 4 => STATUS_TYPE.FAILED
        | 5 => STATUS_TYPE.EXPIRED
        | _ => STATUS_TYPE.INVALID_STATUS),
      (match b.tail.tail with
        | [] => none
        | v :: _ => some ⟨v, []⟩)⟩
  to_JobResult := fun b => ⟨b.headD 0, b.tail⟩
  uuid_to_string := fun id => [id]
  status_to_string := fun js =>
    [js.JobId, js.Status.toNat] ++ (match js.Progress with
      | none => []
      | some p => [p.value.toNat])
  result_to_string := fun r => r.JobId :: r.Data
  job_to_string := fun j => j.JobId :: j.MType :: j.Data

/-- A factory that supports no type and can create no worker (the integration test's factory). -/
def noFactory : WorkerFactory := ⟨fun _ => false, fun _ => false⟩

/-- A factory that supports every type and creates nothing. -/
def anyFactory : WorkerFactory := ⟨fun _ => true, fun _ => false⟩

/-- A server state used to evaluate the handlers: job 5 of type 2 is queued, job 6 is active on
worker `[7]` with progress 50, nothing has been sent. -/
def sampleServer : Server :=
  ⟨[], [], ⟨[⟨5, 2, []⟩], []⟩, ⟨[]⟩,
    ⟨[⟨6, [7], ⟨6, STATUS_TYPE.IN_PROGRESS, some ⟨50, []⟩⟩, none, 0⟩]⟩, []⟩

/-- A server state reached from `Server.init`: worker `[7]` of type 2 asks for a job, a client
submits job 100 of type 2, the job is assigned, and the worker reports it `FAILED`. -/
def failedJobServer : Server :=
  Server.workerBranch sampleCodec 3
    (Server.FindWorkerForQueuedJob sampleCodec anyFactory 2
      (Server.clientBranch sampleCodec anyFactory 100
        (Server.workerBranch sampleCodec 1 Server.init [7] ⟨true, SERVICE_TYPE.MAKE_MESH, 2, []⟩)
        [9] ⟨true, SERVICE_TYPE.MAKE_MESH, 2, [42]⟩))
    [7] ⟨true, SERVICE_TYPE.MESH_STATUS, 2, [100, 4]⟩

/-- A server state reached from `Server.init`: worker `[7]` of type 2 asks for a job, a client
submits job 100 of type 2, the job is assigned to `[7]`, and `[7]` asks for a job again. -/
def readyWhileAssignedServer : Server :=
  Server.workerBranch sampleCodec 3
    (Server.FindWorkerForQueuedJob sampleCodec anyFactory 2
      (Server.clientBranch sampleCodec anyFactory 100
        (Server.workerBranch sampleCodec 1 Server.init [7] ⟨true, SERVICE_TYPE.MAKE_MESH, 2, []⟩)
        [9] ⟨true, SERVICE_TYPE.MAKE_MESH, 2, [42]⟩))
    [7] ⟨true, SERVICE_TYPE.MAKE_MESH, 2, []⟩

/-! ## Reachable broker states -/

/-- The broker states reachable from the state of a new server.  A step is the handling of one
client message (`clientBranch`; `jobUUID` is what the generator would return, admitted when
`idOk` holds of it), the handling of one worker message (`workerBranch`, admitted when `workerOk`
holds), or one call of `FindWorkerForQueuedJob`.  The serialisation is fixed; the factory's
answers and the clock readings are arbitrary at every step. -/
inductive ReachableVia (c : Codec) (idOk : Server → uuid → Prop)
    (workerOk : Server → SocketIdentity → JobMessage → Prop) : Server → Prop where
  | init : ReachableVia c idOk workerOk Server.init
  | client (f : WorkerFactory) (jobUUID : uuid) (s : Server) (clientIdentity : SocketIdentity)
      (msg : JobMessage) :
      ReachableVia c idOk workerOk s → idOk s jobUUID →
      ReachableVia c idOk workerOk (Server.clientBranch c f jobUUID s clientIdentity msg)
  | worker (now : Nat) (s : Server) (workerIdentity : SocketIdentity) (msg : JobMessage) :
      ReachableVia c idOk workerOk s → workerOk s workerIdentity msg →
      ReachableVia c idOk workerOk (Server.workerBranch c now s workerIdentity msg)
  | find (f : WorkerFactory) (now : Nat) (s : Server) :
      ReachableVia c idOk workerOk s →
      ReachableVia c idOk workerOk (Server.FindWorkerForQueuedJob c f now s)

/-- A generated id is fresh: neither the `JobQueue` nor `ActiveJobs` holds it. -/
def Fresh (s : Server) (id : uuid) : Prop :=
  s.QueuedJobs.haveUUID id = false ∧ s.ActiveJobs.haveUUID id = false

/-- No restriction on the generated id. -/
def AnyId (_ : Server) (_ : uuid) : Prop := True

/-- No restriction on the worker message. -/
def AnyWorkerMessage (_ : Server) (_ : SocketIdentity) (_ : JobMessage) : Prop := True

/-- The worker message is not a `MAKE_MESH` (ready-for-work) from an identity that is the assigned
worker of a record in `ActiveJobs`. -/
def NotReadyWhileAssigned (s : Server) (w : SocketIdentity) (msg : JobMessage) : Prop :=
  msg.serviceType = SERVICE_TYPE.MAKE_MESH → s.ActiveJobs.isAssigned w = false

/-- Single residence: no job id is held by both the `JobQueue` and `ActiveJobs`. -/
def SingleResidence (s : Server) : Prop :=
  ∀ id : uuid, ¬ (s.QueuedJobs.haveUUID id = true ∧ s.ActiveJobs.haveUUID id = true)

/-- At-most-once assignment: no worker identity is both ready in the `WorkerPool` and the assigned
worker of a record in `ActiveJobs`. -/
def AtMostOnce (s : Server) : Prop :=
  ∀ w : SocketIdentity, ¬ (s.WorkerPool.isReady w = true ∧ s.ActiveJobs.isAssigned w = true)

/-- The invariant behind single residence: the ids in the `JobQueue` are pairwise distinct and
none of them is held by `ActiveJobs`. -/
def QueueApart (s : Server) : Prop :=
  s.QueuedJobs.ids.Nodup ∧ ∀ id ∈ s.QueuedJobs.ids, id ∉ s.ActiveJobs.ids

/-! ## Heartbeat maintenance and the loop of `Server::startBrokering` -/

/-- Modelled from the spec: `markFailedJobs(now)` of section 4.4 (`ActiveJobs.h` is not among the
sources): every record whose `last_heartbeat` is older than the expiry threshold of its worker
transitions to `EXPIRED`, whatever its status was. -/
def ActiveJobs.markFailedJobs (a : ActiveJobs) (threshold : SocketIdentity → Nat) (now : Nat) :
    ActiveJobs :=
  ⟨a.Info.map (fun r =>
    if r.last_heartbeat + threshold r.WorkerAddress < now then
      { r with jstatus := { r.jstatus with Status := STATUS_TYPE.EXPIRED } }
    else r)⟩

/-- Modelled from the spec: `purgeDeadWorkers(now)` of section 4.3 (`WorkerPool.h` is not among
the sources) removes all records whose `last_heartbeat` is older than the per-identity expiry
threshold. -/
def WorkerPool.purgeDeadWorkers (p : WorkerPool) (threshold : SocketIdentity → Nat) (now : Nat) :
    WorkerPool :=
  ⟨p.Pool.filter (fun r => !(decide (r.last_heartbeat + threshold r.Address < now)))⟩

/-- The constructor `JobResponse(zmq::socket_t& socket)`: after the header has been removed the
data frame `data` is received; a frame of size 0 leaves the data pointer `NULL`. -/
def JobResponse.receive (data : Bytes) : JobResponse :=
  ⟨[], if data.length > 0 then some data else none⟩

/-- The broker states reachable from a state `s0`.  A step is the handling of one client message,
the handling of one worker message, a `markFailedJobs` sweep, a `purgeDeadWorkers` sweep, or one
call of `FindWorkerForQueuedJob`; ids, worker messages, thresholds, clock readings and factory
answers are arbitrary at every step, within `idOk` and `workerOk`. -/
inductive Runs (c : Codec) (idOk : Server → uuid → Prop)
    (workerOk : Server → SocketIdentity → JobMessage → Prop) (s0 : Server) : Server → Prop where
  | start : Runs c idOk workerOk s0 s0
  | client (f : WorkerFactory) (jobUUID : uuid) (s : Server) (clientIdentity : SocketIdentity)
      (msg : JobMessage) :
      Runs c idOk workerOk s0 s → idOk s jobUUID →
      Runs c idOk workerOk s0 (Server.clientBranch c f jobUUID s clientIdentity msg)
  | worker (now : Nat) (s : Server) (workerIdentity : SocketIdentity) (msg : JobMessage) :
      Runs c idOk workerOk s0 s → workerOk s workerIdentity msg →
      Runs c idOk workerOk s0 (Server.workerBranch c now s workerIdentity msg)
  | markFailed (threshold : SocketIdentity → Nat) (hbTime : Nat) (s : Server) :
      Runs c idOk workerOk s0 s →
      Runs c idOk workerOk s0
        { s with ActiveJobs := s.ActiveJobs.markFailedJobs threshold hbTime }
  | purge (threshold : SocketIdentity → Nat) (hbTime : Nat) (s : Server) :
      Runs c idOk workerOk s0 s →
      Runs c idOk workerOk s0
        { s with WorkerPool := s.WorkerPool.purgeDeadWorkers threshold hbTime }
  | find (f : WorkerFactory) (now : Nat) (s : Server) :
      Runs c idOk workerOk s0 s →
      Runs c idOk workerOk s0 (Server.FindWorkerForQueuedJob c f now s)

/-- A generated id is fresh and differs from the id `J`. -/
def FreshNot (J : uuid) (s : Server) (id : uuid) : Prop := Fresh s id ∧ id ≠ J

/-- A generated id is fresh and differs from the ids `J1` and `J2`. -/
def FreshNot2 (J1 J2 : uuid) (s : Server) (id : uuid) : Prop := Fresh s id ∧ id ≠ J1 ∧ id ≠ J2

/-- Every stored status is on the chain at or after `IN_PROGRESS`. -/
def ActiveOnChain (s : Server) : Prop :=
  ∀ r ∈ s.ActiveJobs.Info, 2 ≤ r.jstatus.Status.rank

/-- The ids of the queued jobs of type `T` in the order in which `takeJob` and `workerDispatched`
serve them: those awaiting a worker, then those awaiting dispatch. -/
def JobQueue.typeOrder (q : JobQueue) (T : MESH_TYPE) : List uuid :=
  ((q.awaiting_worker ++ q.awaiting_dispatch).filter (fun j => j.MType == T)).map
    (fun j => j.JobId)
/-- A server state reached from `Server.init`: worker `[7]` of type 2 asks for a job, a client
submits job 100 of type 2, and the job is assigned to `[7]`. -/
def assignedJobServer : Server :=
  Server.FindWorkerForQueuedJob sampleCodec anyFactory 2
    (Server.clientBranch sampleCodec anyFactory 100
      (Server.workerBranch sampleCodec 1 Server.init [7] ⟨true, SERVICE_TYPE.MAKE_MESH, 2, []⟩)
      [9] ⟨true, SERVICE_TYPE.MAKE_MESH, 2, [42]⟩)

/-- A server state reached from `assignedJobServer`: worker `[7]` delivers the result `[1, 2, 3]`
of job 100 at time 3. -/
def finishedJobServer : Server :=
  Server.workerBranch sampleCodec 3 assignedJobServer [7]
    ⟨true, SERVICE_TYPE.RETRIEVE_MESH, 2, [100, 1, 2, 3]⟩

/-- A generated id differs from the id `J` (it was not generated before). -/
def OtherId (J : uuid) (_ : Server) (id : uuid) : Prop := id ≠ J

/-- The state behind a terminal reply for `J`: the queue does not hold `J`, and a record of `J`
in `ActiveJobs`, if there is one, has the status `t`. -/
def SettledAt (J : uuid) (t : STATUS_TYPE) (s : Server) : Prop :=
  s.QueuedJobs.haveUUID J = false ∧ ∀ r, s.ActiveJobs.find J = some r → r.jstatus.Status = t

/-- Single residence, and job `i1`, while queued, stands in the serving order of type `T`. -/
def QueuedInOrder (i1 : uuid) (T : MESH_TYPE) (s : Server) : Prop :=
  QueueApart s ∧ (i1 ∈ s.QueuedJobs.ids → i1 ∈ s.QueuedJobs.typeOrder T)

/-- Single residence, and while job `i1` is queued, job `i2` stands behind it in the serving order
of type `T` and is not held by `ActiveJobs`. -/
def QueuedBehind (i1 i2 : uuid) (T : MESH_TYPE) (s : Server) : Prop :=
  QueueApart s ∧
    (i1 ∈ s.QueuedJobs.ids →
      i2 ∉ s.ActiveJobs.ids ∧ ∃ l1 l2, s.QueuedJobs.typeOrder T = l1 ++ i1 :: l2 ∧ i2 ∈ l2)

/-- Two submissions of type 2 to a new server that supports the type, ids 100 then 101, followed
by a `FindWorkerForQueuedJob` with no worker in the pool. -/
def twoQueuedServer : Server :=
  Server.FindWorkerForQueuedJob sampleCodec anyFactory 3
    (Server.clientBranch sampleCodec anyFactory 101
      (Server.clientBranch sampleCodec anyFactory 100 Server.init [9]
        ⟨true, SERVICE_TYPE.MAKE_MESH, 2, [42]⟩)
      [9] ⟨true, SERVICE_TYPE.MAKE_MESH, 2, [43]⟩)

/-- The identities in the `WorkerPool` are pairwise distinct (the pool is a map from identities
to records). -/
def PoolDistinct (s : Server) : Prop :=
  (s.WorkerPool.Pool.map (fun r => r.Address)).Nodup
/-- The record `ActiveJobs::add` creates for job `i` on worker `w` at time `now`. -/
def assignedRecord (i : uuid) (w : SocketIdentity) (now : Nat) : ActiveJobRecord :=
  ⟨i, w, JobStatus.mk2 i STATUS_TYPE.IN_PROGRESS, none, now⟩

/-- In the second loop of `FindWorkerForQueuedJob` started from `s`, before type `T` is served:
the only queued job of type `T` is `i`, it awaits a worker, and the workers of type `T` are all
still in the pool. -/
def AssignPre (s : Server) (T : MESH_TYPE) (i : uuid) (w : SocketIdentity) (b : Server) : Prop :=
  b.WorkerPool.Pool.Sublist s.WorkerPool.Pool
  ∧ b.WorkerPool.waiting T = s.WorkerPool.waiting T
  ∧ (∀ r ∈ s.WorkerPool.Pool, r.MType = T → r ∈ b.WorkerPool.Pool)
  ∧ (∀ r ∈ b.ActiveJobs.Info, r ∈ s.ActiveJobs.Info ∨ r.WorkerAddress ≠ w)
  ∧ b.ActiveJobs.Info.filter (fun r => r.JobId == i) = []
  ∧ b.QueuedJobs.ids.Nodup
  ∧ b.QueuedJobs.typeOrder T = [i]
  ∧ b.QueuedJobs.awaiting_dispatch.filter (fun k => k.MType == T) = []

/-- In the second loop of `FindWorkerForQueuedJob` started from `s`, after type `T` has been
served: job `i` has left the queue, worker `w` has left the pool, and `ActiveJobs` holds exactly
one record of `i`, assigned to `w`. -/
def AssignPost (s : Server) (T : MESH_TYPE) (i : uuid) (w : SocketIdentity) (now : Nat)
    (b : Server) : Prop :=
  b.WorkerPool.Pool.Sublist s.WorkerPool.Pool
  ∧ b.WorkerPool.haveWorker w = false
  ∧ (∀ r ∈ s.WorkerPool.Pool, r.MType = T → r.Address ≠ w → r ∈ b.WorkerPool.Pool)
  ∧ (∀ r ∈ b.ActiveJobs.Info,
      r ∈ s.ActiveJobs.Info ∨ r.WorkerAddress ≠ w ∨ r = assignedRecord i w now)
  ∧ b.ActiveJobs.Info.filter (fun r => r.JobId == i) = [assignedRecord i w now]
  ∧ i ∉ b.QueuedJobs.ids
  ∧ b.QueuedJobs.typeOrder T = []
/-- A server state reached from `Server.init`: workers `[7]` (at time 1) and `[8]` (at time 2), both
of type 2, ask for a job, then a client submits job 100 of type 2. -/
def twoReadyServer : Server :=
  Server.clientBranch sampleCodec anyFactory 100
    (Server.workerBranch sampleCodec 2
      (Server.workerBranch sampleCodec 1 Server.init [7] ⟨true, SERVICE_TYPE.MAKE_MESH, 2, []⟩)
      [8] ⟨true, SERVICE_TYPE.MAKE_MESH, 2, []⟩)
    [9] ⟨true, SERVICE_TYPE.MAKE_MESH, 2, [42]⟩

/-- The first loop of `Server::FindWorkerForQueuedJob`: every type with a job awaiting dispatch
is visited once, in the order of the set. -/
def Server.requestWorkers (f : WorkerFactory) (s : Server) : Server :=
  s.QueuedJobs.queuedJobTypes.foldl (Server.requestWorker f) s

/-- A factory that supports every type and starts a worker whenever it is asked. -/
def spawningFactory : WorkerFactory := ⟨fun _ => true, fun _ => true⟩

/-- A server state reached from `Server.init`: worker `[7]` of type 2 asks for a job, and a
client submits jobs 100 and 101 of type 2 and job 102 of type 3. -/
def threeQueuedServer : Server :=
  Server.clientBranch sampleCodec anyFactory 102
    (Server.clientBranch sampleCodec anyFactory 101
      (Server.clientBranch sampleCodec anyFactory 100
        (Server.workerBranch sampleCodec 1 Server.init [7] ⟨true, SERVICE_TYPE.MAKE_MESH, 2, []⟩)
        [9] ⟨true, SERVICE_TYPE.MAKE_MESH, 2, [42]⟩)
      [9] ⟨true, SERVICE_TYPE.MAKE_MESH, 2, [43]⟩)
    [9] ⟨true, SERVICE_TYPE.MAKE_MESH, 3, [44]⟩

/-- A server state reached from `Server.init`: worker `[7]` registers type 2 with `CAN_MESH` and
does not ask for a job, and a client submits job 100 of type 2. -/
def registeredOnlyServer : Server :=
  Server.clientBranch sampleCodec anyFactory 100
    (Server.workerBranch sampleCodec 1 Server.init [7] ⟨true, SERVICE_TYPE.CAN_MESH, 2, []⟩)
    [9] ⟨true, SERVICE_TYPE.MAKE_MESH, 2, [42]⟩

/-- A server state reached from `Server.init`: worker `[7]` registers type 2 with `CAN_MESH`,
worker `[8]` of type 2 asks for a job later, and a client submits job 100 of type 2. -/
def mixedPoolServer : Server :=
  Server.clientBranch sampleCodec anyFactory 100
    (Server.workerBranch sampleCodec 2
      (Server.workerBranch sampleCodec 1 Server.init [7] ⟨true, SERVICE_TYPE.CAN_MESH, 2, []⟩)
      [8] ⟨true, SERVICE_TYPE.MAKE_MESH, 2, []⟩)
    [9] ⟨true, SERVICE_TYPE.MAKE_MESH, 2, [42]⟩

/-! # Theorems -/

open Server

/-! ## Lemmas on the containers -/

theorem activeJobs_find_of_haveUUID (a : ActiveJobs) (id : uuid) (h : a.haveUUID id = true) :
    ∃ r, a.find id = some r := by
  unfold ActiveJobs.haveUUID at h
  unfold ActiveJobs.find
  rw [List.any_eq_true] at h
  obtain ⟨r, hr, hp⟩ := h
  have : (a.Info.find? (fun r => r.JobId == id)).isSome = true := by
    rw [List.find?_isSome]
    exact ⟨r, hr, hp⟩
  exact Option.isSome_iff_exists.mp this

theorem activeJobs_haveUUID_remove (a : ActiveJobs) (id : uuid) :
    (a.remove id).haveUUID id = false := by
  unfold ActiveJobs.haveUUID ActiveJobs.remove
  rw [Bool.eq_false_iff]
  intro h
  rw [List.any_eq_true] at h
  obtain ⟨r, hr, hp⟩ := h
  rw [List.mem_filter] at hr
  simp at hr hp
  exact hr.2 hp

/-- What `DetermineJobQueryResponse` does with the response it has built: one message on the
client socket, nothing else. -/
theorem determineJobQueryResponse_eq (c : Codec) (f : WorkerFactory) (jobUUID : uuid)
    (s : Server) (clientIdentity : SocketIdentity) (msg : JobMessage) (payload : Bytes)
    (s2 : Server)
    (h : DetermineJobQueryResponse_response c f jobUUID s clientIdentity msg =
      (⟨clientIdentity, some payload⟩, s2)) :
    DetermineJobQueryResponse c f jobUUID s clientIdentity msg =
      { s2 with ClientQueries := s2.ClientQueries ++ [replyFrames clientIdentity payload] } := by
  unfold DetermineJobQueryResponse
  rw [h]
  simp [JobResponse.send, replyFrames]

/-! ## The client handlers -/

/-- C1. For every job id the client `MESH_STATUS` handler replies `QUEUED` when the id is in the
`JobQueue`; otherwise, when the id is in `ActiveJobs`, exactly `ActiveJobs.status(id)`; otherwise
a status for that id whose state is `INVALID_STATUS`.  The reply is the payload of the one message
sent to the client, and handling the message changes neither the `JobQueue`, the `WorkerPool` nor
`ActiveJobs`. -/
theorem C1_meshStatus (c : Codec) (f : WorkerFactory) (jobUUID : uuid) (s : Server)
    (clientIdentity : SocketIdentity) (msg : JobMessage)
    (hv : msg.isValid = true) (hs : msg.serviceType = SERVICE_TYPE.MESH_STATUS) :
    (s.QueuedJobs.haveUUID (c.to_uuid msg) = true →
      meshStatus c s msg = c.status_to_string ⟨c.to_uuid msg, STATUS_TYPE.QUEUED, none⟩)
    ∧ (s.QueuedJobs.haveUUID (c.to_uuid msg) = false →
        s.ActiveJobs.haveUUID (c.to_uuid msg) = true →
        ∃ st, s.ActiveJobs.status (c.to_uuid msg) = some st
          ∧ meshStatus c s msg = c.status_to_string st)
    ∧ (s.QueuedJobs.haveUUID (c.to_uuid msg) = false →
        s.ActiveJobs.haveUUID (c.to_uuid msg) = false →
        meshStatus c s msg
          = c.status_to_string ⟨c.to_uuid msg, STATUS_TYPE.INVALID_STATUS, none⟩)
    ∧ DetermineJobQueryResponse c f jobUUID s clientIdentity msg =
        { s with ClientQueries :=
            s.ClientQueries ++ [replyFrames clientIdentity (meshStatus c s msg)] } := by
  refine ⟨?_, ?_, ?_, ?_⟩
  · intro hq
    simp [meshStatus, meshStatus_js, hq, JobStatus.mk2]
  · intro hq ha
    obtain ⟨r, hr⟩ := activeJobs_find_of_haveUUID _ _ ha
    refine ⟨r.jstatus, ?_, ?_⟩
    · simp [ActiveJobs.status, hr]
    · simp [meshStatus, meshStatus_js, hq, ha, ActiveJobs.status, hr]
  · intro hq ha
    simp [meshStatus, meshStatus_js, hq, ha, JobStatus.mk2]
  · apply determineJobQueryResponse_eq
    simp [DetermineJobQueryResponse_response, hv, hs, JobResponse.new, JobResponse.setData]

/-- C1 at a concrete input: the status query for the active job 6 is answered with the stored
status, in one message to the client `[9]`, and the containers are untouched. -/
theorem C1_meshStatus_witness :
    DetermineJobQueryResponse sampleCodec noFactory 0 sampleServer [9]
        ⟨true, SERVICE_TYPE.MESH_STATUS, 2, [6]⟩ =
      { sampleServer with ClientQueries := [[[9], [], [6, 2, 50]]] } :=
  (C1_meshStatus sampleCodec noFactory 0 sampleServer [9]
    ⟨true, SERVICE_TYPE.MESH_STATUS, 2, [6]⟩ rfl rfl).2.2.2.trans (by decide)


/-- C2. `queueJob` replies `INVALID_MSG` exactly when the mesh type of the message is not
supported (the server's own check `canMesh`), and then the server, so the `JobQueue`, is unchanged
(`queuedJobTypes()` is as before, empty if it was empty).  When the type is supported exactly one
job, carrying the generated id, is appended to the jobs awaiting dispatch and the reply is the
string form of that id.  The string form of an id is assumed not to be the sentinel. -/
theorem C2_queueJob (c : Codec) (f : WorkerFactory) (jobUUID : uuid) (s : Server)
    (msg : JobMessage) (hid : c.uuid_to_string jobUUID ≠ INVALID_MSG) :
    ((queueJob c f jobUUID s msg).1 = INVALID_MSG ↔ canMesh f msg = false)
    ∧ (canMesh f msg = false →
        (queueJob c f jobUUID s msg).2 = s
        ∧ (queueJob c f jobUUID s msg).2.QueuedJobs.queuedJobTypes = s.QueuedJobs.queuedJobTypes)
    ∧ (canMesh f msg = true →
        (queueJob c f jobUUID s msg).1 = c.uuid_to_string jobUUID
        ∧ (queueJob c f jobUUID s msg).2.QueuedJobs.awaiting_dispatch =
            s.QueuedJobs.awaiting_dispatch ++ [⟨jobUUID, msg.meshType, msg.data⟩]
        ∧ (queueJob c f jobUUID s msg).2.QueuedJobs.awaiting_worker =
            s.QueuedJobs.awaiting_worker
        ∧ (queueJob c f jobUUID s msg).2.QueuedJobs.haveUUID jobUUID = true
        ∧ (queueJob c f jobUUID s msg).2.WorkerPool = s.WorkerPool
        ∧ (queueJob c f jobUUID s msg).2.ActiveJobs = s.ActiveJobs) := by
  cases hsup : canMesh f msg
  · simp [queueJob, hsup]
  · simp [queueJob, hsup, hid, JobQueue.addJob, JobQueue.haveUUID]

/-- C2 at concrete inputs: with a factory that supports nothing the submission is refused and the
empty queue stays empty; with a supporting factory job 100 is queued and `[100]` is the reply. -/
theorem C2_queueJob_witness :
    ((queueJob sampleCodec noFactory 100 Server.init ⟨true, SERVICE_TYPE.MAKE_MESH, 2, [42]⟩).1
        = INVALID_MSG ↔ canMesh noFactory ⟨true, SERVICE_TYPE.MAKE_MESH, 2, [42]⟩ = false)
    ∧ (queueJob sampleCodec noFactory 100 Server.init
        ⟨true, SERVICE_TYPE.MAKE_MESH, 2, [42]⟩).2.QueuedJobs.queuedJobTypes = []
    ∧ (queueJob sampleCodec anyFactory 100 Server.init
        ⟨true, SERVICE_TYPE.MAKE_MESH, 2, [42]⟩).1 = [100]
    ∧ (queueJob sampleCodec anyFactory 100 Server.init
        ⟨true, SERVICE_TYPE.MAKE_MESH, 2, [42]⟩).2.QueuedJobs.awaiting_dispatch
        = [⟨100, 2, [42]⟩] :=
  ⟨(C2_queueJob sampleCodec noFactory 100 Server.init ⟨true, SERVICE_TYPE.MAKE_MESH, 2, [42]⟩
      (by decide)).1,
    by decide, by decide, by decide⟩

/-- C3 (the code at the failing input). With a factory that supports no type, worker `[7]` of
type 2 registers and asks for a job; the pool then holds a ready worker of type 2, yet `canMesh`
is still false and the client `CAN_MESH` reply for type 2 is the byte 0: `Server::canMesh` asks
the factory only. -/
theorem C3_canMesh_ignores_pool :
    (workerBranch sampleCodec 1 Server.init [7]
        ⟨true, SERVICE_TYPE.MAKE_MESH, 2, []⟩).WorkerPool.hasAnyOfType 2 = true
    ∧ (workerBranch sampleCodec 1 Server.init [7]
        ⟨true, SERVICE_TYPE.MAKE_MESH, 2, []⟩).WorkerPool.haveWaitingWorker 2 = true
    ∧ canMesh noFactory ⟨true, SERVICE_TYPE.CAN_MESH, 2, []⟩ = false
    ∧ (DetermineJobQueryResponse sampleCodec noFactory 0
        (Server.workerBranch sampleCodec 1 Server.init [7] ⟨true, SERVICE_TYPE.MAKE_MESH, 2, []⟩)
        [9] ⟨true, SERVICE_TYPE.CAN_MESH, 2, []⟩).ClientQueries
        = [replyFrames [9] (objectBytes_bool false)] := by
  decide

/-- C4. For every job id `retrieveMesh` replies the stored `JobResult` when `ActiveJobs` holds the
id together with a result, and otherwise the empty `JobResult` carrying only that id.  In both
cases `ActiveJobs` no longer holds the id afterwards, and the `JobQueue` (and the `WorkerPool`) is
unchanged. -/
theorem C4_retrieveMesh (c : Codec) (s : Server) (msg : JobMessage) :
    (s.ActiveJobs.haveUUID (c.to_uuid msg) = true →
      s.ActiveJobs.haveResult (c.to_uuid msg) = true →
      ∃ r, s.ActiveJobs.result (c.to_uuid msg) = some r
        ∧ (retrieveMesh c s msg).1 = c.result_to_string r)
    ∧ (¬ (s.ActiveJobs.haveUUID (c.to_uuid msg) = true
          ∧ s.ActiveJobs.haveResult (c.to_uuid msg) = true) →
        (retrieveMesh c s msg).1 = c.result_to_string (JobResult.empty (c.to_uuid msg)))
    ∧ (retrieveMesh c s msg).2.ActiveJobs.haveUUID (c.to_uuid msg) = false
    ∧ (retrieveMesh c s msg).2.QueuedJobs = s.QueuedJobs
    ∧ (retrieveMesh c s msg).2.WorkerPool = s.WorkerPool := by
  refine ⟨?_, ?_, ?_, rfl, rfl⟩
  · intro ha hr
    obtain ⟨r, hfind⟩ := activeJobs_find_of_haveUUID _ _ ha
    unfold ActiveJobs.haveResult at hr
    rw [hfind] at hr
    obtain ⟨jr, hjr⟩ := Option.isSome_iff_exists.mp hr
    refine ⟨jr, ?_, ?_⟩
    · simp [ActiveJobs.result, hfind, hjr]
    · simp [retrieveMesh, retrieveMesh_result, ha, ActiveJobs.haveResult, ActiveJobs.result,
        hfind, hjr]
  · intro hn
    have : (s.ActiveJobs.haveUUID (c.to_uuid msg) && s.ActiveJobs.haveResult (c.to_uuid msg))
        = false := by
      rw [Bool.and_eq_false_iff]
      by_cases ha : s.ActiveJobs.haveUUID (c.to_uuid msg) = true
      · right
        by_contra hr
        exact hn ⟨ha, by simpa using hr⟩
      · left
        simpa using ha
    simp [retrieveMesh, retrieveMesh_result, this]
  · exact activeJobs_haveUUID_remove _ _

/-- C4 at a concrete input: job 6 is active without a result; retrieving it replies the empty
result `[6]` and drops the record. -/
theorem C4_retrieveMesh_witness :
    (retrieveMesh sampleCodec sampleServer ⟨true, SERVICE_TYPE.RETRIEVE_MESH, 2, [6]⟩).1 = [6]
    ∧ (retrieveMesh sampleCodec sampleServer
        ⟨true, SERVICE_TYPE.RETRIEVE_MESH, 2, [6]⟩).2.ActiveJobs.haveUUID 6 = false :=
  ⟨(C4_retrieveMesh sampleCodec sampleServer ⟨true, SERVICE_TYPE.RETRIEVE_MESH, 2, [6]⟩).2.1
      (by decide),
    (C4_retrieveMesh sampleCodec sampleServer ⟨true, SERVICE_TYPE.RETRIEVE_MESH, 2, [6]⟩).2.2.1⟩

/-- The first record of an id survives `updateResult`, updated when its status allows it. -/
theorem activeJobs_find_updateResult (a : ActiveJobs) (jr : JobResult) (id : uuid) :
    (a.updateResult jr).find id =
      (a.find id).map (fun r =>
        if r.JobId = jr.JobId ∧ (r.jstatus.Status = STATUS_TYPE.IN_PROGRESS
            ∨ r.jstatus.Status = STATUS_TYPE.FINISHED) then
          { r with jresult := some jr, jstatus := JobStatus.mk2 jr.JobId STATUS_TYPE.FINISHED }
        else r) := by
  unfold ActiveJobs.find ActiveJobs.updateResult
  simp only
  induction a.Info with
  | nil => rfl
  | cons r rs ih =>
    simp only [List.map_cons, List.find?_cons]
    by_cases hg : r.JobId = jr.JobId ∧ (r.jstatus.Status = STATUS_TYPE.IN_PROGRESS
        ∨ r.jstatus.Status = STATUS_TYPE.FINISHED)
    · rw [if_pos hg]
      cases hrid : r.JobId == id
      · simpa [hrid] using ih
      · simp [hrid, hg]
    · rw [if_neg hg]
      cases hrid : r.JobId == id
      · simpa [hrid] using ih
      · simp [hrid, hg]

theorem activeJobs_haveUUID_updateResult (a : ActiveJobs) (jr : JobResult) (id : uuid) :
    (a.updateResult jr).haveUUID id = a.haveUUID id := by
  unfold ActiveJobs.haveUUID ActiveJobs.updateResult
  simp only [List.any_map]
  congr 1
  funext r
  simp only [Function.comp]
  split <;> rfl

/-- C5 fails as stated. (1) Job 100 is assigned to worker `[7]`, the worker reports `FAILED`, then
delivers the bytes `[1, 2, 3]`: the job is still active, but the next client `RETRIEVE_MESH`
replies the empty result, not those bytes.  (2) Job 6 is in progress and the worker delivers the
empty byte string: the reply carries exactly those (no) bytes, but it is not a valid result. -/
theorem C5_counterexample :
    (Server.ActiveJobs (workerBranch sampleCodec 4 failedJobServer [7]
        ⟨true, SERVICE_TYPE.RETRIEVE_MESH, 2, [100, 1, 2, 3]⟩)).haveUUID 100 = true
    ∧ sampleCodec.to_JobResult [100, 1, 2, 3] = ⟨100, [1, 2, 3]⟩
    ∧ retrieveMesh_result sampleCodec
        (storeMesh sampleCodec failedJobServer ⟨true, SERVICE_TYPE.RETRIEVE_MESH, 2, [100, 1, 2, 3]⟩)
        ⟨true, SERVICE_TYPE.RETRIEVE_MESH, 2, [100]⟩ = ⟨100, []⟩
    ∧ sampleServer.ActiveJobs.haveUUID 6 = true
    ∧ sampleCodec.to_JobResult [6] = ⟨6, []⟩
    ∧ (retrieveMesh_result sampleCodec
        (storeMesh sampleCodec sampleServer ⟨true, SERVICE_TYPE.RETRIEVE_MESH, 2, [6]⟩)
        ⟨true, SERVICE_TYPE.RETRIEVE_MESH, 2, [6]⟩).valid = false := by
  decide

/-- C5 (amended). If `storeMesh` handles a worker message delivering the bytes `B` for job `J`
while `J` is an active job whose status is `IN_PROGRESS` or `FINISHED`, then the next client
`RETRIEVE_MESH` for `J` replies the result of `J` whose bytes are exactly `B`; that result is valid
when `B` is not empty. -/
theorem C5_result_fidelity (c : Codec) (s : Server) (wmsg cmsg : JobMessage) (J : uuid)
    (B : Bytes) (st : JobStatus)
    (hw : c.to_JobResult wmsg.data = ⟨J, B⟩) (hc : c.to_uuid cmsg = J)
    (hst : s.ActiveJobs.status J = some st)
    (hok : st.Status = STATUS_TYPE.IN_PROGRESS ∨ st.Status = STATUS_TYPE.FINISHED) :
    retrieveMesh_result c (storeMesh c s wmsg) cmsg = ⟨J, B⟩
    ∧ (retrieveMesh c (storeMesh c s wmsg) cmsg).1 = c.result_to_string ⟨J, B⟩
    ∧ (retrieveMesh_result c (storeMesh c s wmsg) cmsg).Data.length = B.length
    ∧ (B ≠ [] → (retrieveMesh_result c (storeMesh c s wmsg) cmsg).valid = true) := by
  obtain ⟨r, hfind, hrs⟩ : ∃ r, s.ActiveJobs.find J = some r ∧ r.jstatus = st := by
    unfold ActiveJobs.status at hst
    cases hf : s.ActiveJobs.find J with
    | none => simp [hf] at hst
    | some r => exact ⟨r, rfl, by simpa [hf] using hst⟩
  have hrid : r.JobId = J := by
    unfold ActiveJobs.find at hfind
    have := List.find?_some hfind
    simpa using this
  have hguard : r.JobId = (⟨J, B⟩ : JobResult).JobId ∧
      (r.jstatus.Status = STATUS_TYPE.IN_PROGRESS ∨ r.jstatus.Status = STATUS_TYPE.FINISHED) :=
    ⟨hrid, by rw [hrs]; exact hok⟩
  have hfind2 : (s.ActiveJobs.updateResult ⟨J, B⟩).find J =
      some { r with jresult := some ⟨J, B⟩, jstatus := JobStatus.mk2 J STATUS_TYPE.FINISHED } := by
    rw [activeJobs_find_updateResult, hfind]
    simp only [Option.map_some']
    rw [if_pos hguard]
  have hhave : (s.ActiveJobs.updateResult ⟨J, B⟩).haveUUID J = true := by
    rw [activeJobs_haveUUID_updateResult]
    unfold ActiveJobs.haveUUID
    rw [List.any_eq_true]
    unfold ActiveJobs.find at hfind
    exact ⟨r, List.mem_of_find?_eq_some hfind, by simpa using hrid⟩
  have hres : retrieveMesh_result c (storeMesh c s wmsg) cmsg = ⟨J, B⟩ := by
    simp [retrieveMesh_result, storeMesh, hw, hc, hhave, ActiveJobs.haveResult,
      ActiveJobs.result, hfind2]
  refine ⟨hres, ?_, ?_, ?_⟩
  · simp [retrieveMesh, hres]
  · rw [hres]
  · intro hB
    rw [hres]
    cases B with
    | nil => exact absurd rfl hB
    | cons b bs => rfl

/-- C5 (amended) at a concrete input: worker `[7]` delivers `[1, 2, 3]` for the active job 6. -/
theorem C5_result_fidelity_witness :
    retrieveMesh_result sampleCodec
        (storeMesh sampleCodec sampleServer ⟨true, SERVICE_TYPE.RETRIEVE_MESH, 2, [6, 1, 2, 3]⟩)
        ⟨true, SERVICE_TYPE.RETRIEVE_MESH, 2, [6]⟩ = ⟨6, [1, 2, 3]⟩ :=
  (C5_result_fidelity sampleCodec sampleServer ⟨true, SERVICE_TYPE.RETRIEVE_MESH, 2, [6, 1, 2, 3]⟩
    ⟨true, SERVICE_TYPE.RETRIEVE_MESH, 2, [6]⟩ 6 [1, 2, 3] ⟨6, STATUS_TYPE.IN_PROGRESS, some ⟨50, []⟩⟩
    (by decide) (by decide) (by decide) (Or.inl rfl)).1

/-- An invalid client message is answered with `INVALID_MSG` and changes nothing else. -/
theorem determineJobQueryResponse_invalid (c : Codec) (f : WorkerFactory) (jobUUID : uuid) (s : Server)
    (clientIdentity : SocketIdentity) (msg : JobMessage) (hv : msg.isValid = false) :
    DetermineJobQueryResponse c f jobUUID s clientIdentity msg =
      { s with ClientQueries := s.ClientQueries ++ [replyFrames clientIdentity INVALID_MSG] } := by
  apply determineJobQueryResponse_eq
  simp [DetermineJobQueryResponse_response, hv, JobResponse.new, JobResponse.setData]

theorem workerPool_refreshWorker_absent (p : WorkerPool) (now : Nat) (id : SocketIdentity)
    (h : p.haveWorker id = false) : p.refreshWorker now id = p := by
  unfold WorkerPool.haveWorker at h
  unfold WorkerPool.refreshWorker
  cases p with
  | mk l =>
    simp only [WorkerPool.mk.injEq]
    simp only [List.any_eq_false, beq_iff_eq] at h
    conv_rhs => rw [← List.map_id l]
    apply List.map_congr_left
    intro r hr
    simp [h r hr]

theorem activeJobs_refreshJobs_absent (a : ActiveJobs) (now : Nat) (id : SocketIdentity)
    (h : a.isAssigned id = false) : a.refreshJobs now id = a := by
  unfold ActiveJobs.isAssigned at h
  unfold ActiveJobs.refreshJobs
  cases a with
  | mk l =>
    simp only [ActiveJobs.mk.injEq]
    simp only [List.any_eq_false, beq_iff_eq] at h
    conv_rhs => rw [← List.map_id l]
    apply List.map_congr_left
    intro r hr
    simp [h r hr]

/-- C7 fails as stated on the worker endpoint: worker `[7]` is in the pool since time 1; an
invalid message from it at time 5 (service tag `INVALID_SERVICE`) refreshes its heartbeat, so the
`WorkerPool` after the handling is not the one before. -/
theorem C7_counterexample :
    (⟨false, SERVICE_TYPE.INVALID_SERVICE, 0, []⟩ : JobMessage).isValid = false
    ∧ (workerBranch sampleCodec 5
        (workerBranch sampleCodec 1 Server.init [7] ⟨true, SERVICE_TYPE.MAKE_MESH, 2, []⟩)
        [7] ⟨false, SERVICE_TYPE.INVALID_SERVICE, 0, []⟩).WorkerPool
      ≠ (workerBranch sampleCodec 1 Server.init [7]
          ⟨true, SERVICE_TYPE.MAKE_MESH, 2, []⟩).WorkerPool := by
  decide

/-- C7 (amended). An invalid message on the client endpoint leaves the `JobQueue`, the
`WorkerPool` and `ActiveJobs` unchanged.  An invalid message on the worker endpoint leaves the
`JobQueue` unchanged; when its service tag is none of `CAN_MESH`, `MAKE_MESH`, `MESH_STATUS`,
`RETRIEVE_MESH`, the `WorkerPool` and `ActiveJobs` change by the heartbeat refresh of the sender
only, and not at all when the sender is neither in the pool nor an assigned worker. -/
theorem C7_invalid_message_frame (c : Codec) (f : WorkerFactory) (jobUUID : uuid) (now : Nat)
    (s : Server) (identity : SocketIdentity) (msg : JobMessage) (hinv : msg.isValid = false) :
    ((clientBranch c f jobUUID s identity msg).QueuedJobs = s.QueuedJobs
      ∧ (clientBranch c f jobUUID s identity msg).WorkerPool = s.WorkerPool
      ∧ (clientBranch c f jobUUID s identity msg).ActiveJobs = s.ActiveJobs)
    ∧ (workerBranch c now s identity msg).QueuedJobs = s.QueuedJobs
    ∧ (msg.serviceType ≠ SERVICE_TYPE.CAN_MESH → msg.serviceType ≠ SERVICE_TYPE.MAKE_MESH →
        msg.serviceType ≠ SERVICE_TYPE.MESH_STATUS →
        msg.serviceType ≠ SERVICE_TYPE.RETRIEVE_MESH →
        (workerBranch c now s identity msg).WorkerPool = s.WorkerPool.refreshWorker now identity
        ∧ (workerBranch c now s identity msg).ActiveJobs = s.ActiveJobs.refreshJobs now identity
        ∧ (s.WorkerPool.haveWorker identity = false → s.ActiveJobs.isAssigned identity = false →
            (workerBranch c now s identity msg).WorkerPool = s.WorkerPool
            ∧ (workerBranch c now s identity msg).ActiveJobs = s.ActiveJobs)) := by
  refine ⟨?_, ?_, ?_⟩
  · have h := (determineJobQueryResponse_invalid c f jobUUID s identity msg hinv)
    rw [clientBranch, h]
    exact ⟨rfl, rfl, rfl⟩
  · unfold workerBranch DetermineWorkerResponse
    cases msg.serviceType <;> rfl
  · intro h1 h2 h3 h4
    have hD : DetermineWorkerResponse c now s identity msg = s := by
      unfold DetermineWorkerResponse
      cases hs : msg.serviceType <;> simp_all
    refine ⟨by simp [workerBranch, hD], by simp [workerBranch, hD], ?_⟩
    intro hp ha
    constructor
    · simp only [workerBranch, hD]
      exact workerPool_refreshWorker_absent _ _ _ hp
    · simp only [workerBranch, hD]
      exact activeJobs_refreshJobs_absent _ _ _ ha
/-- C7 (amended) at a concrete input: an invalid message leaves `sampleServer`'s containers as
they are, on the client endpoint and (from the unknown sender `[8]`) on the worker endpoint. -/
theorem C7_invalid_message_frame_witness :
    (clientBranch sampleCodec noFactory 0 sampleServer [8]
        ⟨false, SERVICE_TYPE.INVALID_SERVICE, 0, []⟩).ActiveJobs = sampleServer.ActiveJobs
    ∧ (workerBranch sampleCodec 5 sampleServer [8]
        ⟨false, SERVICE_TYPE.INVALID_SERVICE, 0, []⟩).ActiveJobs = sampleServer.ActiveJobs :=
  ⟨(C7_invalid_message_frame sampleCodec noFactory 0 5 sampleServer [8]
      ⟨false, SERVICE_TYPE.INVALID_SERVICE, 0, []⟩ rfl).1.2.2,
    ((C7_invalid_message_frame sampleCodec noFactory 0 5 sampleServer [8]
      ⟨false, SERVICE_TYPE.INVALID_SERVICE, 0, []⟩ rfl).2.2
        (by decide) (by decide) (by decide) (by decide)).2.2 (by decide) (by decide) |>.2⟩

/-- C8. For every client message, valid or not and whatever its service tag,
`DetermineJobQueryResponse` builds a response that holds data and whose recipient is the sender's
identity, `send` succeeds on it, and exactly one message is appended to the client socket (none to
the worker socket): the address frame with the sender's identity, the header, and the payload. -/
theorem C8_one_reply (c : Codec) (f : WorkerFactory) (jobUUID : uuid) (s : Server)
    (clientIdentity : SocketIdentity) (msg : JobMessage) :
    ∃ payload : Bytes,
      (DetermineJobQueryResponse_response c f jobUUID s clientIdentity msg).1
        = ⟨clientIdentity, some payload⟩
      ∧ (∀ socket : Socket,
          ((DetermineJobQueryResponse_response c f jobUUID s clientIdentity msg).1.send
            socket).1 = true)
      ∧ (DetermineJobQueryResponse c f jobUUID s clientIdentity msg).ClientQueries
        = s.ClientQueries ++ [replyFrames clientIdentity payload]
      ∧ (DetermineJobQueryResponse c f jobUUID s clientIdentity msg).WorkerQueries
        = s.WorkerQueries
      ∧ (clientIdentity ≠ [] →
          replyFrames clientIdentity payload = [clientIdentity, reqHeader, payload]) := by
  have key : ∃ payload s2,
      DetermineJobQueryResponse_response c f jobUUID s clientIdentity msg
        = (⟨clientIdentity, some payload⟩, s2)
      ∧ s2.ClientQueries = s.ClientQueries ∧ s2.WorkerQueries = s.WorkerQueries := by
    unfold DetermineJobQueryResponse_response
    cases hv : msg.isValid
    · exact ⟨INVALID_MSG, s, rfl, rfl, rfl⟩
    · simp only [Bool.not_true]
      cases hs : msg.serviceType
      case MAKE_MESH =>
        refine ⟨(queueJob c f jobUUID s msg).1, (queueJob c f jobUUID s msg).2, rfl, ?_, ?_⟩ <;>
          (unfold queueJob; split <;> rfl)
      case RETRIEVE_MESH =>
        exact ⟨(retrieveMesh c s msg).1, (retrieveMesh c s msg).2, rfl, rfl, rfl⟩
      case MESH_STATUS => exact ⟨meshStatus c s msg, s, rfl, rfl, rfl⟩
      case CAN_MESH => exact ⟨objectBytes_bool (canMesh f msg), s, rfl, rfl, rfl⟩
      all_goals exact ⟨objectBytes_STATUS_TYPE STATUS_TYPE.INVALID_STATUS, s, rfl, rfl, rfl⟩
  obtain ⟨payload, s2, hresp, hcq, hwq⟩ := key
  refine ⟨payload, by rw [hresp], ?_, ?_, ?_, ?_⟩
  · intro socket
    rw [hresp]
    rfl
  · rw [determineJobQueryResponse_eq c f jobUUID s clientIdentity msg payload s2 hresp]
    simp [hcq]
  · rw [determineJobQueryResponse_eq c f jobUUID s clientIdentity msg payload s2 hresp]
    simp [hwq]
  · intro hne
    unfold replyFrames
    have : clientIdentity.length > 0 := List.length_pos.mpr hne
    simp [this]

/-- C8 at a concrete input: the reply to an invalid message from client `[9]`. -/
theorem C8_one_reply_witness :
    ∃ payload : Bytes,
      (DetermineJobQueryResponse sampleCodec noFactory 0 sampleServer [9]
        ⟨false, SERVICE_TYPE.CAN_MESH, 2, []⟩).ClientQueries = [[[9], reqHeader, payload]] := by
  obtain ⟨payload, _, _, h3, _, h5⟩ := C8_one_reply sampleCodec noFactory 0 sampleServer [9]
    ⟨false, SERVICE_TYPE.CAN_MESH, 2, []⟩
  exact ⟨payload, by rw [h3, h5 (by decide)]; rfl⟩

/-! ## Steps of the broker, container by container -/

/-- What a client message can do to the containers: nothing, queue one job, or remove one
active record.  The pool and the worker socket are never touched. -/
theorem clientBranch_cases (c : Codec) (f : WorkerFactory) (jobUUID : uuid) (s : Server)
    (clientIdentity : SocketIdentity) (msg : JobMessage) :
    (clientBranch c f jobUUID s clientIdentity msg).WorkerPool = s.WorkerPool
    ∧ (((clientBranch c f jobUUID s clientIdentity msg).QueuedJobs = s.QueuedJobs
        ∧ (clientBranch c f jobUUID s clientIdentity msg).ActiveJobs = s.ActiveJobs)
      ∨ ((clientBranch c f jobUUID s clientIdentity msg).QueuedJobs
          = s.QueuedJobs.addJob jobUUID msg
        ∧ (clientBranch c f jobUUID s clientIdentity msg).ActiveJobs = s.ActiveJobs)
      ∨ ((clientBranch c f jobUUID s clientIdentity msg).QueuedJobs = s.QueuedJobs
        ∧ (clientBranch c f jobUUID s clientIdentity msg).ActiveJobs
          = s.ActiveJobs.remove (c.to_uuid msg))) := by
  unfold clientBranch DetermineJobQueryResponse DetermineJobQueryResponse_response
  cases hv : msg.isValid
  · exact ⟨rfl, Or.inl ⟨rfl, rfl⟩⟩
  · simp only [Bool.not_true]
    cases hs : msg.serviceType
    case MAKE_MESH =>
      simp only [Bool.false_eq_true, if_false]
      unfold queueJob
      split
      · exact ⟨rfl, Or.inr (Or.inl ⟨rfl, rfl⟩)⟩
      · exact ⟨rfl, Or.inl ⟨rfl, rfl⟩⟩
    case RETRIEVE_MESH => exact ⟨rfl, Or.inr (Or.inr ⟨rfl, rfl⟩)⟩
    all_goals exact ⟨rfl, Or.inl ⟨rfl, rfl⟩⟩

theorem isAssigned_map (l : List ActiveJobRecord) (g : ActiveJobRecord → ActiveJobRecord)
    (hg : ∀ r, (g r).WorkerAddress = r.WorkerAddress) (w : SocketIdentity) :
    ActiveJobs.isAssigned ⟨l.map g⟩ w = ActiveJobs.isAssigned ⟨l⟩ w := by
  unfold ActiveJobs.isAssigned
  simp only [List.any_map]
  congr 1
  funext r
  simp [Function.comp, hg]

theorem isAssigned_updateStatus (a : ActiveJobs) (js : JobStatus) (w : SocketIdentity) :
    (a.updateStatus js).isAssigned w = a.isAssigned w := by
  unfold ActiveJobs.updateStatus
  apply isAssigned_map
  intro r
  split <;> rfl

theorem isAssigned_updateResult (a : ActiveJobs) (jr : JobResult) (w : SocketIdentity) :
    (a.updateResult jr).isAssigned w = a.isAssigned w := by
  unfold ActiveJobs.updateResult
  apply isAssigned_map
  intro r
  split <;> rfl

theorem isAssigned_refreshJobs (a : ActiveJobs) (now : Nat) (x w : SocketIdentity) :
    (a.refreshJobs now x).isAssigned w = a.isAssigned w := by
  unfold ActiveJobs.refreshJobs
  apply isAssigned_map
  intro r
  split <;> rfl

theorem isAssigned_remove (a : ActiveJobs) (id : uuid) (w : SocketIdentity)
    (h : (a.remove id).isAssigned w = true) : a.isAssigned w = true := by
  unfold ActiveJobs.isAssigned ActiveJobs.remove at *
  rw [List.any_eq_true] at h ⊢
  obtain ⟨r, hr, hp⟩ := h
  exact ⟨r, (List.mem_filter.mp hr).1, hp⟩

theorem isAssigned_add (a : ActiveJobs) (now : Nat) (x : SocketIdentity) (id : uuid)
    (w : SocketIdentity) (h : (a.add now x id).isAssigned w = true) :
    w = x ∨ a.isAssigned w = true := by
  unfold ActiveJobs.isAssigned ActiveJobs.add at *
  rw [List.any_eq_true] at h
  obtain ⟨r, hr, hp⟩ := h
  rw [List.mem_append] at hr
  rcases hr with hr | hr
  · right
    rw [List.any_eq_true]
    exact ⟨r, (List.mem_filter.mp hr).1, hp⟩
  · left
    simp only [List.mem_singleton] at hr
    subst hr
    have hp2 : x = w := by simpa using hp
    exact hp2.symm

theorem isReady_refreshWorker (p : WorkerPool) (now : Nat) (x w : SocketIdentity) :
    (p.refreshWorker now x).isReady w = p.isReady w := by
  unfold WorkerPool.isReady WorkerPool.refreshWorker
  simp only [List.any_map]
  congr 1
  funext r
  simp only [Function.comp]
  split <;> rfl

theorem isReady_addWorker (p : WorkerPool) (now : Nat) (x : SocketIdentity) (T : MESH_TYPE)
    (w : SocketIdentity) (h : (p.addWorker now x T).isReady w = true) :
    p.isReady w = true := by
  unfold WorkerPool.addWorker at h
  unfold WorkerPool.isReady at *
  split at h
  · simp only [List.any_map, List.any_eq_true, Function.comp] at h
    obtain ⟨r, hr, hp⟩ := h
    rw [List.any_eq_true]
    refine ⟨r, hr, ?_⟩
    split at hp
    · simp at hp
    · exact hp
  · simp only [List.any_append, List.any_cons, List.any_nil, Bool.and_false, Bool.or_false] at h
    exact h

theorem isReady_readyForWork (p : WorkerPool) (x w : SocketIdentity)
    (h : (p.readyForWork x).isReady w = true) : w = x ∨ p.isReady w = true := by
  unfold WorkerPool.isReady WorkerPool.readyForWork at *
  simp only [List.any_map, List.any_eq_true, Function.comp] at h
  obtain ⟨r, hr, hp⟩ := h
  by_cases hx : r.Address = x
  · left
    rw [if_pos hx] at hp
    simp only [Bool.and_true, beq_iff_eq] at hp
    rw [← hp, hx]
  · right
    rw [if_neg hx] at hp
    rw [List.any_eq_true]
    exact ⟨r, hr, hp⟩

theorem pickOldest_mem (l : List WorkerRecord) (r : WorkerRecord) (h : pickOldest l = some r) :
    r ∈ l := by
  induction l generalizing r with
  | nil => simp [pickOldest] at h
  | cons a as ih =>
    unfold pickOldest at h
    cases hp : pickOldest as with
    | none =>
      rw [hp] at h
      simp only [Option.some.injEq] at h
      rw [← h]
      exact List.mem_cons_self _ _
    | some r2 =>
      rw [hp] at h
      simp only at h
      split at h
      · simp only [Option.some.injEq] at h
        rw [← h]
        exact List.mem_cons_self _ _
      · simp only [Option.some.injEq] at h
        rw [← h]
        exact List.mem_cons_of_mem _ (ih r2 hp)

/-- What `takeWorker` returns: the identity of a ready worker of the type, and the pool without
the records of that identity. -/
theorem takeWorker_spec (p : WorkerPool) (T : MESH_TYPE) (w : SocketIdentity) (p2 : WorkerPool)
    (h : p.takeWorker T = some (w, p2)) :
    p2.Pool = p.Pool.filter (fun x => x.Address != w)
    ∧ ∃ r ∈ p.Pool, r.Address = w ∧ r.MType = T ∧ r.WaitingForWork = true := by
  unfold WorkerPool.takeWorker at h
  cases hp : pickOldest (p.waiting T) with
  | none => simp [hp] at h
  | some r =>
    rw [hp] at h
    simp only [Option.some.injEq, Prod.mk.injEq] at h
    obtain ⟨h1, h2⟩ := h
    have hm := pickOldest_mem _ _ hp
    unfold WorkerPool.waiting at hm
    rw [List.mem_filter] at hm
    simp only [Bool.and_eq_true, beq_iff_eq] at hm
    refine ⟨?_, r, hm.1, h1, hm.2.1, hm.2.2⟩
    rw [← h2, ← h1]

theorem isReady_takeWorker (p : WorkerPool) (T : MESH_TYPE) (x : SocketIdentity)
    (p2 : WorkerPool) (h : p.takeWorker T = some (x, p2)) (w : SocketIdentity)
    (hw : p2.isReady w = true) : w ≠ x ∧ p.isReady w = true := by
  have hs := (takeWorker_spec p T x p2 h).1
  unfold WorkerPool.isReady at *
  rw [hs, List.any_eq_true] at hw
  obtain ⟨r, hr, hp⟩ := hw
  rw [List.mem_filter] at hr
  simp only [Bool.and_eq_true, beq_iff_eq] at hp
  constructor
  · intro hwx
    have := hr.2
    simp only [bne_iff_ne, ne_eq] at this
    exact this (hp.1.trans hwx)
  · rw [List.any_eq_true]
    exact ⟨r, hr.1, by simp [hp.1, hp.2]⟩

theorem foldl_invariant {α β : Type} (P : β → Prop) (g : β → α → β)
    (hg : ∀ b a, P b → P (g b a)) (l : List α) (b : β) (hb : P b) : P (l.foldl g b) := by
  induction l generalizing b with
  | nil => exact hb
  | cons a as ih => exact ih (g b a) (hg b a hb)

/-! ## At-most-once assignment -/

theorem atMostOnce_clientBranch (c : Codec) (f : WorkerFactory) (jobUUID : uuid) (s : Server)
    (clientIdentity : SocketIdentity) (msg : JobMessage) (h : AtMostOnce s) :
    AtMostOnce (clientBranch c f jobUUID s clientIdentity msg) := by
  obtain ⟨hp, hcases⟩ := clientBranch_cases c f jobUUID s clientIdentity msg
  intro w ⟨hr, ha⟩
  rw [hp] at hr
  rcases hcases with ⟨_, h2⟩ | ⟨_, h2⟩ | ⟨_, h2⟩
  · rw [h2] at ha
    exact h w ⟨hr, ha⟩
  · rw [h2] at ha
    exact h w ⟨hr, ha⟩
  · rw [h2] at ha
    exact h w ⟨hr, isAssigned_remove _ _ _ ha⟩

theorem atMostOnce_workerBranch (c : Codec) (now : Nat) (s : Server) (x : SocketIdentity)
    (msg : JobMessage) (hok : NotReadyWhileAssigned s x msg) (h : AtMostOnce s) :
    AtMostOnce (workerBranch c now s x msg) := by
  intro w ⟨hr, ha⟩
  unfold workerBranch at hr ha
  simp only at hr ha
  rw [isReady_refreshWorker] at hr
  rw [isAssigned_refreshJobs] at ha
  unfold DetermineWorkerResponse at hr ha
  cases hs : msg.serviceType <;> rw [hs] at hr ha <;> simp only at hr ha
  case CAN_MESH => exact h w ⟨isReady_addWorker _ _ _ _ _ hr, ha⟩
  case MAKE_MESH =>
    rcases isReady_readyForWork _ _ _ hr with hwx | hr2
    · rw [hwx, hok hs] at ha
      exact Bool.false_ne_true ha
    · split at hr2
      · exact h w ⟨isReady_addWorker _ _ _ _ _ hr2, ha⟩
      · exact h w ⟨hr2, ha⟩
  case MESH_STATUS =>
    unfold storeMeshStatus at hr ha
    rw [isAssigned_updateStatus] at ha
    exact h w ⟨hr, ha⟩
  case RETRIEVE_MESH =>
    unfold storeMesh at hr ha
    rw [isAssigned_updateResult] at ha
    exact h w ⟨hr, ha⟩
  all_goals exact h w ⟨hr, ha⟩

theorem atMostOnce_requestWorker (f : WorkerFactory) (s : Server) (T : MESH_TYPE)
    (h : AtMostOnce s) : AtMostOnce (requestWorker f s T) := by
  unfold requestWorker
  split
  · exact h
  · split <;> exact h

theorem atMostOnce_assignWaiting (c : Codec) (now : Nat) (s : Server) (T : MESH_TYPE)
    (h : AtMostOnce s) : AtMostOnce (assignWaiting c now s T) := by
  unfold assignWaiting
  split
  · split
    · rename_i w pool job queue hw hj
      intro x ⟨hr, ha⟩
      unfold assignJobToWorker at hr ha
      simp only at hr ha
      obtain ⟨hne, hr2⟩ := isReady_takeWorker _ _ _ _ hw x hr
      rcases isAssigned_add _ _ _ _ _ ha with hx | ha2
      · exact hne hx
      · exact h x ⟨hr2, ha2⟩
    · exact h
  · exact h

theorem atMostOnce_find (c : Codec) (f : WorkerFactory) (now : Nat) (s : Server)
    (h : AtMostOnce s) : AtMostOnce (FindWorkerForQueuedJob c f now s) := by
  unfold FindWorkerForQueuedJob
  apply foldl_invariant AtMostOnce _ (fun b a hb => atMostOnce_assignWaiting c now b a hb)
  exact foldl_invariant AtMostOnce _ (fun b a hb => atMostOnce_requestWorker f b a hb) _ _ h

/-- C10 fails as stated.  Worker `[7]` asks for a job, a client submits job 100, the job is
assigned to `[7]`, and `[7]` asks for a job again: in the state reached `[7]` is ready in the
`WorkerPool` and the assigned worker of the record of job 100. -/
theorem C10_counterexample :
    ReachableVia sampleCodec AnyId AnyWorkerMessage readyWhileAssignedServer
    ∧ readyWhileAssignedServer.WorkerPool.isReady [7] = true
    ∧ readyWhileAssignedServer.ActiveJobs.isAssigned [7] = true
    ∧ ¬ AtMostOnce readyWhileAssignedServer := by
  refine ⟨?_, by decide, by decide, fun h => h [7] ⟨by decide, by decide⟩⟩
  unfold readyWhileAssignedServer
  apply ReachableVia.worker _ _ _ _ _ trivial
  apply ReachableVia.find
  apply ReachableVia.client _ _ _ _ _ _ trivial
  apply ReachableVia.worker _ _ _ _ _ trivial
  exact ReachableVia.init

/-- C10 (amended). In every broker state reachable through client messages,
`FindWorkerForQueuedJob` and worker messages other than a `MAKE_MESH` from an identity that is at
that moment the assigned worker of a record in `ActiveJobs`, no worker identity is at the same
time ready in the `WorkerPool` and the assigned worker of a record in `ActiveJobs`. -/
theorem C10_at_most_once (c : Codec) (s : Server)
    (h : ReachableVia c AnyId NotReadyWhileAssigned s) : AtMostOnce s := by
  induction h with
  | init =>
    intro w ⟨hr, _⟩
    exact Bool.false_ne_true hr
  | client f jobUUID s clientIdentity msg _ _ ih =>
    exact atMostOnce_clientBranch c f jobUUID s clientIdentity msg ih
  | worker now s x msg _ hok ih => exact atMostOnce_workerBranch c now s x msg hok ih
  | find f now s _ ih => exact atMostOnce_find c f now s ih

/-- C10 (amended) at a concrete state: after worker `[7]` has asked for a job, job 100 has been
submitted and assigned to it. -/
theorem C10_at_most_once_witness :
    AtMostOnce (FindWorkerForQueuedJob sampleCodec anyFactory 2
      (clientBranch sampleCodec anyFactory 100
        (workerBranch sampleCodec 1 Server.init [7] ⟨true, SERVICE_TYPE.MAKE_MESH, 2, []⟩)
        [9] ⟨true, SERVICE_TYPE.MAKE_MESH, 2, [42]⟩)) :=
  C10_at_most_once sampleCodec _
    (ReachableVia.find _ _ _
      (ReachableVia.client _ _ _ _ _
        (ReachableVia.worker _ _ _ _ ReachableVia.init (fun _ => by decide))
        trivial))

/-! ## Single residence -/

theorem jobQueue_haveUUID_iff (q : JobQueue) (id : uuid) :
    q.haveUUID id = true ↔ id ∈ q.ids := by
  unfold JobQueue.haveUUID JobQueue.ids
  rw [List.any_eq_true, List.mem_map]
  constructor
  · rintro ⟨j, hj, hp⟩
    exact ⟨j, hj, by simpa using hp⟩
  · rintro ⟨j, hj, hp⟩
    exact ⟨j, hj, by simpa using hp⟩

theorem activeJobs_haveUUID_iff (a : ActiveJobs) (id : uuid) :
    a.haveUUID id = true ↔ id ∈ a.ids := by
  unfold ActiveJobs.haveUUID ActiveJobs.ids
  rw [List.any_eq_true, List.mem_map]
  constructor
  · rintro ⟨j, hj, hp⟩
    exact ⟨j, hj, by simpa using hp⟩
  · rintro ⟨j, hj, hp⟩
    exact ⟨j, hj, by simpa using hp⟩

theorem singleResidence_of_queueApart (s : Server) (h : QueueApart s) : SingleResidence s := by
  intro id ⟨hq, ha⟩
  exact h.2 id ((jobQueue_haveUUID_iff _ _).mp hq) ((activeJobs_haveUUID_iff _ _).mp ha)

theorem takeFirst_perm (T : MESH_TYPE) (l : List JobDetails) (j : JobDetails)
    (rest : List JobDetails) (h : takeFirst T l = some (j, rest)) : l.Perm (j :: rest) := by
  induction l generalizing j rest with
  | nil => simp [takeFirst] at h
  | cons a as ih =>
    unfold takeFirst at h
    split at h
    · simp only [Option.some.injEq, Prod.mk.injEq] at h
      rw [h.1, h.2]
    · cases ht : takeFirst T as with
      | none => simp [ht] at h
      | some p =>
        obtain ⟨k, r⟩ := p
        rw [ht] at h
        simp only [Option.some.injEq, Prod.mk.injEq] at h
        rw [← h.1, ← h.2]
        exact ((ih k r ht).cons a).trans (List.Perm.swap k a r)

theorem ids_addJob (q : JobQueue) (id : uuid) (msg : JobMessage) :
    (q.addJob id msg).ids.Perm (id :: q.ids) := by
  unfold JobQueue.addJob JobQueue.ids
  simp only [List.append_assoc, List.singleton_append, List.map_append, List.map_cons]
  exact List.perm_middle

theorem ids_workerDispatched (q : JobQueue) (T : MESH_TYPE) :
    (q.workerDispatched T).ids.Perm q.ids := by
  unfold JobQueue.workerDispatched
  cases ht : takeFirst T q.awaiting_dispatch with
  | none => exact List.Perm.refl _
  | some p =>
    obtain ⟨j, rest⟩ := p
    simp only
    unfold JobQueue.ids
    apply List.Perm.map
    have hp := takeFirst_perm T _ j rest ht
    simp only
    calc rest ++ (q.awaiting_worker ++ [j])
        _ = (rest ++ q.awaiting_worker) ++ [j] := by rw [List.append_assoc]
        _ |>.Perm (j :: (rest ++ q.awaiting_worker)) := List.perm_append_singleton _ _
        _ |>.Perm ((j :: rest) ++ q.awaiting_worker) := by rw [List.cons_append]
        _ |>.Perm (q.awaiting_dispatch ++ q.awaiting_worker) := List.Perm.append_right _ hp.symm

theorem ids_takeJob (q : JobQueue) (T : MESH_TYPE) (job : JobDetails) (q2 : JobQueue)
    (h : q.takeJob T = some (job, q2)) : q.ids.Perm (job.JobId :: q2.ids) := by
  unfold JobQueue.takeJob at h
  cases ht : takeFirst T q.awaiting_worker with
  | none => simp [ht] at h
  | some p =>
    obtain ⟨j, rest⟩ := p
    rw [ht] at h
    simp only [Option.some.injEq, Prod.mk.injEq] at h
    obtain ⟨h1, h2⟩ := h
    have hp := takeFirst_perm T _ j rest ht
    unfold JobQueue.ids
    rw [← h2, ← h1, ← List.map_cons]
    apply List.Perm.map
    simp only
    exact (List.Perm.append_left _ hp).trans List.perm_middle

theorem activeJobs_ids_map (l : List ActiveJobRecord) (g : ActiveJobRecord → ActiveJobRecord)
    (hg : ∀ r, (g r).JobId = r.JobId) : ActiveJobs.ids ⟨l.map g⟩ = ActiveJobs.ids ⟨l⟩ := by
  unfold ActiveJobs.ids
  simp only [List.map_map]
  apply List.map_congr_left
  intro r _
  exact hg r

theorem ids_updateStatus (a : ActiveJobs) (js : JobStatus) : (a.updateStatus js).ids = a.ids := by
  unfold ActiveJobs.updateStatus
  apply activeJobs_ids_map
  intro r
  split <;> rfl

theorem ids_updateResult (a : ActiveJobs) (jr : JobResult) : (a.updateResult jr).ids = a.ids := by
  unfold ActiveJobs.updateResult
  apply activeJobs_ids_map
  intro r
  split <;> rfl

theorem ids_refreshJobs (a : ActiveJobs) (now : Nat) (w : SocketIdentity) :
    (a.refreshJobs now w).ids = a.ids := by
  unfold ActiveJobs.refreshJobs
  apply activeJobs_ids_map
  intro r
  split <;> rfl

theorem ids_remove (a : ActiveJobs) (id x : uuid) (h : x ∈ (a.remove id).ids) : x ∈ a.ids := by
  unfold ActiveJobs.remove ActiveJobs.ids at *
  rw [List.mem_map] at h ⊢
  obtain ⟨r, hr, hx⟩ := h
  exact ⟨r, (List.mem_filter.mp hr).1, hx⟩

theorem ids_add (a : ActiveJobs) (now : Nat) (w : SocketIdentity) (id x : uuid)
    (h : x ∈ (a.add now w id).ids) : x = id ∨ x ∈ a.ids := by
  unfold ActiveJobs.add ActiveJobs.ids at *
  rw [List.mem_map] at h
  obtain ⟨r, hr, hx⟩ := h
  rw [List.mem_append] at hr
  rcases hr with hr | hr
  · right
    rw [List.mem_map]
    exact ⟨r, (List.mem_filter.mp hr).1, hx⟩
  · left
    simp only [List.mem_singleton] at hr
    rw [← hx, hr]

theorem ids_add_self (a : ActiveJobs) (now : Nat) (w : SocketIdentity) (id : uuid) :
    id ∈ (a.add now w id).ids := by
  unfold ActiveJobs.add ActiveJobs.ids
  simp

theorem workerBranch_ids (c : Codec) (now : Nat) (s : Server) (x : SocketIdentity)
    (msg : JobMessage) :
    (workerBranch c now s x msg).QueuedJobs = s.QueuedJobs
    ∧ (workerBranch c now s x msg).ActiveJobs.ids = s.ActiveJobs.ids := by
  unfold workerBranch DetermineWorkerResponse
  simp only
  rw [ids_refreshJobs]
  cases msg.serviceType <;> simp only [storeMeshStatus, storeMesh, ids_updateStatus,
    ids_updateResult, and_self]

theorem queueApart_clientBranch (c : Codec) (f : WorkerFactory) (jobUUID : uuid) (s : Server)
    (clientIdentity : SocketIdentity) (msg : JobMessage) (hf : Fresh s jobUUID)
    (h : QueueApart s) : QueueApart (clientBranch c f jobUUID s clientIdentity msg) := by
  obtain ⟨_, hcases⟩ := clientBranch_cases c f jobUUID s clientIdentity msg
  unfold QueueApart
  rcases hcases with ⟨h1, h2⟩ | ⟨h1, h2⟩ | ⟨h1, h2⟩
  · rw [h1, h2]
    exact h
  · rw [h1, h2]
    have hq : jobUUID ∉ s.QueuedJobs.ids := by
      rw [← jobQueue_haveUUID_iff, hf.1]
      exact Bool.false_ne_true
    have ha : jobUUID ∉ s.ActiveJobs.ids := by
      rw [← activeJobs_haveUUID_iff, hf.2]
      exact Bool.false_ne_true
    have hperm := ids_addJob s.QueuedJobs jobUUID msg
    constructor
    · rw [hperm.nodup_iff]
      exact List.nodup_cons.mpr ⟨hq, h.1⟩
    · intro id hid
      rcases List.mem_cons.mp (hperm.mem_iff.mp hid) with hid2 | hid2
      · rw [hid2]
        exact ha
      · exact h.2 id hid2
  · rw [h1, h2]
    exact ⟨h.1, fun id hid hrem => h.2 id hid (ids_remove _ _ _ hrem)⟩

theorem queueApart_workerBranch (c : Codec) (now : Nat) (s : Server) (x : SocketIdentity)
    (msg : JobMessage) (h : QueueApart s) : QueueApart (workerBranch c now s x msg) := by
  obtain ⟨h1, h2⟩ := workerBranch_ids c now s x msg
  unfold QueueApart
  rw [h1, h2]
  exact h

theorem queueApart_requestWorker (f : WorkerFactory) (s : Server) (T : MESH_TYPE)
    (h : QueueApart s) : QueueApart (requestWorker f s T) := by
  have key : QueueApart { s with QueuedJobs := s.QueuedJobs.workerDispatched T } := by
    have hperm := ids_workerDispatched s.QueuedJobs T
    exact ⟨hperm.nodup_iff.mpr h.1, fun id hid => h.2 id (hperm.mem_iff.mp hid)⟩
  unfold requestWorker
  split
  · exact key
  · split
    · exact key
    · exact h

/-- The assignment step: the job leaves the queue as it enters `ActiveJobs`. -/
theorem queueApart_assign (c : Codec) (now : Nat) (s : Server) (T : MESH_TYPE)
    (w : SocketIdentity) (pool : WorkerPool) (job : JobDetails) (queue : JobQueue)
    (hj : s.QueuedJobs.takeJob T = some (job, queue)) (h : QueueApart s) :
    QueueApart (assignJobToWorker c now { s with WorkerPool := pool, QueuedJobs := queue } w job)
    ∧ job.JobId ∈ s.QueuedJobs.ids
    ∧ job.JobId ∉ queue.ids
    ∧ job.JobId ∈ (s.ActiveJobs.add now w job.JobId).ids := by
  have hperm := ids_takeJob _ _ _ _ hj
  have hnd := hperm.nodup_iff.mp h.1
  rw [List.nodup_cons] at hnd
  refine ⟨⟨hnd.2, ?_⟩, hperm.mem_iff.mpr (List.mem_cons_self _ _), hnd.1, ids_add_self _ _ _ _⟩
  intro id hid hact
  unfold assignJobToWorker at hid hact
  simp only at hid hact
  rcases ids_add _ _ _ _ _ hact with hx | hx
  · rw [hx] at hid
    exact hnd.1 hid
  · exact h.2 id (hperm.mem_iff.mpr (List.mem_cons_of_mem _ hid)) hx

theorem queueApart_assignWaiting (c : Codec) (now : Nat) (s : Server) (T : MESH_TYPE)
    (h : QueueApart s) : QueueApart (assignWaiting c now s T) := by
  unfold assignWaiting
  split
  · split
    · rename_i w pool job queue hw hj
      exact (queueApart_assign c now s T w pool job queue hj h).1
    · exact h
  · exact h

theorem queueApart_find (c : Codec) (f : WorkerFactory) (now : Nat) (s : Server)
    (h : QueueApart s) : QueueApart (FindWorkerForQueuedJob c f now s) := by
  unfold FindWorkerForQueuedJob
  apply foldl_invariant QueueApart _ (fun b a hb => queueApart_assignWaiting c now b a hb)
  exact foldl_invariant QueueApart _ (fun b a hb => queueApart_requestWorker f b a hb) _ _ h

theorem queueApart_reachable (c : Codec) (s : Server)
    (h : ReachableVia c Fresh AnyWorkerMessage s) : QueueApart s := by
  induction h with
  | init => exact ⟨List.nodup_nil, fun id hid => by cases hid⟩
  | client f jobUUID s clientIdentity msg _ hf ih =>
    exact queueApart_clientBranch c f jobUUID s clientIdentity msg hf ih
  | worker now s x msg _ _ ih => exact queueApart_workerBranch c now s x msg ih
  | find f now s _ ih => exact queueApart_find c f now s ih

/-- C9. Single residence: in every broker state reachable from the state of a new server through
client messages, worker messages and `FindWorkerForQueuedJob`, every generated id being fresh, no
job id is held by both the `JobQueue` and `ActiveJobs`; and the assignment of a job taken from the
queue of such a state removes it from the queue in the same step that adds it to `ActiveJobs`. -/
theorem C9_single_residence (c : Codec) (s : Server)
    (h : ReachableVia c Fresh AnyWorkerMessage s) :
    SingleResidence s
    ∧ ∀ (now : Nat) (T : MESH_TYPE) (w : SocketIdentity) (pool : WorkerPool) (job : JobDetails)
        (queue : JobQueue),
        s.QueuedJobs.takeJob T = some (job, queue) →
        s.QueuedJobs.haveUUID job.JobId = true
        ∧ (assignJobToWorker c now { s with WorkerPool := pool, QueuedJobs := queue } w
            job).QueuedJobs.haveUUID job.JobId = false
        ∧ (assignJobToWorker c now { s with WorkerPool := pool, QueuedJobs := queue } w
            job).ActiveJobs.haveUUID job.JobId = true
        ∧ SingleResidence
            (assignJobToWorker c now { s with WorkerPool := pool, QueuedJobs := queue } w job) := by
  have hinv := queueApart_reachable c s h
  refine ⟨singleResidence_of_queueApart s hinv, ?_⟩
  intro now T w pool job queue hj
  obtain ⟨h1, h2, h3, h4⟩ := queueApart_assign c now s T w pool job queue hj hinv
  refine ⟨(jobQueue_haveUUID_iff _ _).mpr h2, ?_, ?_, singleResidence_of_queueApart _ h1⟩
  · rw [Bool.eq_false_iff]
    intro hq
    exact h3 ((jobQueue_haveUUID_iff _ _).mp hq)
  · exact (activeJobs_haveUUID_iff _ _).mpr h4

/-- C9 at a concrete state: job 100 has been submitted and assigned to worker `[7]`; it is held by
`ActiveJobs` and not by the `JobQueue`. -/
theorem C9_single_residence_witness :
    SingleResidence (FindWorkerForQueuedJob sampleCodec anyFactory 2
      (clientBranch sampleCodec anyFactory 100
        (workerBranch sampleCodec 1 Server.init [7] ⟨true, SERVICE_TYPE.MAKE_MESH, 2, []⟩)
        [9] ⟨true, SERVICE_TYPE.MAKE_MESH, 2, [42]⟩)) :=
  (C9_single_residence sampleCodec _
    (ReachableVia.find _ _ _
      (ReachableVia.client _ _ _ _ _
        (ReachableVia.worker _ _ _ _ ReachableVia.init trivial)
        ⟨by decide, by decide⟩))).1

/-! ## JobResponse -/

/-- C19. For every byte string `a`, the empty string and strings with zero bytes included,
`dataAs<std::string>()` after `setData(a)` returns exactly `a`; after `setData(a)` followed by
`setData(b)` it returns `b`: a new `setData` fully replaces the earlier data. -/
theorem C19_setData_dataAs (r : JobResponse) (a b : Bytes) :
    (r.setData a).dataAs_string = some a
    ∧ ((r.setData a).setData b).dataAs_string = some b
    ∧ (r.setData []).dataAs_string = some []
    ∧ (r.setData [0, 65, 0]).dataAs_string = some [0, 65, 0]
    ∧ (r.setData a).ClientAddress = r.ClientAddress := by
  refine ⟨rfl, rfl, rfl, rfl, rfl⟩

/-- C20. `send` returns false exactly when the response holds no data (the data pointer is
`NULL`: none was set, or an empty frame was received), and then nothing is transmitted.
Otherwise it returns true and transmits one message: the recipient identity frame (only when the
identity is not empty), the request header, and one data frame holding exactly the bytes that were
set or received. -/
theorem C20_send (r : JobResponse) (socket : Socket) (client : SocketIdentity) (d : Bytes) :
    ((r.send socket).1 = false ↔ r.Data = none)
    ∧ (r.Data = none → (r.send socket).2.2 = socket)
    ∧ ((JobResponse.new client).send socket = (false, JobResponse.new client, socket))
    ∧ ((JobResponse.receive []).send socket).1 = false
    ∧ ((r.setData d).send socket).1 = true
    ∧ ((r.setData d).send socket).2.2 =
        socket ++ [(if r.ClientAddress.length > 0 then [r.ClientAddress] else [])
          ++ [reqHeader] ++ [d]]
    ∧ (client ≠ [] →
        (((JobResponse.new client).setData d).send socket).2.2
          = socket ++ [[client, reqHeader, d]])
    ∧ ((((JobResponse.new []).setData d).send socket).2.2 = socket ++ [[reqHeader, d]])
    ∧ (d ≠ [] → ((JobResponse.receive d).send socket).1 = true
        ∧ ((JobResponse.receive d).send socket).2.2 = socket ++ [[reqHeader, d]]) := by
  refine ⟨?_, ?_, rfl, rfl, rfl, rfl, ?_, rfl, ?_⟩
  · unfold JobResponse.send
    cases r.Data <;> simp
  · intro h
    unfold JobResponse.send
    rw [h]
  · intro hne
    have hpos : client.length > 0 := List.length_pos.mpr hne
    simp [JobResponse.send, JobResponse.setData, JobResponse.new, hpos]
  · intro hne
    have hpos : d.length > 0 := List.length_pos.mpr hne
    simp [JobResponse.send, JobResponse.receive, hpos]

/-- C20 at concrete inputs: a response to `[9]` with the bytes `[1, 0, 2]` set, and a response
received with the data frame `[5]`. -/
theorem C20_send_witness :
    (((JobResponse.new [9]).setData [1, 0, 2]).send []).2.2 = [[[9], reqHeader, [1, 0, 2]]]
    ∧ ((JobResponse.receive [5]).send []).2.2 = [[reqHeader, [5]]] :=
  ⟨(C20_send (JobResponse.new [9]) [] [9] [1, 0, 2]).2.2.2.2.2.2.1 (by decide),
    ((C20_send (JobResponse.new [9]) [] [9] [5]).2.2.2.2.2.2.2.2 (by decide)).2⟩

/-! ## Properties the code does not meet -/

/-- C18 (the code at the failing input). In `sampleServer` job 5 is queued and job 6 is active and
in progress.  A valid `TERMINATE_JOB` message for either id falls into the `default` branch of
`DetermineJobQueryResponse`: the reply is the `INVALID_STATUS` enumerator, the `JobQueue` and
`ActiveJobs` are unchanged, and the status queries still report `QUEUED` and `IN_PROGRESS`. -/
theorem C18_terminate_not_handled :
    DetermineJobQueryResponse sampleCodec anyFactory 0 sampleServer [9]
        ⟨true, SERVICE_TYPE.TERMINATE_JOB, 2, [5]⟩
      = { sampleServer with ClientQueries :=
            [replyFrames [9] (objectBytes_STATUS_TYPE STATUS_TYPE.INVALID_STATUS)] }
    ∧ (meshStatus_js sampleCodec
        (DetermineJobQueryResponse sampleCodec anyFactory 0 sampleServer [9]
          ⟨true, SERVICE_TYPE.TERMINATE_JOB, 2, [5]⟩)
        ⟨true, SERVICE_TYPE.MESH_STATUS, 2, [5]⟩).Status = STATUS_TYPE.QUEUED
    ∧ (DetermineJobQueryResponse sampleCodec anyFactory 0 sampleServer [9]
        ⟨true, SERVICE_TYPE.TERMINATE_JOB, 2, [6]⟩).ActiveJobs = sampleServer.ActiveJobs
    ∧ (meshStatus_js sampleCodec
        (DetermineJobQueryResponse sampleCodec anyFactory 0 sampleServer [9]
          ⟨true, SERVICE_TYPE.TERMINATE_JOB, 2, [6]⟩)
        ⟨true, SERVICE_TYPE.MESH_STATUS, 2, [6]⟩).Status = STATUS_TYPE.IN_PROGRESS := by
  decide

/-! ## Invariants along runs -/

theorem runs_invariant (c : Codec) (idOk : Server → uuid → Prop)
    (workerOk : Server → SocketIdentity → JobMessage → Prop) (s0 : Server) (P : Server → Prop)
    (hclient : ∀ f jobUUID s clientIdentity msg, P s → idOk s jobUUID →
      P (clientBranch c f jobUUID s clientIdentity msg))
    (hworker : ∀ now s w msg, P s → workerOk s w msg → P (workerBranch c now s w msg))
    (hmark : ∀ threshold hbTime (s : Server), P s →
      P { s with ActiveJobs := s.ActiveJobs.markFailedJobs threshold hbTime })
    (hpurge : ∀ threshold hbTime (s : Server), P s →
      P { s with WorkerPool := s.WorkerPool.purgeDeadWorkers threshold hbTime })
    (hfind : ∀ f now s, P s → P (FindWorkerForQueuedJob c f now s))
    (h0 : P s0) (s : Server) (h : Runs c idOk workerOk s0 s) : P s := by
  induction h with
  | start => exact h0
  | client f jobUUID s clientIdentity msg _ hid ih => exact hclient f jobUUID s clientIdentity msg ih hid
  | worker now s w msg _ hok ih => exact hworker now s w msg ih hok
  | markFailed threshold hbTime s _ ih => exact hmark threshold hbTime s ih
  | purge threshold hbTime s _ ih => exact hpurge threshold hbTime s ih
  | find f now s _ ih => exact hfind f now s ih

theorem ids_markFailedJobs (a : ActiveJobs) (threshold : SocketIdentity → Nat) (now : Nat) :
    (a.markFailedJobs threshold now).ids = a.ids := by
  unfold ActiveJobs.markFailedJobs
  apply activeJobs_ids_map
  intro r
  split <;> rfl

theorem queueApart_init : QueueApart Server.init :=
  ⟨List.nodup_nil, fun id hid => by cases hid⟩

/-- Single residence holds along every run with fresh ids. -/
theorem queueApart_runs (c : Codec) (idOk : Server → uuid → Prop)
    (workerOk : Server → SocketIdentity → JobMessage → Prop)
    (hid : ∀ s id, idOk s id → Fresh s id) (s0 s : Server) (h0 : QueueApart s0)
    (h : Runs c idOk workerOk s0 s) : QueueApart s := by
  refine runs_invariant c idOk workerOk s0 QueueApart ?_ ?_ ?_ ?_ ?_ h0 s h
  · intro f jobUUID s clientIdentity msg hs hok
    exact queueApart_clientBranch c f jobUUID s clientIdentity msg (hid s jobUUID hok) hs
  · intro now s w msg hs _
    exact queueApart_workerBranch c now s w msg hs
  · intro threshold hbTime s hs
    unfold QueueApart
    simp only [ids_markFailedJobs]
    exact hs
  · intro threshold hbTime s hs
    exact hs
  · intro f now s hs
    exact queueApart_find c f now s hs

theorem activeJobs_haveUUID_eq_find (a : ActiveJobs) (id : uuid) :
    a.haveUUID id = (a.find id).isSome := by
  unfold ActiveJobs.haveUUID ActiveJobs.find
  induction a.Info with
  | nil => rfl
  | cons r rs ih =>
    simp only [List.any_cons, List.find?_cons]
    cases hr : r.JobId == id
    · simpa using ih
    · simp

/-- The record found for an id after a map that keeps the ids. -/
theorem activeJobs_find_map (l : List ActiveJobRecord) (g : ActiveJobRecord → ActiveJobRecord)
    (hg : ∀ r, (g r).JobId = r.JobId) (id : uuid) :
    ActiveJobs.find ⟨l.map g⟩ id = (ActiveJobs.find ⟨l⟩ id).map g := by
  unfold ActiveJobs.find
  simp only
  induction l with
  | nil => rfl
  | cons r rs ih =>
    simp only [List.map_cons, List.find?_cons, hg]
    cases hr : r.JobId == id
    · simpa using ih
    · simp

theorem activeJobs_find_id (a : ActiveJobs) (id : uuid) (r : ActiveJobRecord)
    (h : a.find id = some r) : r.JobId = id ∧ r ∈ a.Info := by
  unfold ActiveJobs.find at h
  exact ⟨by simpa using List.find?_some h, List.mem_of_find?_eq_some h⟩

theorem activeJobs_find_remove (a : ActiveJobs) (id J : uuid) :
    (a.remove id).find J = if J = id then none else a.find J := by
  unfold ActiveJobs.remove ActiveJobs.find
  simp only
  induction a.Info with
  | nil => simp
  | cons r rs ih =>
    by_cases hrid : r.JobId = id
    · have : (r.JobId != id) = false := by simp [hrid]
      rw [List.filter_cons_of_neg (by simp [this]), ih]
      by_cases hJ : J = id
      · simp [hJ]
      · have hne : (r.JobId == J) = false := by
          simp only [beq_eq_false_iff_ne, ne_eq]
          intro h
          exact hJ (h.symm.trans hrid)
        simp [hJ, List.find?_cons, hne]
    · have : (r.JobId != id) = true := by simp [hrid]
      rw [List.filter_cons_of_pos (by simp [this]), List.find?_cons, List.find?_cons, ih]
      cases hr : r.JobId == J
      · rfl
      · have hrJ : r.JobId = J := by simpa using hr
        have hJ : ¬ J = id := fun h => hrid (hrJ.trans h)
        simp [hJ]

theorem activeJobs_find_add (a : ActiveJobs) (now : Nat) (w : SocketIdentity) (id J : uuid) :
    (a.add now w id).find J =
      if J = id then some ⟨id, w, JobStatus.mk2 id STATUS_TYPE.IN_PROGRESS, none, now⟩
      else a.find J := by
  have hrem := activeJobs_find_remove a id J
  unfold ActiveJobs.add
  unfold ActiveJobs.remove ActiveJobs.find at hrem
  unfold ActiveJobs.find
  simp only at hrem ⊢
  rw [List.find?_append, hrem]
  by_cases hJ : J = id
  · simp [hJ]
  · have hne : (id == J) = false := by
      simp only [beq_eq_false_iff_ne, ne_eq]
      exact fun h => hJ h.symm
    simp [hJ, List.find?_cons, hne]

/-- What `meshStatus` computes for an id that is not in the queue. -/
theorem meshStatus_js_of_not_queued (c : Codec) (s : Server) (msg : JobMessage)
    (hq : s.QueuedJobs.haveUUID (c.to_uuid msg) = false) :
    meshStatus_js c s msg =
      match s.ActiveJobs.find (c.to_uuid msg) with
      | some r => r.jstatus
      | none => JobStatus.mk2 (c.to_uuid msg) STATUS_TYPE.INVALID_STATUS := by
  unfold meshStatus_js
  simp only [hq, Bool.false_eq_true, if_false, activeJobs_haveUUID_eq_find, ActiveJobs.status]
  cases s.ActiveJobs.find (c.to_uuid msg) <;> simp

theorem activeOnChain_init : ActiveOnChain Server.init := by
  intro r hr
  cases hr

theorem activeOnChain_runs (c : Codec) (idOk : Server → uuid → Prop)
    (workerOk : Server → SocketIdentity → JobMessage → Prop) (s0 s : Server)
    (h0 : ActiveOnChain s0) (h : Runs c idOk workerOk s0 s) : ActiveOnChain s := by
  refine runs_invariant c idOk workerOk s0 ActiveOnChain ?_ ?_ ?_ ?_ ?_ h0 s h
  · intro f jobUUID s clientIdentity msg hs _
    obtain ⟨_, hcases⟩ := clientBranch_cases c f jobUUID s clientIdentity msg
    intro r hr
    rcases hcases with ⟨_, h2⟩ | ⟨_, h2⟩ | ⟨_, h2⟩
    · rw [h2] at hr
      exact hs r hr
    · rw [h2] at hr
      exact hs r hr
    · rw [h2] at hr
      exact hs r (List.mem_filter.mp hr).1
  · intro now s w msg hs _
    intro r hr
    unfold workerBranch ActiveJobs.refreshJobs at hr
    simp only [List.mem_map] at hr
    obtain ⟨r1, hr1, hrr⟩ := hr
    have h1 : 2 ≤ r1.jstatus.Status.rank := by
      unfold DetermineWorkerResponse at hr1
      cases hs2 : msg.serviceType <;> rw [hs2] at hr1 <;> simp only at hr1
      case MESH_STATUS =>
        unfold storeMeshStatus ActiveJobs.updateStatus at hr1
        simp only [List.mem_map] at hr1
        obtain ⟨r0, hr0, hrr0⟩ := hr1
        have := hs r0 hr0
        split at hrr0
        · rename_i hg
          rw [← hrr0]
          exact le_trans this hg.2.2
        · rw [← hrr0]
          exact this
      case RETRIEVE_MESH =>
        unfold storeMesh ActiveJobs.updateResult at hr1
        simp only [List.mem_map] at hr1
        obtain ⟨r0, hr0, hrr0⟩ := hr1
        have := hs r0 hr0
        split at hrr0
        · rw [← hrr0]
          simp [JobStatus.mk2, STATUS_TYPE.rank]
        · rw [← hrr0]
          exact this
      all_goals exact hs r1 hr1
    rw [← hrr]
    split <;> exact h1
  · intro threshold hbTime s hs r hr
    unfold ActiveJobs.markFailedJobs at hr
    simp only [List.mem_map] at hr
    obtain ⟨r0, hr0, hrr0⟩ := hr
    have := hs r0 hr0
    split at hrr0
    · rw [← hrr0]
      simp [STATUS_TYPE.rank]
    · rw [← hrr0]
      exact this
  · intro threshold hbTime s hs
    exact hs
  · intro f now s hs
    unfold FindWorkerForQueuedJob
    apply foldl_invariant ActiveOnChain
    · intro b T hb
      unfold assignWaiting
      split
      · split
        · intro r hr
          unfold assignJobToWorker ActiveJobs.add at hr
          simp only [List.mem_append, List.mem_singleton] at hr
          rcases hr with hr | hr
          · exact hb r (List.mem_filter.mp hr).1
          · rw [hr]
            simp [JobStatus.mk2, STATUS_TYPE.rank]
        · exact hb
      · exact hb
    · apply foldl_invariant ActiveOnChain
      · intro b T hb
        unfold requestWorker
        split
        · exact hb
        · split <;> exact hb
      · exact hs
theorem runs_assignedJobServer :
    Runs sampleCodec Fresh AnyWorkerMessage Server.init assignedJobServer :=
  Runs.find _ _ _
    (Runs.client _ _ _ _ _ (Runs.worker _ _ _ _ Runs.start trivial) ⟨by decide, by decide⟩)

theorem runs_finishedJobServer :
    Runs sampleCodec Fresh AnyWorkerMessage Server.init finishedJobServer :=
  Runs.worker _ _ _ _ runs_assignedJobServer trivial

/-! ## Status relay and results -/

/-- C15 fails as stated.  Job 100 is assigned to worker `[7]`, which has delivered its result, so
the stored status is `FINISHED`.  The worker then sends a status `IN_PROGRESS` with progress 50
for job 100; the next client `MESH_STATUS` still replies `FINISHED`, not the status the worker
sent. -/
theorem C15_counterexample :
    Runs sampleCodec Fresh AnyWorkerMessage Server.init finishedJobServer
    ∧ finishedJobServer.ActiveJobs.find 100
        = some ⟨100, [7], ⟨100, STATUS_TYPE.FINISHED, none⟩, some ⟨100, [1, 2, 3]⟩, 3⟩
    ∧ sampleCodec.to_JobStatus [100, 2, 50] = ⟨100, STATUS_TYPE.IN_PROGRESS, some ⟨50, []⟩⟩
    ∧ meshStatus_js sampleCodec
        (workerBranch sampleCodec 4 finishedJobServer [7]
          ⟨true, SERVICE_TYPE.MESH_STATUS, 2, [100, 2, 50]⟩)
        ⟨true, SERVICE_TYPE.MESH_STATUS, 2, [100]⟩ = ⟨100, STATUS_TYPE.FINISHED, none⟩ :=
  ⟨runs_finishedJobServer, by decide, by decide, by decide⟩

/-- C15 (amended). In a state reached from a new server with fresh ids, let job `J` be assigned to
worker `w` with a stored status that is not terminal.  If `w` sends a `MESH_STATUS` message
carrying the status `IN_PROGRESS` with progress `p` for `J`, the next client `MESH_STATUS` for `J`
replies a status equal to the one the worker sent: same id, `IN_PROGRESS`, progress `p`. -/
theorem C15_status_relay (c : Codec) (s : Server) (w : SocketIdentity) (now : Nat)
    (wmsg cmsg : JobMessage) (J : uuid) (p : JobProgress) (r : ActiveJobRecord)
    (h0 : Runs c Fresh AnyWorkerMessage Server.init s)
    (hs : wmsg.serviceType = SERVICE_TYPE.MESH_STATUS)
    (hjs : c.to_JobStatus wmsg.data = ⟨J, STATUS_TYPE.IN_PROGRESS, some p⟩)
    (hc : c.to_uuid cmsg = J)
    (hr : s.ActiveJobs.find J = some r) (hw : r.WorkerAddress = w)
    (hnt : r.jstatus.Status.terminal = false) :
    meshStatus_js c (workerBranch c now s w wmsg) cmsg = ⟨J, STATUS_TYPE.IN_PROGRESS, some p⟩
    ∧ meshStatus c (workerBranch c now s w wmsg) cmsg
        = c.status_to_string ⟨J, STATUS_TYPE.IN_PROGRESS, some p⟩ := by
  have hqa := queueApart_runs c Fresh AnyWorkerMessage (fun _ _ h => h) _ s queueApart_init h0
  obtain ⟨hrid, hrmem⟩ := activeJobs_find_id _ _ _ hr
  have hact : s.ActiveJobs.haveUUID J = true := by
    rw [activeJobs_haveUUID_eq_find, hr]
    rfl
  have hq : s.QueuedJobs.haveUUID J = false := by
    rw [Bool.eq_false_iff]
    intro hq
    exact singleResidence_of_queueApart s hqa J ⟨hq, hact⟩
  have hq2 : (workerBranch c now s w wmsg).QueuedJobs.haveUUID (c.to_uuid cmsg) = false := by
    rw [(workerBranch_ids c now s w wmsg).1, hc]
    exact hq
  have hrank : r.jstatus.Status.rank ≤ 2 := by
    revert hnt
    cases r.jstatus.Status <;> simp [STATUS_TYPE.terminal, STATUS_TYPE.rank]
  have hfind : (workerBranch c now s w wmsg).ActiveJobs.find J =
      some { r with jstatus := ⟨J, STATUS_TYPE.IN_PROGRESS, some p⟩, last_heartbeat := now } := by
    unfold workerBranch DetermineWorkerResponse
    simp only [hs, storeMeshStatus, hjs]
    unfold ActiveJobs.refreshJobs ActiveJobs.updateStatus
    rw [activeJobs_find_map _ _ (by intro x; split <;> rfl)]
    rw [activeJobs_find_map _ _ (by intro x; split <;> rfl)]
    rw [show (⟨s.ActiveJobs.Info⟩ : ActiveJobs) = s.ActiveJobs from rfl, hr]
    simp only [Option.map_some']
    have hg : r.JobId = J ∧ r.jstatus.Status.terminal = false
        ∧ r.jstatus.Status.rank ≤ STATUS_TYPE.IN_PROGRESS.rank := ⟨hrid, hnt, hrank⟩
    rw [if_pos hg]
    simp only [hw, if_true]
  have hjs2 : meshStatus_js c (workerBranch c now s w wmsg) cmsg
      = ⟨J, STATUS_TYPE.IN_PROGRESS, some p⟩ := by
    rw [meshStatus_js_of_not_queued c _ cmsg hq2, hc, hfind]
  exact ⟨hjs2, by unfold meshStatus; rw [hjs2]⟩

/-- C15 (amended) at a concrete input: worker `[7]` reports progress 50 for job 100, which is
assigned to it and in progress. -/
theorem C15_status_relay_witness :
    meshStatus_js sampleCodec
        (workerBranch sampleCodec 4 assignedJobServer [7]
          ⟨true, SERVICE_TYPE.MESH_STATUS, 2, [100, 2, 50]⟩)
        ⟨true, SERVICE_TYPE.MESH_STATUS, 2, [100]⟩
      = ⟨100, STATUS_TYPE.IN_PROGRESS, some ⟨50, []⟩⟩ :=
  (C15_status_relay sampleCodec assignedJobServer [7] 4
    ⟨true, SERVICE_TYPE.MESH_STATUS, 2, [100, 2, 50]⟩ ⟨true, SERVICE_TYPE.MESH_STATUS, 2, [100]⟩
    100 ⟨50, []⟩ ⟨100, [7], ⟨100, STATUS_TYPE.IN_PROGRESS, none⟩, none, 2⟩
    runs_assignedJobServer rfl (by decide) (by decide) (by decide) rfl rfl).1

/-- C16. In a state reached from a new server with fresh ids, let `J` be an active job whose
stored status is not terminal, whatever its progress.  After `storeMesh` has handled a worker's
result for `J`, the client `MESH_STATUS` for `J` replies `FINISHED`, although no `FINISHED` status
message was sent; the same holds after the whole worker branch of the loop. -/
theorem C16_finished_after_result (c : Codec) (s : Server) (w : SocketIdentity) (now : Nat)
    (wmsg cmsg : JobMessage) (J : uuid) (r : ActiveJobRecord)
    (h0 : Runs c Fresh AnyWorkerMessage Server.init s)
    (hs : wmsg.serviceType = SERVICE_TYPE.RETRIEVE_MESH)
    (hjr : (c.to_JobResult wmsg.data).JobId = J)
    (hc : c.to_uuid cmsg = J)
    (hr : s.ActiveJobs.find J = some r)
    (hnt : r.jstatus.Status.terminal = false) :
    meshStatus_js c (storeMesh c s wmsg) cmsg = ⟨J, STATUS_TYPE.FINISHED, none⟩
    ∧ meshStatus c (storeMesh c s wmsg) cmsg = c.status_to_string ⟨J, STATUS_TYPE.FINISHED, none⟩
    ∧ meshStatus_js c (workerBranch c now s w wmsg) cmsg = ⟨J, STATUS_TYPE.FINISHED, none⟩ := by
  have hqa := queueApart_runs c Fresh AnyWorkerMessage (fun _ _ h => h) _ s queueApart_init h0
  have hch := activeOnChain_runs c Fresh AnyWorkerMessage _ s activeOnChain_init h0
  obtain ⟨hrid, hrmem⟩ := activeJobs_find_id _ _ _ hr
  have hact : s.ActiveJobs.haveUUID J = true := by
    rw [activeJobs_haveUUID_eq_find, hr]
    rfl
  have hq : s.QueuedJobs.haveUUID J = false := by
    rw [Bool.eq_false_iff]
    intro hq
    exact singleResidence_of_queueApart s hqa J ⟨hq, hact⟩
  have hip : r.jstatus.Status = STATUS_TYPE.IN_PROGRESS := by
    have h2 := hch r hrmem
    revert hnt h2
    cases r.jstatus.Status <;> simp [STATUS_TYPE.terminal, STATUS_TYPE.rank]
  have hg : r.JobId = (c.to_JobResult wmsg.data).JobId ∧
      (r.jstatus.Status = STATUS_TYPE.IN_PROGRESS ∨ r.jstatus.Status = STATUS_TYPE.FINISHED) :=
    ⟨hrid.trans hjr.symm, Or.inl hip⟩
  have hfind1 : (storeMesh c s wmsg).ActiveJobs.find J =
      some { r with jresult := some (c.to_JobResult wmsg.data),
                    jstatus := JobStatus.mk2 (c.to_JobResult wmsg.data).JobId
                      STATUS_TYPE.FINISHED } := by
    unfold storeMesh
    simp only
    rw [activeJobs_find_updateResult, hr]
    simp only [Option.map_some']
    rw [if_pos hg]
  have hjs1 : meshStatus_js c (storeMesh c s wmsg) cmsg = ⟨J, STATUS_TYPE.FINISHED, none⟩ := by
    have hq1 : (storeMesh c s wmsg).QueuedJobs.haveUUID (c.to_uuid cmsg) = false := by
      rw [hc]
      exact hq
    rw [meshStatus_js_of_not_queued c _ cmsg hq1, hc, hfind1]
    simp only [JobStatus.mk2, hjr]
  refine ⟨hjs1, by unfold meshStatus; rw [hjs1], ?_⟩
  have hq2 : (workerBranch c now s w wmsg).QueuedJobs.haveUUID (c.to_uuid cmsg) = false := by
    rw [(workerBranch_ids c now s w wmsg).1, hc]
    exact hq
  have hfind2 : ∃ hb, (workerBranch c now s w wmsg).ActiveJobs.find J =
      some { r with jresult := some (c.to_JobResult wmsg.data),
                    jstatus := JobStatus.mk2 (c.to_JobResult wmsg.data).JobId
                      STATUS_TYPE.FINISHED,
                    last_heartbeat := hb } := by
    unfold workerBranch DetermineWorkerResponse
    simp only [hs]
    unfold ActiveJobs.refreshJobs
    rw [activeJobs_find_map _ _ (by intro x; split <;> rfl)]
    rw [show (⟨(storeMesh c s wmsg).ActiveJobs.Info⟩ : ActiveJobs)
      = (storeMesh c s wmsg).ActiveJobs from rfl, hfind1]
    simp only [Option.map_some']
    split
    · exact ⟨now, rfl⟩
    · exact ⟨r.last_heartbeat, rfl⟩
  obtain ⟨hb, hfind2⟩ := hfind2
  rw [meshStatus_js_of_not_queued c _ cmsg hq2, hc, hfind2]
  simp only [JobStatus.mk2, hjr]

/-- C16 at a concrete input: worker `[7]` delivers the result of job 100, in progress until
then. -/
theorem C16_finished_after_result_witness :
    meshStatus_js sampleCodec
        (storeMesh sampleCodec assignedJobServer
          ⟨true, SERVICE_TYPE.RETRIEVE_MESH, 2, [100, 1, 2, 3]⟩)
        ⟨true, SERVICE_TYPE.MESH_STATUS, 2, [100]⟩ = ⟨100, STATUS_TYPE.FINISHED, none⟩ :=
  (C16_finished_after_result sampleCodec assignedJobServer [7] 3
    ⟨true, SERVICE_TYPE.RETRIEVE_MESH, 2, [100, 1, 2, 3]⟩ ⟨true, SERVICE_TYPE.MESH_STATUS, 2, [100]⟩
    100 ⟨100, [7], ⟨100, STATUS_TYPE.IN_PROGRESS, none⟩, none, 2⟩
    runs_assignedJobServer rfl (by decide) (by decide) (by decide) rfl).1

/-! ## Status monotonicity -/

theorem jobQueue_not_haveUUID_iff (q : JobQueue) (id : uuid) :
    q.haveUUID id = false ↔ id ∉ q.ids := by
  rw [← jobQueue_haveUUID_iff, Bool.not_eq_true]

theorem settledAt_clientBranch (c : Codec) (f : WorkerFactory) (jobUUID : uuid) (s : Server)
    (clientIdentity : SocketIdentity) (msg : JobMessage) (J : uuid) (t : STATUS_TYPE)
    (hid : jobUUID ≠ J) (h : SettledAt J t s) :
    SettledAt J t (clientBranch c f jobUUID s clientIdentity msg) := by
  obtain ⟨_, hcases⟩ := clientBranch_cases c f jobUUID s clientIdentity msg
  unfold SettledAt
  rcases hcases with ⟨h1, h2⟩ | ⟨h1, h2⟩ | ⟨h1, h2⟩
  · rw [h1, h2]
    exact h
  · rw [h1, h2]
    refine ⟨?_, h.2⟩
    rw [jobQueue_not_haveUUID_iff]
    intro hmem
    rcases List.mem_cons.mp ((ids_addJob s.QueuedJobs jobUUID msg).mem_iff.mp hmem) with hm | hm
    · exact hid hm.symm
    · exact (jobQueue_not_haveUUID_iff _ _).mp h.1 hm
  · rw [h1, h2]
    refine ⟨h.1, ?_⟩
    intro r hr
    rw [activeJobs_find_remove] at hr
    split at hr
    · cases hr
    · exact h.2 r hr

theorem settledAt_workerBranch (c : Codec) (now : Nat) (s : Server) (w : SocketIdentity)
    (msg : JobMessage) (J : uuid) (t : STATUS_TYPE) (ht : t.terminal = true)
    (h : SettledAt J t s) : SettledAt J t (workerBranch c now s w msg) := by
  refine ⟨by rw [(workerBranch_ids c now s w msg).1]; exact h.1, ?_⟩
  intro r hr
  unfold workerBranch ActiveJobs.refreshJobs at hr
  simp only at hr
  rw [activeJobs_find_map _ _ (by intro x; split <;> rfl)] at hr
  have key : ∀ r1, (DetermineWorkerResponse c now s w msg).ActiveJobs.find J = some r1 →
      r1.jstatus.Status = t := by
    intro r1 hr1
    unfold DetermineWorkerResponse at hr1
    cases hs : msg.serviceType <;> rw [hs] at hr1 <;> simp only at hr1
    case MESH_STATUS =>
      unfold storeMeshStatus ActiveJobs.updateStatus at hr1
      simp only at hr1
      rw [activeJobs_find_map _ _ (by intro x; split <;> rfl)] at hr1
      cases hf : s.ActiveJobs.find J with
      | none =>
        rw [show (⟨s.ActiveJobs.Info⟩ : ActiveJobs) = s.ActiveJobs from rfl, hf] at hr1
        cases hr1
      | some r0 =>
        rw [show (⟨s.ActiveJobs.Info⟩ : ActiveJobs) = s.ActiveJobs from rfl, hf] at hr1
        simp only [Option.map_some', Option.some.injEq] at hr1
        have h0 := h.2 r0 hf
        have hng : ¬ (r0.JobId = (c.to_JobStatus msg.data).JobId
            ∧ r0.jstatus.Status.terminal = false
            ∧ r0.jstatus.Status.rank ≤ (c.to_JobStatus msg.data).Status.rank) := by
          rintro ⟨_, h2, _⟩
          rw [h0, ht] at h2
          exact Bool.noConfusion h2
        rw [if_neg hng] at hr1
        rw [← hr1]
        exact h0
    case RETRIEVE_MESH =>
      unfold storeMesh at hr1
      simp only at hr1
      rw [activeJobs_find_updateResult] at hr1
      cases hf : s.ActiveJobs.find J with
      | none =>
        rw [hf] at hr1
        cases hr1
      | some r0 =>
        rw [hf] at hr1
        simp only [Option.map_some', Option.some.injEq] at hr1
        have h0 := h.2 r0 hf
        split at hr1
        · rename_i hg
          rw [← hr1]
          simp only [JobStatus.mk2]
          rcases hg.2 with h3 | h3
          · rw [h0] at h3
            rw [h3] at ht
            exact Bool.noConfusion ht
          · rw [← h0, h3]
        · rw [← hr1]
          exact h0
    all_goals exact h.2 r1 hr1
  cases hf : (DetermineWorkerResponse c now s w msg).ActiveJobs.find J with
  | none =>
    rw [show (⟨(DetermineWorkerResponse c now s w msg).ActiveJobs.Info⟩ : ActiveJobs)
      = (DetermineWorkerResponse c now s w msg).ActiveJobs from rfl, hf] at hr
    cases hr
  | some r1 =>
    rw [show (⟨(DetermineWorkerResponse c now s w msg).ActiveJobs.Info⟩ : ActiveJobs)
      = (DetermineWorkerResponse c now s w msg).ActiveJobs from rfl, hf] at hr
    simp only [Option.map_some', Option.some.injEq] at hr
    rw [← hr]
    have := key r1 hf
    split <;> exact this

theorem settledAt_requestWorker (f : WorkerFactory) (s : Server) (T : MESH_TYPE) (J : uuid)
    (t : STATUS_TYPE) (h : SettledAt J t s) : SettledAt J t (requestWorker f s T) := by
  have key : SettledAt J t { s with QueuedJobs := s.QueuedJobs.workerDispatched T } := by
    refine ⟨?_, h.2⟩
    rw [jobQueue_not_haveUUID_iff]
    intro hm
    exact (jobQueue_not_haveUUID_iff _ _).mp h.1
      ((ids_workerDispatched s.QueuedJobs T).mem_iff.mp hm)
  unfold requestWorker
  split
  · exact key
  · split
    · exact key
    · exact h

theorem settledAt_assignWaiting (c : Codec) (now : Nat) (s : Server) (T : MESH_TYPE) (J : uuid)
    (t : STATUS_TYPE) (h : SettledAt J t s) : SettledAt J t (assignWaiting c now s T) := by
  unfold assignWaiting
  split
  · split
    · rename_i w pool job queue hw hj
      have hperm := ids_takeJob _ _ _ _ hj
      have hJ := (jobQueue_not_haveUUID_iff _ _).mp h.1
      have hne : J ≠ job.JobId := by
        intro he
        exact hJ (hperm.mem_iff.mpr (he ▸ List.mem_cons_self _ _))
      refine ⟨?_, ?_⟩
      · rw [jobQueue_not_haveUUID_iff]
        intro hm
        exact hJ (hperm.mem_iff.mpr (List.mem_cons_of_mem _ hm))
      · intro r hr
        unfold assignJobToWorker at hr
        simp only at hr
        rw [activeJobs_find_add, if_neg hne] at hr
        exact h.2 r hr
    · exact h
  · exact h

/-! ## Liveness-driven failure -/

theorem haveWorker_false_iff (p : WorkerPool) (w : SocketIdentity) :
    p.haveWorker w = false ↔ ∀ r ∈ p.Pool, r.Address ≠ w := by
  unfold WorkerPool.haveWorker
  simp [List.any_eq_false]

/-- What `takeFirst` does to the jobs of each type: it removes the first job of its own type and
leaves the jobs of every other type as they are. -/
theorem takeFirst_filter (T2 T : MESH_TYPE) (l : List JobDetails) (j : JobDetails)
    (rest : List JobDetails) (h : takeFirst T2 l = some (j, rest)) :
    j.MType = T2
    ∧ l.filter (fun k => k.MType == T) =
        if T2 = T then j :: rest.filter (fun k => k.MType == T)
        else rest.filter (fun k => k.MType == T) := by
  induction l generalizing j rest with
  | nil => simp [takeFirst] at h
  | cons a as ih =>
    unfold takeFirst at h
    by_cases ha : a.MType = T2
    · rw [if_pos ha] at h
      simp only [Option.some.injEq, Prod.mk.injEq] at h
      obtain ⟨h1, h2⟩ := h
      subst h1 h2
      refine ⟨ha, ?_⟩
      by_cases hT : T2 = T
      · rw [if_pos hT, List.filter_cons_of_pos (by simp [ha, hT])]
      · rw [if_neg hT, List.filter_cons_of_neg (by simp [ha, hT])]
    · rw [if_neg ha] at h
      cases ht : takeFirst T2 as with
      | none => simp [ht] at h
      | some p =>
        obtain ⟨k, r⟩ := p
        rw [ht] at h
        simp only [Option.some.injEq, Prod.mk.injEq] at h
        obtain ⟨h1, h2⟩ := h
        subst h1 h2
        obtain ⟨ih1, ih2⟩ := ih k r ht
        refine ⟨ih1, ?_⟩
        by_cases hT : T2 = T
        · have haT : ¬ a.MType = T := fun he => ha (he.trans hT.symm)
          rw [if_pos hT, List.filter_cons_of_neg (by simp [haT]),
            List.filter_cons_of_neg (by simp [haT]), ih2, if_pos hT]
        · rw [if_neg hT]
          rw [if_neg hT] at ih2
          by_cases haT : a.MType = T
          · rw [List.filter_cons_of_pos (by simp [haT]), List.filter_cons_of_pos (by simp [haT]),
              ih2]
          · rw [List.filter_cons_of_neg (by simp [haT]), List.filter_cons_of_neg (by simp [haT]),
              ih2]

theorem typeOrder_mem_ids (q : JobQueue) (T : MESH_TYPE) (x : uuid) (h : x ∈ q.typeOrder T) :
    x ∈ q.ids := by
  unfold JobQueue.typeOrder at h
  unfold JobQueue.ids
  rw [List.mem_map] at h ⊢
  obtain ⟨j, hj, hx⟩ := h
  have hm := (List.mem_filter.mp hj).1
  refine ⟨j, ?_, hx⟩
  rw [List.mem_append] at hm ⊢
  exact hm.symm

theorem typeOrder_addJob (q : JobQueue) (id : uuid) (msg : JobMessage) (T : MESH_TYPE) :
    (q.addJob id msg).typeOrder T =
      q.typeOrder T ++ (if msg.meshType = T then [id] else []) := by
  unfold JobQueue.addJob JobQueue.typeOrder
  simp only [List.filter_append, List.map_append]
  by_cases hT : msg.meshType = T
  · simp [List.filter_cons, hT]
  · simp [List.filter_cons, hT]

theorem typeOrder_workerDispatched (q : JobQueue) (T2 T : MESH_TYPE) :
    (q.workerDispatched T2).typeOrder T = q.typeOrder T := by
  unfold JobQueue.workerDispatched
  cases ht : takeFirst T2 q.awaiting_dispatch with
  | none => rfl
  | some p =>
    obtain ⟨j, rest⟩ := p
    obtain ⟨hj, hf⟩ := takeFirst_filter T2 T _ j rest ht
    unfold JobQueue.typeOrder
    simp only [List.filter_append, List.map_append, hf]
    by_cases hT : T2 = T
    · simp [List.filter_cons, hT, hj]
    · have hjT : ¬ j.MType = T := fun he => hT (hj.symm.trans he)
      simp [List.filter_cons, hT, hjT]

theorem typeOrder_takeJob (q : JobQueue) (T2 T : MESH_TYPE) (job : JobDetails) (q2 : JobQueue)
    (h : q.takeJob T2 = some (job, q2)) :
    q.typeOrder T = if T2 = T then job.JobId :: q2.typeOrder T else q2.typeOrder T := by
  unfold JobQueue.takeJob at h
  cases ht : takeFirst T2 q.awaiting_worker with
  | none => simp [ht] at h
  | some p =>
    obtain ⟨j, rest⟩ := p
    rw [ht] at h
    simp only [Option.some.injEq, Prod.mk.injEq] at h
    obtain ⟨h1, h2⟩ := h
    subst h1 h2
    obtain ⟨_, hf⟩ := takeFirst_filter T2 T _ j rest ht
    unfold JobQueue.typeOrder
    simp only [List.filter_append, List.map_append, hf]
    by_cases hT : T2 = T
    · simp [hT]
    · simp [hT]

/-- Job `i1`, while queued, stands in the serving order of type `T`. -/
theorem inOrder_step_addJob (q : JobQueue) (id i1 : uuid) (msg : JobMessage) (T : MESH_TYPE)
    (hne : id ≠ i1) (h : i1 ∈ q.ids → i1 ∈ q.typeOrder T)
    (hm : i1 ∈ (q.addJob id msg).ids) : i1 ∈ (q.addJob id msg).typeOrder T := by
  rcases List.mem_cons.mp ((ids_addJob q id msg).mem_iff.mp hm) with h1 | h1
  · exact absurd h1.symm hne
  · rw [typeOrder_addJob]
    exact List.mem_append_left _ (h h1)

theorem inOrder_step_takeJob (q : JobQueue) (T2 T : MESH_TYPE) (job : JobDetails)
    (q2 : JobQueue) (i1 : uuid) (hj : q.takeJob T2 = some (job, q2)) (hnd : q.ids.Nodup)
    (h : i1 ∈ q.ids → i1 ∈ q.typeOrder T) (hm : i1 ∈ q2.ids) : i1 ∈ q2.typeOrder T := by
  have hperm := ids_takeJob q T2 job q2 hj
  have hnd2 := List.nodup_cons.mp (hperm.nodup_iff.mp hnd)
  have h1 := h (hperm.mem_iff.mpr (List.mem_cons_of_mem _ hm))
  rw [typeOrder_takeJob q T2 T job q2 hj] at h1
  split at h1
  · rcases List.mem_cons.mp h1 with h2 | h2
    · rw [h2] at hm
      exact absurd hm hnd2.1
    · exact h2
  · exact h1

/-- While job `i1` is queued, job `i2` stands behind it in the serving order of type `T` and is
not held by `ActiveJobs`. -/
theorem behind_step_takeJob (q : JobQueue) (T2 T : MESH_TYPE) (job : JobDetails)
    (q2 : JobQueue) (i1 i2 : uuid) (hj : q.takeJob T2 = some (job, q2)) (hnd : q.ids.Nodup)
    (h : ∃ l1 l2, q.typeOrder T = l1 ++ i1 :: l2 ∧ i2 ∈ l2) (hm : i1 ∈ q2.ids) :
    (∃ l1 l2, q2.typeOrder T = l1 ++ i1 :: l2 ∧ i2 ∈ l2) ∧ job.JobId ≠ i2 := by
  have hperm := ids_takeJob q T2 job q2 hj
  have hnd2 := List.nodup_cons.mp (hperm.nodup_iff.mp hnd)
  obtain ⟨l1, l2, hord, hi2⟩ := h
  have hord2 := typeOrder_takeJob q T2 T job q2 hj
  have key : ∃ l1 l2, q2.typeOrder T = l1 ++ i1 :: l2 ∧ i2 ∈ l2 := by
    split at hord2
    · rw [hord] at hord2
      cases l1 with
      | nil =>
        simp only [List.nil_append, List.cons.injEq] at hord2
        rw [hord2.1] at hm
        exact absurd hm hnd2.1
      | cons a l1b =>
        simp only [List.cons_append, List.cons.injEq] at hord2
        exact ⟨l1b, l2, hord2.2.symm, hi2⟩
    · rw [hord] at hord2
      exact ⟨l1, l2, hord2.symm, hi2⟩
  refine ⟨key, ?_⟩
  obtain ⟨m1, m2, hk, hk2⟩ := key
  intro he
  have : i2 ∈ q2.ids := by
    apply typeOrder_mem_ids q2 T
    rw [hk]
    exact List.mem_append_right _ (List.mem_cons_of_mem _ hk2)
  rw [← he] at this
  exact hnd2.1 this
theorem clientBranch_accept (c : Codec) (f : WorkerFactory) (jobUUID : uuid) (s : Server)
    (clientIdentity : SocketIdentity) (msg : JobMessage) (hv : msg.isValid = true)
    (hs : msg.serviceType = SERVICE_TYPE.MAKE_MESH) (hc : canMesh f msg = true) :
    (clientBranch c f jobUUID s clientIdentity msg).QueuedJobs = s.QueuedJobs.addJob jobUUID msg
    ∧ (clientBranch c f jobUUID s clientIdentity msg).ActiveJobs = s.ActiveJobs := by
  unfold clientBranch DetermineJobQueryResponse DetermineJobQueryResponse_response
  simp [hv, hs, queueJob, hc]

theorem queuedInOrder_runs (c : Codec) (i1 : uuid) (T : MESH_TYPE) (s0 s : Server)
    (h0 : QueuedInOrder i1 T s0) (h : Runs c (FreshNot i1) AnyWorkerMessage s0 s) :
    QueuedInOrder i1 T s := by
  refine runs_invariant c (FreshNot i1) AnyWorkerMessage s0 (QueuedInOrder i1 T)
    ?_ ?_ ?_ ?_ ?_ h0 s h
  · intro f jobUUID s clientIdentity msg hs hok
    refine ⟨queueApart_clientBranch c f jobUUID s clientIdentity msg hok.1 hs.1, ?_⟩
    obtain ⟨_, hcases⟩ := clientBranch_cases c f jobUUID s clientIdentity msg
    rcases hcases with ⟨h1, _⟩ | ⟨h1, _⟩ | ⟨h1, _⟩
    · rw [h1]
      exact hs.2
    · rw [h1]
      exact inOrder_step_addJob _ _ _ _ _ hok.2 hs.2
    · rw [h1]
      exact hs.2
  · intro now s w msg hs _
    refine ⟨queueApart_workerBranch c now s w msg hs.1, ?_⟩
    rw [(workerBranch_ids c now s w msg).1]
    exact hs.2
  · intro threshold hbTime s hs
    refine ⟨?_, hs.2⟩
    unfold QueueApart
    simp only [ids_markFailedJobs]
    exact hs.1
  · intro threshold hbTime s hs
    exact hs
  · intro f now s hs
    unfold FindWorkerForQueuedJob
    apply foldl_invariant (QueuedInOrder i1 T)
    · intro b T2 hb
      refine ⟨queueApart_assignWaiting c now b T2 hb.1, ?_⟩
      unfold assignWaiting
      split
      · split
        · rename_i w pool job queue hw hj
          exact inOrder_step_takeJob _ _ _ _ _ _ hj hb.1.1 hb.2
        · exact hb.2
      · exact hb.2
    · apply foldl_invariant (QueuedInOrder i1 T)
      · intro b T2 hb
        refine ⟨queueApart_requestWorker f b T2 hb.1, ?_⟩
        have key : i1 ∈ (b.QueuedJobs.workerDispatched T2).ids →
            i1 ∈ (b.QueuedJobs.workerDispatched T2).typeOrder T := by
          intro hm
          rw [typeOrder_workerDispatched]
          exact hb.2 ((ids_workerDispatched _ _).mem_iff.mp hm)
        unfold requestWorker
        split
        · exact key
        · split
          · exact key
          · exact hb.2
      · exact hs

theorem queuedBehind_runs (c : Codec) (i1 i2 : uuid) (T : MESH_TYPE) (s0 s : Server)
    (h0 : QueuedBehind i1 i2 T s0) (h : Runs c (FreshNot2 i1 i2) AnyWorkerMessage s0 s) :
    QueuedBehind i1 i2 T s := by
  refine runs_invariant c (FreshNot2 i1 i2) AnyWorkerMessage s0 (QueuedBehind i1 i2 T)
    ?_ ?_ ?_ ?_ ?_ h0 s h
  · intro f jobUUID s clientIdentity msg hs hok
    refine ⟨queueApart_clientBranch c f jobUUID s clientIdentity msg hok.1 hs.1, ?_⟩
    obtain ⟨_, hcases⟩ := clientBranch_cases c f jobUUID s clientIdentity msg
    rcases hcases with ⟨h1, h2⟩ | ⟨h1, h2⟩ | ⟨h1, h2⟩
    · rw [h1, h2]
      exact hs.2
    · rw [h1, h2]
      intro hm
      rcases List.mem_cons.mp ((ids_addJob _ _ _).mem_iff.mp hm) with h3 | h3
      · exact absurd h3.symm hok.2.1
      · obtain ⟨ha, l1, l2, hord, hi2⟩ := hs.2 h3
        refine ⟨ha, l1, l2 ++ (if msg.meshType = T then [jobUUID] else []), ?_,
          List.mem_append_left _ hi2⟩
        rw [typeOrder_addJob, hord]
        simp
    · rw [h1, h2]
      intro hm
      obtain ⟨ha, hrest⟩ := hs.2 hm
      exact ⟨fun hx => ha (ids_remove _ _ _ hx), hrest⟩
  · intro now s w msg hs _
    refine ⟨queueApart_workerBranch c now s w msg hs.1, ?_⟩
    rw [(workerBranch_ids c now s w msg).1, (workerBranch_ids c now s w msg).2]
    exact hs.2
  · intro threshold hbTime s hs
    refine ⟨?_, ?_⟩
    · unfold QueueApart
      simp only [ids_markFailedJobs]
      exact hs.1
    · simp only [ids_markFailedJobs]
      exact hs.2
  · intro threshold hbTime s hs
    exact hs
  · intro f now s hs
    unfold FindWorkerForQueuedJob
    apply foldl_invariant (QueuedBehind i1 i2 T)
    · intro b T2 hb
      refine ⟨queueApart_assignWaiting c now b T2 hb.1, ?_⟩
      unfold assignWaiting
      split
      · split
        · rename_i w pool job queue hw hj
          intro hm
          have hperm := ids_takeJob _ _ _ _ hj
          obtain ⟨ha, hdec⟩ := hb.2 (hperm.mem_iff.mpr (List.mem_cons_of_mem _ hm))
          obtain ⟨hdec2, hne⟩ := behind_step_takeJob _ _ T _ _ i1 i2 hj hb.1.1 hdec hm
          refine ⟨?_, hdec2⟩
          intro hx
          unfold assignJobToWorker at hx
          simp only at hx
          rcases ids_add _ _ _ _ _ hx with h3 | h3
          · exact hne h3.symm
          · exact ha h3
        · exact hb.2
      · exact hb.2
    · apply foldl_invariant (QueuedBehind i1 i2 T)
      · intro b T2 hb
        refine ⟨queueApart_requestWorker f b T2 hb.1, ?_⟩
        have key : i1 ∈ (b.QueuedJobs.workerDispatched T2).ids →
            i2 ∉ b.ActiveJobs.ids ∧ ∃ l1 l2,
              (b.QueuedJobs.workerDispatched T2).typeOrder T = l1 ++ i1 :: l2 ∧ i2 ∈ l2 := by
          intro hm
          rw [typeOrder_workerDispatched]
          exact hb.2 ((ids_workerDispatched _ _).mem_iff.mp hm)
        unfold requestWorker
        split
        · exact key
        · split
          · exact key
          · exact hb.2
      · exact hs

/-- C12. FIFO per type: let job `i1` and later job `i2`, of the same mesh type, be accepted by
`queueJob` (ids fresh and never generated again).  In no state reached afterwards, through any
sequence of `FindWorkerForQueuedJob` calls, client messages, worker messages and sweeps, is `i2`
held by `ActiveJobs` while `i1` is still in the `JobQueue`. -/
theorem C12_fifo_per_type (c : Codec) (f1 f2 : WorkerFactory) (sa sb s2 : Server)
    (i1 i2 : uuid) (client1 client2 : SocketIdentity) (msg1 msg2 : JobMessage)
    (hA : Runs c Fresh AnyWorkerMessage Server.init sa)
    (hv1 : msg1.isValid = true) (hs1 : msg1.serviceType = SERVICE_TYPE.MAKE_MESH)
    (hc1 : canMesh f1 msg1 = true) (hf1 : Fresh sa i1)
    (hB : Runs c (FreshNot i1) AnyWorkerMessage (clientBranch c f1 i1 sa client1 msg1) sb)
    (hv2 : msg2.isValid = true) (hs2 : msg2.serviceType = SERVICE_TYPE.MAKE_MESH)
    (hc2 : canMesh f2 msg2 = true) (hf2 : FreshNot i1 sb i2)
    (hT : msg2.meshType = msg1.meshType)
    (hC : Runs c (FreshNot2 i1 i2) AnyWorkerMessage (clientBranch c f2 i2 sb client2 msg2) s2) :
    s2.QueuedJobs.haveUUID i1 = true → s2.ActiveJobs.haveUUID i2 = false := by
  have hqa := queueApart_runs c Fresh AnyWorkerMessage (fun _ _ h => h) _ sa queueApart_init hA
  obtain ⟨hq1, ha1⟩ := clientBranch_accept c f1 i1 sa client1 msg1 hv1 hs1 hc1
  have hA2 : QueuedInOrder i1 msg1.meshType (clientBranch c f1 i1 sa client1 msg1) := by
    refine ⟨queueApart_clientBranch c f1 i1 sa client1 msg1 hf1 hqa, ?_⟩
    intro _
    rw [hq1, typeOrder_addJob]
    simp
  have hBinv := queuedInOrder_runs c i1 msg1.meshType _ sb hA2 hB
  obtain ⟨hq2, ha2⟩ := clientBranch_accept c f2 i2 sb client2 msg2 hv2 hs2 hc2
  have hB2 : QueuedBehind i1 i2 msg1.meshType (clientBranch c f2 i2 sb client2 msg2) := by
    refine ⟨queueApart_clientBranch c f2 i2 sb client2 msg2 hf2.1 hBinv.1, ?_⟩
    intro hm
    rw [hq2] at hm
    rw [hq2, ha2]
    rcases List.mem_cons.mp ((ids_addJob _ _ _).mem_iff.mp hm) with h3 | h3
    · exact absurd h3.symm hf2.2
    · have hin := hBinv.2 h3
      obtain ⟨l1, l2, hdec⟩ := List.append_of_mem hin
      refine ⟨?_, l1, l2 ++ [i2], ?_, by simp⟩
      · rw [← activeJobs_haveUUID_iff, hf2.1.2]
        exact Bool.false_ne_true
      · rw [typeOrder_addJob, hdec, if_pos hT]
        simp
  have hCinv := queuedBehind_runs c i1 i2 msg1.meshType _ s2 hB2 hC
  intro hq
  rw [Bool.eq_false_iff]
  intro ha
  exact (hCinv.2 ((jobQueue_haveUUID_iff _ _).mp hq)).1 ((activeJobs_haveUUID_iff _ _).mp ha)

/-- C12 at a concrete input: jobs 100 then 101 of type 2 are accepted and no worker is there;
job 100 is still queued and job 101 is not active. -/
theorem C12_fifo_per_type_witness :
    twoQueuedServer.ActiveJobs.haveUUID 101 = false :=
  C12_fifo_per_type sampleCodec anyFactory anyFactory Server.init
    (clientBranch sampleCodec anyFactory 100 Server.init [9]
      ⟨true, SERVICE_TYPE.MAKE_MESH, 2, [42]⟩)
    twoQueuedServer 100 101 [9] [9] ⟨true, SERVICE_TYPE.MAKE_MESH, 2, [42]⟩
    ⟨true, SERVICE_TYPE.MAKE_MESH, 2, [43]⟩
    Runs.start rfl rfl rfl ⟨by decide, by decide⟩
    Runs.start rfl rfl rfl ⟨⟨by decide, by decide⟩, by decide⟩ rfl
    (Runs.find _ _ _ Runs.start) (by decide)

/-! ## One job, several ready workers -/

theorem mem_typeSet (l : List JobDetails) (T : MESH_TYPE) :
    T ∈ typeSet l ↔ ∃ j ∈ l, j.MType = T := by
  unfold typeSet
  rw [(List.perm_insertionSort _ _).mem_iff, List.mem_dedup, List.mem_map]

theorem takeFirst_none (T : MESH_TYPE) (l : List JobDetails) (h : takeFirst T l = none) :
    l.filter (fun k => k.MType == T) = [] := by
  induction l with
  | nil => rfl
  | cons a as ih =>
    unfold takeFirst at h
    by_cases ha : a.MType = T
    · rw [if_pos ha] at h
      cases h
    · rw [if_neg ha] at h
      cases ht : takeFirst T as with
      | none =>
        rw [List.filter_cons_of_neg (by simp [ha])]
        exact ih ht
      | some p =>
        rw [ht] at h
        cases h

theorem poolDistinct_runs (c : Codec) (idOk : Server → uuid → Prop)
    (workerOk : Server → SocketIdentity → JobMessage → Prop) (s0 s : Server)
    (h0 : PoolDistinct s0) (h : Runs c idOk workerOk s0 s) : PoolDistinct s := by
  have hmap : ∀ (l : List WorkerRecord) (g : WorkerRecord → WorkerRecord),
      (∀ r, (g r).Address = r.Address) →
      (l.map g).map (fun r => r.Address) = l.map (fun r => r.Address) := by
    intro l g hg
    rw [List.map_map]
    apply List.map_congr_left
    intro r _
    exact hg r
  have hadd : ∀ (p : WorkerPool) (now : Nat) (x : SocketIdentity) (T : MESH_TYPE),
      (p.Pool.map (fun r => r.Address)).Nodup →
      ((p.addWorker now x T).Pool.map (fun r => r.Address)).Nodup := by
    intro p now x T hp
    unfold WorkerPool.addWorker
    split
    · simp only
      rw [hmap _ _ (by intro r; split <;> rfl)]
      exact hp
    · rename_i hnw
      simp only [List.map_append, List.map_cons, List.map_nil]
      rw [List.nodup_append]
      refine ⟨hp, List.nodup_singleton _, ?_⟩
      intro a ha hb
      simp only [List.mem_singleton] at hb
      subst hb
      rw [List.mem_map] at ha
      obtain ⟨r, hr, hra⟩ := ha
      apply hnw
      unfold WorkerPool.haveWorker
      rw [List.any_eq_true]
      exact ⟨r, hr, by simp [hra]⟩
  have hready : ∀ (p : WorkerPool) (x : SocketIdentity),
      (p.Pool.map (fun r => r.Address)).Nodup →
      ((p.readyForWork x).Pool.map (fun r => r.Address)).Nodup := by
    intro p x hp
    unfold WorkerPool.readyForWork
    simp only
    rw [hmap _ _ (by intro r; split <;> rfl)]
    exact hp
  refine runs_invariant c idOk workerOk s0 PoolDistinct ?_ ?_ ?_ ?_ ?_ h0 s h
  · intro f jobUUID s clientIdentity msg hs _
    unfold PoolDistinct
    rw [(clientBranch_cases c f jobUUID s clientIdentity msg).1]
    exact hs
  · intro now s w msg hs _
    unfold PoolDistinct workerBranch WorkerPool.refreshWorker
    simp only
    rw [hmap _ _ (by intro r; split <;> rfl)]
    unfold DetermineWorkerResponse
    cases msg.serviceType <;> simp only
    case CAN_MESH => exact hadd _ _ _ _ hs
    case MAKE_MESH =>
      apply hready
      split
      · exact hadd _ _ _ _ hs
      · exact hs
    all_goals exact hs
  · intro threshold hbTime s hs
    exact hs
  · intro threshold hbTime s hs
    unfold PoolDistinct WorkerPool.purgeDeadWorkers
    exact hs.sublist ((List.filter_sublist _).map _)
  · intro f now s hs
    unfold FindWorkerForQueuedJob
    apply foldl_invariant PoolDistinct
    · intro b T hb
      unfold assignWaiting
      split
      · split
        · rename_i w pool job queue hw hj
          unfold PoolDistinct assignJobToWorker
          simp only
          rw [(takeWorker_spec _ _ _ _ hw).1]
          exact hb.sublist ((List.filter_sublist _).map _)
        · exact hb
      · exact hb
    · apply foldl_invariant PoolDistinct
      · intro b T hb
        unfold requestWorker
        split
        · exact hb
        · split <;> exact hb
      · exact hs

theorem poolDistinct_init : PoolDistinct Server.init := List.nodup_nil
theorem dispatch_filter_workerDispatched (q : JobQueue) (T2 T : MESH_TYPE) :
    (q.workerDispatched T2).awaiting_dispatch.filter (fun k => k.MType == T) =
      if T2 = T then (q.awaiting_dispatch.filter (fun k => k.MType == T)).tail
      else q.awaiting_dispatch.filter (fun k => k.MType == T) := by
  unfold JobQueue.workerDispatched
  cases ht : takeFirst T2 q.awaiting_dispatch with
  | none =>
    simp only
    split
    · rename_i hT
      rw [← hT, takeFirst_none T2 _ ht]
      rfl
    · rfl
  | some p =>
    obtain ⟨j, rest⟩ := p
    simp only
    rw [(takeFirst_filter T2 T _ j rest ht).2]
    split <;> rfl

/-- The first loop of `FindWorkerForQueuedJob` while a worker of type `T` is ready: the pool and
`ActiveJobs` are untouched, the ids and the serving order of type `T` are kept, and no job of type
`T` is left awaiting dispatch. -/
theorem requestWorker_loop (f : WorkerFactory) (T : MESH_TYPE) (l : List MESH_TYPE) (b : Server)
    (hw : b.WorkerPool.haveWaitingWorker T = true)
    (hlen : (b.QueuedJobs.awaiting_dispatch.filter (fun k => k.MType == T)).length ≤ 1)
    (hT : b.QueuedJobs.awaiting_dispatch.filter (fun k => k.MType == T) = [] ∨ T ∈ l) :
    (l.foldl (requestWorker f) b).WorkerPool = b.WorkerPool
    ∧ (l.foldl (requestWorker f) b).ActiveJobs = b.ActiveJobs
    ∧ (l.foldl (requestWorker f) b).QueuedJobs.ids.Perm b.QueuedJobs.ids
    ∧ (l.foldl (requestWorker f) b).QueuedJobs.typeOrder T = b.QueuedJobs.typeOrder T
    ∧ (l.foldl (requestWorker f) b).QueuedJobs.awaiting_dispatch.filter
        (fun k => k.MType == T) = [] := by
  induction l generalizing b with
  | nil =>
    rcases hT with hT | hT
    · exact ⟨rfl, rfl, List.Perm.refl _, rfl, hT⟩
    · cases hT
  | cons T2 l ih =>
    simp only [List.foldl_cons]
    have hstep : (requestWorker f b T2).WorkerPool = b.WorkerPool
        ∧ (requestWorker f b T2).ActiveJobs = b.ActiveJobs
        ∧ ((requestWorker f b T2).QueuedJobs = b.QueuedJobs.workerDispatched T2
          ∨ ((requestWorker f b T2).QueuedJobs = b.QueuedJobs ∧ T2 ≠ T)) := by
      unfold requestWorker
      split
      · exact ⟨rfl, rfl, Or.inl rfl⟩
      · rename_i hnw
        split
        · exact ⟨rfl, rfl, Or.inl rfl⟩
        · refine ⟨rfl, rfl, Or.inr ⟨rfl, ?_⟩⟩
          intro he
          rw [he] at hnw
          exact hnw hw
    obtain ⟨hp, ha, hq⟩ := hstep
    have hw2 : (requestWorker f b T2).WorkerPool.haveWaitingWorker T = true := by
      rw [hp]
      exact hw
    have hfil : (requestWorker f b T2).QueuedJobs.awaiting_dispatch.filter
          (fun k => k.MType == T)
        = if T2 = T ∧ (requestWorker f b T2).QueuedJobs = b.QueuedJobs.workerDispatched T2
          then (b.QueuedJobs.awaiting_dispatch.filter (fun k => k.MType == T)).tail
          else b.QueuedJobs.awaiting_dispatch.filter (fun k => k.MType == T) := by
      rcases hq with hq | ⟨hq, hne⟩
      · rw [hq, dispatch_filter_workerDispatched]
        by_cases hT2 : T2 = T
        · rw [if_pos hT2, if_pos ⟨hT2, rfl⟩]
        · rw [if_neg hT2, if_neg (fun h => hT2 h.1)]
      · rw [hq, if_neg (fun h => hne h.1)]
    have hids : (requestWorker f b T2).QueuedJobs.ids.Perm b.QueuedJobs.ids := by
      rcases hq with hq | ⟨hq, _⟩
      · rw [hq]
        exact ids_workerDispatched _ _
      · rw [hq]
    have hord : (requestWorker f b T2).QueuedJobs.typeOrder T = b.QueuedJobs.typeOrder T := by
      rcases hq with hq | ⟨hq, _⟩
      · rw [hq]
        exact typeOrder_workerDispatched _ _ _
      · rw [hq]
    have hlen2 : ((requestWorker f b T2).QueuedJobs.awaiting_dispatch.filter
        (fun k => k.MType == T)).length ≤ 1 := by
      rw [hfil]
      split
      · rw [List.length_tail]
        omega
      · exact hlen
    have hT2 : (requestWorker f b T2).QueuedJobs.awaiting_dispatch.filter
        (fun k => k.MType == T) = [] ∨ T ∈ l := by
      rcases hT with hT | hT
      · left
        rw [hfil, hT]
        split <;> rfl
      · rcases List.mem_cons.mp hT with hT | hT
        · left
          rw [hfil]
          have hq2 : (requestWorker f b T2).QueuedJobs = b.QueuedJobs.workerDispatched T2 := by
            rcases hq with hq | ⟨_, hne⟩
            · exact hq
            · exact absurd hT.symm hne
          rw [if_pos ⟨hT.symm, hq2⟩]
          cases hfl : b.QueuedJobs.awaiting_dispatch.filter (fun k => k.MType == T) with
          | nil => rfl
          | cons a as =>
            rw [hfl] at hlen
            simp only [List.length_cons] at hlen
            have : as = [] := List.length_eq_zero.mp (by omega)
            rw [List.tail_cons, this]
        · exact Or.inr hT
    obtain ⟨i1, i2, i3, i4, i5⟩ := ih (requestWorker f b T2) hw2 hlen2 hT2
    exact ⟨i1.trans hp, i2.trans ha, i3.trans hids, i4.trans hord, i5⟩
theorem haveWaitingWorker_iff (p : WorkerPool) (T : MESH_TYPE) :
    p.haveWaitingWorker T = true ↔ ∃ r ∈ p.Pool, r.MType = T ∧ r.WaitingForWork = true := by
  unfold WorkerPool.haveWaitingWorker
  simp [List.any_eq_true]

theorem mem_waiting (p : WorkerPool) (T : MESH_TYPE) (r : WorkerRecord) :
    r ∈ p.waiting T ↔ r ∈ p.Pool ∧ r.MType = T ∧ r.WaitingForWork = true := by
  unfold WorkerPool.waiting
  simp [List.mem_filter]

theorem filter_filter_of_imp {α : Type} (p q : α → Bool) (l : List α)
    (h : ∀ a ∈ l, p a = true → q a = true) : (l.filter q).filter p = l.filter p := by
  induction l with
  | nil => rfl
  | cons a as ih =>
    have ih2 := ih (fun x hx => h x (List.mem_cons_of_mem _ hx))
    cases hq : q a
    · have hp : p a = false := by
        cases hp : p a
        · rfl
        · rw [h a (List.mem_cons_self _ _) hp] at hq
          cases hq
      rw [List.filter_cons_of_neg (by simp [hq]), List.filter_cons_of_neg (by simp [hp]), ih2]
    · rw [List.filter_cons_of_pos (by simp [hq])]
      cases hp : p a
      · rw [List.filter_cons_of_neg (by simp [hp]), List.filter_cons_of_neg (by simp [hp]), ih2]
      · rw [List.filter_cons_of_pos (by simp [hp]), List.filter_cons_of_pos (by simp [hp]), ih2]

/-- Taking a worker of another type leaves the ready workers of type `T` as they are. -/
theorem waiting_after_take (p : WorkerPool) (T : MESH_TYPE) (x : SocketIdentity)
    (h : ∀ r ∈ p.Pool, r.MType = T → r.Address ≠ x) :
    WorkerPool.waiting ⟨p.Pool.filter (fun r => r.Address != x)⟩ T = p.waiting T := by
  unfold WorkerPool.waiting
  simp only
  apply filter_filter_of_imp
  intro r hr hp
  simp only [Bool.and_eq_true, beq_iff_eq] at hp
  simp only [bne_iff_ne, ne_eq]
  exact h r hr hp.1

theorem takeWorker_congr (p q : WorkerPool) (T : MESH_TYPE) (w : SocketIdentity)
    (q2 : WorkerPool) (hpq : p.waiting T = q.waiting T) (h : q.takeWorker T = some (w, q2)) :
    p.takeWorker T = some (w, ⟨p.Pool.filter (fun r => r.Address != w)⟩) := by
  unfold WorkerPool.takeWorker at h ⊢
  rw [hpq]
  cases hp : pickOldest (q.waiting T) with
  | none => simp [hp] at h
  | some r =>
    rw [hp] at h
    simp only [Option.some.injEq, Prod.mk.injEq] at h
    simp only [h.1]

/-- A step of the second loop for another type, before type `T` is served. -/
theorem assignPre_other (c : Codec) (now : Nat) (s b : Server) (T T2 : MESH_TYPE) (i : uuid)
    (w : SocketIdentity) (hd : PoolDistinct s)
    (hwr : ∃ r ∈ s.WorkerPool.Pool, r.Address = w ∧ r.MType = T)
    (hT : T2 ≠ T) (hb : AssignPre s T i w b) :
    AssignPre s T i w (assignWaiting c now b T2) := by
  unfold assignWaiting
  split
  · split
    · rename_i x pool job queue hx hj
      obtain ⟨hsub, hwait, hall, hact, hnone, hnd, hord, hdis⟩ := hb
      obtain ⟨hpool, r0, hr0, hr0a, hr0t, _⟩ := takeWorker_spec _ _ _ _ hx
      have hdb : (b.WorkerPool.Pool.map (fun r => r.Address)).Nodup := hd.sublist (hsub.map _)
      have hother : ∀ r ∈ b.WorkerPool.Pool, r.MType = T → r.Address ≠ x := by
        intro r hr hrt hra
        have := List.inj_on_of_nodup_map hdb hr hr0 (hra.trans hr0a.symm)
        rw [this, hr0t] at hrt
        exact hT hrt
      have hxw : x ≠ w := by
        obtain ⟨rw, hrw, hrwa, hrwt⟩ := hwr
        intro he
        exact hother rw (hall rw hrw hrwt) hrwt (hrwa.trans he.symm)
      have hperm := ids_takeJob _ _ _ _ hj
      have hnd2 := List.nodup_cons.mp (hperm.nodup_iff.mp hnd)
      have hord2 := typeOrder_takeJob _ T2 T _ _ hj
      rw [if_neg hT, hord] at hord2
      have hji : job.JobId ≠ i := by
        intro he
        apply hnd2.1
        rw [he]
        apply typeOrder_mem_ids queue T
        rw [← hord2]
        exact List.mem_singleton_self _
      have hq : queue.awaiting_dispatch = b.QueuedJobs.awaiting_dispatch := by
        unfold JobQueue.takeJob at hj
        cases ht : takeFirst T2 b.QueuedJobs.awaiting_worker with
        | none => simp [ht] at hj
        | some p =>
          rw [ht] at hj
          simp only [Option.some.injEq, Prod.mk.injEq] at hj
          rw [← hj.2]
      unfold assignJobToWorker AssignPre
      simp only
      refine ⟨?_, ?_, ?_, ?_, ?_, hnd2.2, hord2.symm, by rw [hq]; exact hdis⟩
      · rw [hpool]
        exact (List.filter_sublist _).trans hsub
      · rw [← hwait]
        have hpool2 : pool = ⟨b.WorkerPool.Pool.filter (fun r => r.Address != x)⟩ := by
          cases pool
          simp only at hpool
          rw [hpool]
        rw [hpool2]
        exact waiting_after_take _ _ _ hother
      · intro r hr hrt
        rw [hpool, List.mem_filter]
        refine ⟨hall r hr hrt, ?_⟩
        simp only [bne_iff_ne, ne_eq]
        exact hother r (hall r hr hrt) hrt
      · intro r hr
        unfold ActiveJobs.add at hr
        simp only [List.mem_append, List.mem_singleton] at hr
        rcases hr with hr | hr
        · exact hact r (List.mem_filter.mp hr).1
        · right
          rw [hr]
          exact hxw
      · unfold ActiveJobs.add
        simp only [List.filter_append]
        have h1 : (b.ActiveJobs.Info.filter (fun r => r.JobId != job.JobId)).filter
            (fun r => r.JobId == i) = [] := by
          apply List.eq_nil_of_sublist_nil
          rw [← hnone]
          exact (List.filter_sublist _).filter _
        rw [h1]
        simp [List.filter_cons, hji]
    · exact hb
  · exact hb

/-- The step of the second loop for type `T`: the job is given to the worker `takeWorker`
selects. -/
theorem assignPre_serve (c : Codec) (now : Nat) (s b : Server) (T : MESH_TYPE) (i : uuid)
    (w : SocketIdentity) (p2 : WorkerPool) (hw0 : s.WorkerPool.takeWorker T = some (w, p2))
    (hb : AssignPre s T i w b) : AssignPost s T i w now (assignWaiting c now b T) := by
  obtain ⟨hsub, hwait, hall, hact, hnone, hnd, hord, hdis⟩ := hb
  obtain ⟨_, r0, hr0, hr0a, hr0t, hr0w⟩ := takeWorker_spec _ _ _ _ hw0
  have htw := takeWorker_congr b.WorkerPool s.WorkerPool T w p2 hwait hw0
  have hhave : b.WorkerPool.haveWaitingWorker T = true := by
    rw [haveWaitingWorker_iff]
    exact ⟨r0, hall r0 hr0 hr0t, hr0t, hr0w⟩
  obtain ⟨job, queue, htj⟩ : ∃ job queue, b.QueuedJobs.takeJob T = some (job, queue) := by
    cases htj : b.QueuedJobs.takeJob T with
    | some p => exact ⟨p.1, p.2, rfl⟩
    | none =>
      exfalso
      unfold JobQueue.takeJob at htj
      cases ht : takeFirst T b.QueuedJobs.awaiting_worker with
      | some p => simp [ht] at htj
      | none =>
        have h1 := takeFirst_none T _ ht
        unfold JobQueue.typeOrder at hord
        rw [List.filter_append, h1, hdis] at hord
        simp at hord
  have hperm := ids_takeJob _ _ _ _ htj
  have hnd2 := List.nodup_cons.mp (hperm.nodup_iff.mp hnd)
  have hord2 := typeOrder_takeJob _ T T _ _ htj
  rw [if_pos rfl, hord] at hord2
  simp only [List.cons.injEq] at hord2
  obtain ⟨hji, hordq⟩ := hord2
  unfold assignWaiting
  simp only [hhave, if_true, htw, htj]
  unfold assignJobToWorker AssignPost
  simp only
  rw [← hji]
  refine ⟨(List.filter_sublist _).trans hsub, ?_, ?_, ?_, ?_, ?_, hordq.symm⟩
  · rw [haveWorker_false_iff]
    intro r hr
    have := (List.mem_filter.mp hr).2
    simpa using this
  · intro r hr hrt hra
    rw [List.mem_filter]
    exact ⟨hall r hr hrt, by simpa using hra⟩
  · intro r hr
    unfold ActiveJobs.add at hr
    simp only [List.mem_append, List.mem_singleton] at hr
    rcases hr with hr | hr
    · rcases hact r (List.mem_filter.mp hr).1 with h1 | h1
      · exact Or.inl h1
      · exact Or.inr (Or.inl h1)
    · exact Or.inr (Or.inr hr)
  · unfold ActiveJobs.add assignedRecord
    simp only [List.filter_append]
    have h1 : (b.ActiveJobs.Info.filter (fun r => r.JobId != i)).filter
        (fun r => r.JobId == i) = [] := by
      apply List.eq_nil_of_sublist_nil
      rw [← hnone]
      exact (List.filter_sublist _).filter _
    rw [h1]
    simp [List.filter_cons]
  · rw [hji]
    exact hnd2.1

/-- A step of the second loop after type `T` has been served. -/
theorem assignPost_step (c : Codec) (now : Nat) (s b : Server) (T T2 : MESH_TYPE) (i : uuid)
    (w : SocketIdentity) (hd : PoolDistinct s) (hb : AssignPost s T i w now b) :
    AssignPost s T i w now (assignWaiting c now b T2) := by
  unfold assignWaiting
  split
  · split
    · rename_i x pool job queue hx hj
      obtain ⟨hsub, hgone, hall, hact, hone, hni, hord⟩ := hb
      obtain ⟨hpool, r0, hr0, hr0a, hr0t, _⟩ := takeWorker_spec _ _ _ _ hx
      have hdb : (b.WorkerPool.Pool.map (fun r => r.Address)).Nodup := hd.sublist (hsub.map _)
      have hperm := ids_takeJob _ _ _ _ hj
      have hT : T2 ≠ T := by
        intro he
        have h1 := typeOrder_takeJob _ T2 T _ _ hj
        rw [if_pos he, hord] at h1
        cases h1
      have hxw : x ≠ w := by
        intro he
        exact (haveWorker_false_iff _ _).mp hgone r0 hr0 (hr0a.trans he)
      have hji : job.JobId ≠ i := by
        intro he
        apply hni
        rw [← he]
        exact hperm.mem_iff.mpr (List.mem_cons_self _ _)
      have hord2 := typeOrder_takeJob _ T2 T _ _ hj
      rw [if_neg hT, hord] at hord2
      unfold assignJobToWorker AssignPost
      simp only
      refine ⟨?_, ?_, ?_, ?_, ?_, ?_, hord2.symm⟩
      · rw [hpool]
        exact (List.filter_sublist _).trans hsub
      · rw [haveWorker_false_iff]
        intro r hr
        rw [hpool] at hr
        exact (haveWorker_false_iff _ _).mp hgone r (List.mem_filter.mp hr).1
      · intro r hr hrt hra
        rw [hpool, List.mem_filter]
        refine ⟨hall r hr hrt hra, ?_⟩
        simp only [bne_iff_ne, ne_eq]
        intro hrx
        have := List.inj_on_of_nodup_map hdb (hall r hr hrt hra) hr0 (hrx.trans hr0a.symm)
        rw [this, hr0t] at hrt
        exact hT hrt
      · intro r hr
        unfold ActiveJobs.add at hr
        simp only [List.mem_append, List.mem_singleton] at hr
        rcases hr with hr | hr
        · exact hact r (List.mem_filter.mp hr).1
        · right
          left
          rw [hr]
          exact hxw
      · unfold ActiveJobs.add
        simp only [List.filter_append]
        have h1 : (b.ActiveJobs.Info.filter (fun r => r.JobId != job.JobId)).filter
            (fun r => r.JobId == i) = b.ActiveJobs.Info.filter (fun r => r.JobId == i) := by
          apply filter_filter_of_imp
          intro r _ hr
          simp only [beq_iff_eq] at hr
          simp only [bne_iff_ne, ne_eq, hr]
          exact fun h => hji h.symm
        rw [h1, hone]
        simp [List.filter_cons, hji]
      · intro hm
        exact hni (hperm.mem_iff.mpr (List.mem_cons_of_mem _ hm))
    · exact hb
  · exact hb

/-- The second loop of `FindWorkerForQueuedJob` over types that include `T`. -/
theorem assignWaiting_loop (c : Codec) (now : Nat) (s : Server) (T : MESH_TYPE) (i : uuid)
    (w : SocketIdentity) (p2 : WorkerPool) (hd : PoolDistinct s)
    (hw0 : s.WorkerPool.takeWorker T = some (w, p2)) (l : List MESH_TYPE) (b : Server)
    (h : (AssignPre s T i w b ∧ T ∈ l) ∨ AssignPost s T i w now b) :
    AssignPost s T i w now (l.foldl (assignWaiting c now) b) := by
  have hwr : ∃ r ∈ s.WorkerPool.Pool, r.Address = w ∧ r.MType = T := by
    obtain ⟨_, r0, hr0, hr0a, hr0t, _⟩ := takeWorker_spec _ _ _ _ hw0
    exact ⟨r0, hr0, hr0a, hr0t⟩
  induction l generalizing b with
  | nil =>
    rcases h with ⟨_, h⟩ | h
    · cases h
    · exact h
  | cons T2 l ih =>
    simp only [List.foldl_cons]
    apply ih
    rcases h with ⟨hpre, hmem⟩ | hpost
    · by_cases hT : T2 = T
      · right
        rw [hT]
        exact assignPre_serve c now s b T i w p2 hw0 hpre
      · left
        refine ⟨assignPre_other c now s b T T2 i w hd hwr hT hpre, ?_⟩
        rcases List.mem_cons.mp hmem with h1 | h1
        · exact absurd h1.symm hT
        · exact h1
    · right
      exact assignPost_step c now s b T T2 i w hd hpost
theorem pickOldest_isSome (l : List WorkerRecord) (h : l ≠ []) : ∃ r, pickOldest l = some r := by
  cases l with
  | nil => exact absurd rfl h
  | cons a as =>
    unfold pickOldest
    cases pickOldest as with
    | none => exact ⟨a, rfl⟩
    | some r2 =>
      simp only
      split
      · exact ⟨a, rfl⟩
      · exact ⟨r2, rfl⟩

theorem runs_twoReadyServer : Runs sampleCodec Fresh AnyWorkerMessage Server.init twoReadyServer :=
  Runs.client _ _ _ _ _
    (Runs.worker _ _ _ _ (Runs.worker _ _ _ _ Runs.start trivial) trivial)
    ⟨by decide, by decide⟩

/-- C17. In a state reached from a new server with fresh ids, let exactly one job `i` of type `T`
be waiting in the `JobQueue` and two or more workers of type `T` be ready in the pool.  One call
of `FindWorkerForQueuedJob` assigns the job to exactly one of them, `w`: `w` leaves the
`WorkerPool`, `ActiveJobs` holds exactly one record of the job and it is assigned to `w`, no other
new record is assigned to `w`, every other worker of type `T` stays in the pool as it was (so a
worker of type `T` is still ready), and the job is no longer in the `JobQueue`. -/
theorem C17_one_assignment (c : Codec) (f : WorkerFactory) (now : Nat) (s : Server)
    (T : MESH_TYPE) (i : uuid)
    (h0 : Runs c Fresh AnyWorkerMessage Server.init s)
    (hone : s.QueuedJobs.typeOrder T = [i])
    (htwo : 2 ≤ (s.WorkerPool.waiting T).length) :
    ∃ w : SocketIdentity,
      (∃ r ∈ s.WorkerPool.Pool, r.Address = w ∧ r.MType = T ∧ r.WaitingForWork = true)
      ∧ (FindWorkerForQueuedJob c f now s).WorkerPool.haveWorker w = false
      ∧ (FindWorkerForQueuedJob c f now s).ActiveJobs.Info.filter (fun r => r.JobId == i)
          = [assignedRecord i w now]
      ∧ (∀ r ∈ (FindWorkerForQueuedJob c f now s).ActiveJobs.Info, r.WorkerAddress = w →
          r = assignedRecord i w now ∨ r ∈ s.ActiveJobs.Info)
      ∧ (∀ r ∈ s.WorkerPool.Pool, r.MType = T → r.Address ≠ w →
          r ∈ (FindWorkerForQueuedJob c f now s).WorkerPool.Pool)
      ∧ (FindWorkerForQueuedJob c f now s).WorkerPool.haveWaitingWorker T = true
      ∧ (FindWorkerForQueuedJob c f now s).QueuedJobs.haveUUID i = false := by
  have hqa := queueApart_runs c Fresh AnyWorkerMessage (fun _ _ h => h) _ s queueApart_init h0
  have hpd := poolDistinct_runs c Fresh AnyWorkerMessage _ s poolDistinct_init h0
  obtain ⟨a, b, rest, hab⟩ : ∃ a b rest, s.WorkerPool.waiting T = a :: b :: rest := by
    cases hl : s.WorkerPool.waiting T with
    | nil => rw [hl] at htwo; simp at htwo
    | cons a t =>
      cases t with
      | nil => rw [hl] at htwo; simp at htwo
      | cons b rest => exact ⟨a, b, rest, rfl⟩
  obtain ⟨r0, hr0⟩ := pickOldest_isSome (s.WorkerPool.waiting T) (by rw [hab]; simp)
  have hw0 : s.WorkerPool.takeWorker T
      = some (r0.Address, ⟨s.WorkerPool.Pool.filter (fun x => x.Address != r0.Address)⟩) := by
    unfold WorkerPool.takeWorker
    rw [hr0]
  have hr0m := (mem_waiting _ _ _).mp (pickOldest_mem _ _ hr0)
  have hhave : s.WorkerPool.haveWaitingWorker T = true :=
    (haveWaitingWorker_iff _ _).mpr ⟨r0, hr0m⟩
  -- the first loop
  have hsplit : s.QueuedJobs.typeOrder T =
      (s.QueuedJobs.awaiting_worker.filter (fun k => k.MType == T)).map (fun j => j.JobId)
      ++ (s.QueuedJobs.awaiting_dispatch.filter (fun k => k.MType == T)).map
          (fun j => j.JobId) := by
    unfold JobQueue.typeOrder
    rw [List.filter_append, List.map_append]
  have hlen : (s.QueuedJobs.awaiting_dispatch.filter (fun k => k.MType == T)).length ≤ 1 := by
    have := congrArg List.length hsplit
    rw [hone] at this
    simp only [List.length_singleton, List.length_append, List.length_map] at this
    omega
  have hT1 : s.QueuedJobs.awaiting_dispatch.filter (fun k => k.MType == T) = []
      ∨ T ∈ s.QueuedJobs.queuedJobTypes := by
    cases hf : s.QueuedJobs.awaiting_dispatch.filter (fun k => k.MType == T) with
    | nil => exact Or.inl rfl
    | cons j js =>
      right
      have hj : j ∈ s.QueuedJobs.awaiting_dispatch.filter (fun k => k.MType == T) := by
        rw [hf]
        exact List.mem_cons_self _ _
      rw [List.mem_filter] at hj
      exact (mem_typeSet _ _).mpr ⟨j, hj.1, by simpa using hj.2⟩
  obtain ⟨hp1, ha1, hids1, hord1, hdis1⟩ :=
    requestWorker_loop f T s.QueuedJobs.queuedJobTypes s hhave hlen hT1
  generalize hs1 : s.QueuedJobs.queuedJobTypes.foldl (requestWorker f) s = s1
    at hp1 ha1 hids1 hord1 hdis1
  have hiq : i ∈ s.QueuedJobs.ids := typeOrder_mem_ids _ T i (by rw [hone]; simp)
  have hpre : AssignPre s T i r0.Address s1 := by
    refine ⟨by rw [hp1], by rw [hp1], fun r hr _ => by rw [hp1]; exact hr,
      fun r hr => Or.inl (by rw [ha1] at hr; exact hr), ?_,
      hids1.nodup_iff.mpr hqa.1, hord1.trans hone, hdis1⟩
    rw [ha1, List.filter_eq_nil_iff]
    intro r hr hri
    apply hqa.2 i hiq
    unfold ActiveJobs.ids
    rw [List.mem_map]
    exact ⟨r, hr, by simpa using hri⟩
  have hT2 : T ∈ s1.QueuedJobs.waitingForWorkerTypes := by
    have h1 : s1.QueuedJobs.typeOrder T = [i] := hord1.trans hone
    unfold JobQueue.typeOrder at h1
    rw [List.filter_append, hdis1, List.append_nil] at h1
    cases hf : s1.QueuedJobs.awaiting_worker.filter (fun k => k.MType == T) with
    | nil => rw [hf] at h1; cases h1
    | cons j js =>
      have hj : j ∈ s1.QueuedJobs.awaiting_worker.filter (fun k => k.MType == T) := by
        rw [hf]
        exact List.mem_cons_self _ _
      rw [List.mem_filter] at hj
      exact (mem_typeSet _ _).mpr ⟨j, hj.1, by simpa using hj.2⟩
  have hpost := assignWaiting_loop c now s T i r0.Address _ hpd hw0
    s1.QueuedJobs.waitingForWorkerTypes s1 (Or.inl ⟨hpre, hT2⟩)
  have hfw : FindWorkerForQueuedJob c f now s
      = s1.QueuedJobs.waitingForWorkerTypes.foldl (assignWaiting c now) s1 := by
    unfold FindWorkerForQueuedJob
    simp only [hs1]
  rw [hfw]
  obtain ⟨_, hgone, hall, hact, hrec, hni, _⟩ := hpost
  refine ⟨r0.Address, ⟨r0, hr0m.1, rfl, hr0m.2.1, hr0m.2.2⟩, hgone, hrec, ?_, hall, ?_, ?_⟩
  · intro r hr hrw
    rcases hact r hr with h1 | h1 | h1
    · exact Or.inr h1
    · exact absurd hrw h1
    · exact Or.inl h1
  · -- a second ready worker of the type is still there
    have ham := (mem_waiting _ _ _).mp (show a ∈ s.WorkerPool.waiting T by rw [hab]; simp)
    have hbm := (mem_waiting _ _ _).mp (show b ∈ s.WorkerPool.waiting T by rw [hab]; simp)
    have hsubl : (s.WorkerPool.waiting T).Sublist s.WorkerPool.Pool := by
      unfold WorkerPool.waiting
      exact List.filter_sublist _
    have hndw : ((s.WorkerPool.waiting T).map (fun r => r.Address)).Nodup :=
      hpd.sublist (hsubl.map _)
    rw [hab] at hndw
    simp only [List.map_cons, List.nodup_cons, List.mem_cons, not_or] at hndw
    have hne : a.Address ≠ b.Address := hndw.1.1
    rw [haveWaitingWorker_iff]
    by_cases haw : a.Address = r0.Address
    · have hbw : b.Address ≠ r0.Address := fun h => hne (haw.trans h.symm)
      exact ⟨b, hall b hbm.1 hbm.2.1 hbw, hbm.2⟩
    · exact ⟨a, hall a ham.1 ham.2.1 haw, ham.2⟩
  · rw [jobQueue_not_haveUUID_iff]
    exact hni

/-- C17 at a concrete input: workers `[7]` and `[8]` are ready and job 100 is queued; after
`FindWorkerForQueuedJob` one of them has left the pool and holds the only record of job 100. -/
theorem C17_one_assignment_witness :
    ∃ w : SocketIdentity,
      (FindWorkerForQueuedJob sampleCodec anyFactory 3 twoReadyServer).WorkerPool.haveWorker w
        = false
      ∧ (FindWorkerForQueuedJob sampleCodec anyFactory 3 twoReadyServer).ActiveJobs.Info.filter
          (fun r => r.JobId == 100) = [assignedRecord 100 w 3]
      ∧ (FindWorkerForQueuedJob sampleCodec anyFactory 3
          twoReadyServer).WorkerPool.haveWaitingWorker 2 = true :=
  (C17_one_assignment sampleCodec anyFactory 3 twoReadyServer 2 100 runs_twoReadyServer
    (by decide) (by decide)).imp
    (fun _ h => ⟨h.2.1, h.2.2.1, h.2.2.2.2.2.1⟩)

/-! ## The worker handler for `MAKE_MESH` -/

/-- C21. After the worker handler has processed `MAKE_MESH` from identity `w` with mesh type `T`,
`w` is in the `WorkerPool` and marked ready for work, and the handler has sent nothing (it touches
neither socket, the `JobQueue` nor `ActiveJobs`).  If `w` was not registered before, it is
registered with type `T`: one record is appended.  If `w` was already registered, no record is
added and the identities and registered types in the pool are kept. -/
theorem C21_worker_make_mesh (c : Codec) (now : Nat) (s : Server) (w : SocketIdentity)
    (msg : JobMessage) (hs : msg.serviceType = SERVICE_TYPE.MAKE_MESH) :
    (DetermineWorkerResponse c now s w msg).WorkerPool.haveWorker w = true
    ∧ (DetermineWorkerResponse c now s w msg).WorkerPool.isReady w = true
    ∧ (DetermineWorkerResponse c now s w msg).WorkerQueries = s.WorkerQueries
    ∧ (DetermineWorkerResponse c now s w msg).ClientQueries = s.ClientQueries
    ∧ (DetermineWorkerResponse c now s w msg).QueuedJobs = s.QueuedJobs
    ∧ (DetermineWorkerResponse c now s w msg).ActiveJobs = s.ActiveJobs
    ∧ (s.WorkerPool.haveWorker w = false →
        (DetermineWorkerResponse c now s w msg).WorkerPool.Pool
          = s.WorkerPool.Pool ++ [⟨w, msg.meshType, true, now⟩])
    ∧ (s.WorkerPool.haveWorker w = true →
        (DetermineWorkerResponse c now s w msg).WorkerPool = s.WorkerPool.readyForWork w
        ∧ (DetermineWorkerResponse c now s w msg).WorkerPool.Pool.length
            = s.WorkerPool.Pool.length
        ∧ (DetermineWorkerResponse c now s w msg).WorkerPool.Pool.map
              (fun r => (r.Address, r.MType))
            = s.WorkerPool.Pool.map (fun r => (r.Address, r.MType))) := by
  have hnot : s.WorkerPool.haveWorker w = false →
      (DetermineWorkerResponse c now s w msg).WorkerPool.Pool
        = s.WorkerPool.Pool ++ [⟨w, msg.meshType, true, now⟩] := by
    intro hn
    have habs : ∀ r ∈ s.WorkerPool.Pool, r.Address ≠ w := by
      unfold WorkerPool.haveWorker at hn
      simpa [List.any_eq_false] using hn
    unfold DetermineWorkerResponse
    simp only [hs, hn, Bool.not_false, if_true, WorkerPool.addWorker, Bool.false_eq_true,
      if_false, WorkerPool.readyForWork, List.map_append, List.map_cons, List.map_nil]
    congr 1
    conv_rhs => rw [← List.map_id s.WorkerPool.Pool]
    apply List.map_congr_left
    intro r hr
    simp [habs r hr]
  have hyes : s.WorkerPool.haveWorker w = true →
      (DetermineWorkerResponse c now s w msg).WorkerPool = s.WorkerPool.readyForWork w := by
    intro hy
    unfold DetermineWorkerResponse
    simp [hs, hy]
  have hmem : ∀ p : WorkerPool, p.haveWorker w = true →
      (p.readyForWork w).haveWorker w = true ∧ (p.readyForWork w).isReady w = true := by
    intro p hp
    unfold WorkerPool.haveWorker at hp
    rw [List.any_eq_true] at hp
    obtain ⟨r, hr, hra⟩ := hp
    have hra2 : r.Address = w := by simpa using hra
    unfold WorkerPool.haveWorker WorkerPool.isReady WorkerPool.readyForWork
    simp only [List.any_map, List.any_eq_true, Function.comp]
    exact ⟨⟨r, hr, by simp [hra2]⟩, ⟨r, hr, by simp [hra2]⟩⟩
  refine ⟨?_, ?_, ?_, ?_, ?_, ?_, hnot, ?_⟩
  · cases hh : s.WorkerPool.haveWorker w
    · unfold WorkerPool.haveWorker
      rw [hnot hh]
      simp
    · rw [hyes hh]
      exact (hmem _ hh).1
  · cases hh : s.WorkerPool.haveWorker w
    · unfold WorkerPool.isReady
      rw [hnot hh]
      simp
    · rw [hyes hh]
      exact (hmem _ hh).2
  · unfold DetermineWorkerResponse
    simp only [hs]
  · unfold DetermineWorkerResponse
    simp only [hs]
  · unfold DetermineWorkerResponse
    simp only [hs]
  · unfold DetermineWorkerResponse
    simp only [hs]
  · intro hy
    refine ⟨hyes hy, ?_, ?_⟩
    · rw [hyes hy]
      unfold WorkerPool.readyForWork
      simp
    · rw [hyes hy]
      unfold WorkerPool.readyForWork
      simp only [List.map_map]
      apply List.map_congr_left
      intro r _
      simp only [Function.comp]
      split <;> rfl

/-- C21 at concrete inputs: worker `[7]`, unknown to a new server, asks for a job of type 2 at
time 1; worker `[8]`, registered with type 3 and not ready, asks for a job naming type 2. -/
theorem C21_worker_make_mesh_witness :
    (DetermineWorkerResponse sampleCodec 1 Server.init [7]
        ⟨true, SERVICE_TYPE.MAKE_MESH, 2, []⟩).WorkerPool.Pool = [⟨[7], 2, true, 1⟩]
    ∧ (DetermineWorkerResponse sampleCodec 5
        ⟨[], [], JobQueue.empty, ⟨[⟨[8], 3, false, 0⟩]⟩, ActiveJobs.empty, []⟩ [8]
        ⟨true, SERVICE_TYPE.MAKE_MESH, 2, []⟩).WorkerPool
        = WorkerPool.readyForWork ⟨[⟨[8], 3, false, 0⟩]⟩ [8] :=
  ⟨(C21_worker_make_mesh sampleCodec 1 Server.init [7] ⟨true, SERVICE_TYPE.MAKE_MESH, 2, []⟩
      rfl).2.2.2.2.2.2.1 (by decide),
    ((C21_worker_make_mesh sampleCodec 5
      ⟨[], [], JobQueue.empty, ⟨[⟨[8], 3, false, 0⟩]⟩, ActiveJobs.empty, []⟩ [8]
      ⟨true, SERVICE_TYPE.MAKE_MESH, 2, []⟩ rfl).2.2.2.2.2.2.2 (by decide)).1⟩

/-! ## Sending a response twice -/

/-- C24. `send` consumes the data: after one successful send, a second send on the same response
without a new `setData` still returns true but transmits an empty data frame, so the second
message differs from the first whenever the data was not empty; a response built from a received
empty data frame holds no data and its `send` returns false and transmits nothing. -/
theorem C24_send_consumes (r : JobResponse) (d : Bytes) (socket : Socket) :
    ((r.setData d).send socket).1 = true
    ∧ ((r.setData d).send socket).2.1.Data = some []
    ∧ (((r.setData d).send socket).2.1.send ((r.setData d).send socket).2.2).1 = true
    ∧ (((r.setData d).send socket).2.1.send ((r.setData d).send socket).2.2).2.2
        = socket ++ [replyFrames r.ClientAddress d] ++ [replyFrames r.ClientAddress []]
    ∧ (d ≠ [] → replyFrames r.ClientAddress d ≠ replyFrames r.ClientAddress [])
    ∧ (JobResponse.receive []).Data = none
    ∧ (JobResponse.receive []).send socket = (false, JobResponse.receive [], socket) := by
  refine ⟨rfl, rfl, rfl, ?_, ?_, rfl, rfl⟩
  · simp [JobResponse.send, JobResponse.setData, replyFrames]
  · intro hne h
    unfold replyFrames at h
    have := List.append_cancel_left h
    simp only [List.cons.injEq, and_true] at this
    exact hne this

/-- C24 at a concrete input: the bytes `[1, 2]` are sent to `[9]` twice. -/
theorem C24_send_consumes_witness :
    ((((JobResponse.new [9]).setData [1, 2]).send []).2.1.send
        (((JobResponse.new [9]).setData [1, 2]).send []).2.2).2.2
      = [[[9], reqHeader, [1, 2]], [[9], reqHeader, []]]
    ∧ replyFrames [9] [1, 2] ≠ replyFrames [9] [] :=
  ⟨(C24_send_consumes (JobResponse.new [9]) [1, 2] []).2.2.2.1.trans (by decide),
    (C24_send_consumes (JobResponse.new [9]) [1, 2] []).2.2.2.2.1 (by decide)⟩

/-! ## The two loops of `FindWorkerForQueuedJob` -/

theorem typeSet_nodup (l : List JobDetails) : (typeSet l).Nodup := by
  unfold typeSet
  exact (List.perm_insertionSort _ _).nodup_iff.mpr (List.nodup_dedup _)

theorem worker_filter_workerDispatched (q : JobQueue) (T2 T : MESH_TYPE) :
    (q.workerDispatched T2).awaiting_worker.filter (fun k => k.MType == T) =
      q.awaiting_worker.filter (fun k => k.MType == T) ++
        (if T2 = T then (q.awaiting_dispatch.filter (fun k => k.MType == T)).head?.toList
          else []) := by
  unfold JobQueue.workerDispatched
  cases ht : takeFirst T2 q.awaiting_dispatch with
  | none =>
    simp only
    split
    · rename_i hT
      rw [← hT, takeFirst_none T2 _ ht]
      simp
    · simp
  | some p =>
    obtain ⟨j, rest⟩ := p
    obtain ⟨hj, hf⟩ := takeFirst_filter T2 T _ j rest ht
    simp only [List.filter_append]
    congr 1
    by_cases hT : T2 = T
    · rw [if_pos hT] at hf
      rw [if_pos hT, hf]
      have : j.MType = T := hj.trans hT
      simp [this]
    · rw [if_neg hT]
      have : j.MType ≠ T := fun h => hT (hj.symm.trans h)
      simp [this]

theorem requestWorker_step (f : WorkerFactory) (b : Server) (T2 T : MESH_TYPE) :
    (requestWorker f b T2).WorkerPool = b.WorkerPool
    ∧ (requestWorker f b T2).ActiveJobs = b.ActiveJobs
    ∧ (requestWorker f b T2).WorkerQueries = b.WorkerQueries
    ∧ (requestWorker f b T2).ClientQueries = b.ClientQueries
    ∧ (requestWorker f b T2).FactoryRequests
        = b.FactoryRequests ++ [T2].filter (fun t => !b.WorkerPool.haveWaitingWorker t)
    ∧ (requestWorker f b T2).QueuedJobs.awaiting_dispatch.filter (fun k => k.MType == T)
        = (if T2 = T ∧ (b.WorkerPool.haveWaitingWorker T || f.createWorker T) = true
            then (b.QueuedJobs.awaiting_dispatch.filter (fun k => k.MType == T)).tail
            else b.QueuedJobs.awaiting_dispatch.filter (fun k => k.MType == T))
    ∧ (requestWorker f b T2).QueuedJobs.awaiting_worker.filter (fun k => k.MType == T)
        = b.QueuedJobs.awaiting_worker.filter (fun k => k.MType == T) ++
          (if T2 = T ∧ (b.WorkerPool.haveWaitingWorker T || f.createWorker T) = true
            then (b.QueuedJobs.awaiting_dispatch.filter (fun k => k.MType == T)).head?.toList
            else []) := by
  have hd := dispatch_filter_workerDispatched b.QueuedJobs T2 T
  have hw := worker_filter_workerDispatched b.QueuedJobs T2 T
  unfold requestWorker
  by_cases hT : T2 = T
  · subst hT
    simp only [true_and, if_true] at hd hw ⊢
    cases h1 : b.WorkerPool.haveWaitingWorker T2
    · cases h2 : f.createWorker T2
      · simp [List.filter, h1]
      · simp [List.filter, h1, hd, hw]
    · simp [List.filter, h1, hd, hw]
  · simp only [hT, false_and, if_false] at hd hw ⊢
    cases h1 : b.WorkerPool.haveWaitingWorker T2
    · cases h2 : f.createWorker T2
      · simp [List.filter, h1]
      · simp [List.filter, h1, hd, hw]
    · simp [List.filter, h1, hd, hw]

theorem requestWorker_phase (f : WorkerFactory) (T : MESH_TYPE) (l : List MESH_TYPE)
    (hl : l.Nodup) (b : Server) :
    (l.foldl (requestWorker f) b).WorkerPool = b.WorkerPool
    ∧ (l.foldl (requestWorker f) b).ActiveJobs = b.ActiveJobs
    ∧ (l.foldl (requestWorker f) b).WorkerQueries = b.WorkerQueries
    ∧ (l.foldl (requestWorker f) b).ClientQueries = b.ClientQueries
    ∧ (l.foldl (requestWorker f) b).FactoryRequests
        = b.FactoryRequests ++ l.filter (fun t => !b.WorkerPool.haveWaitingWorker t)
    ∧ (l.foldl (requestWorker f) b).QueuedJobs.awaiting_dispatch.filter (fun k => k.MType == T)
        = (if T ∈ l ∧ (b.WorkerPool.haveWaitingWorker T || f.createWorker T) = true
            then (b.QueuedJobs.awaiting_dispatch.filter (fun k => k.MType == T)).tail
            else b.QueuedJobs.awaiting_dispatch.filter (fun k => k.MType == T))
    ∧ (l.foldl (requestWorker f) b).QueuedJobs.awaiting_worker.filter (fun k => k.MType == T)
        = b.QueuedJobs.awaiting_worker.filter (fun k => k.MType == T) ++
          (if T ∈ l ∧ (b.WorkerPool.haveWaitingWorker T || f.createWorker T) = true
            then (b.QueuedJobs.awaiting_dispatch.filter (fun k => k.MType == T)).head?.toList
            else []) := by
  induction l generalizing b with
  | nil => simp
  | cons T2 l ih =>
    rw [List.nodup_cons] at hl
    obtain ⟨hnot, hl2⟩ := hl
    obtain ⟨h1, h2, h3, h4, h5, h6, h7⟩ := ih hl2 (requestWorker f b T2)
    obtain ⟨g1, g2, g3, g4, g5, g6, g7⟩ := requestWorker_step f b T2 T
    simp only [List.foldl_cons]
    rw [g1] at h1 h5 h6 h7
    refine ⟨h1, h2.trans g2, h3.trans g3, h4.trans g4, ?_, ?_, ?_⟩
    · rw [h5, g5, List.append_assoc, ← List.filter_append, List.singleton_append]
    · rw [h6, g6]
      by_cases hT : T2 = T
      · subst hT
        simp [hnot]
      · have hT2 : ¬ T = T2 := fun h => hT h.symm
        simp [hT, hT2]
    · rw [h7, g7, g6]
      by_cases hT : T2 = T
      · subst hT
        simp [hnot]
      · have hT2 : ¬ T = T2 := fun h => hT h.symm
        simp [hT, hT2]

theorem send_new_setData (w : SocketIdentity) (d : Bytes) (socket : Socket) :
    (((JobResponse.new w).setData d).send socket).2.2 = socket ++ [replyFrames w d] := by
  simp [JobResponse.send, JobResponse.setData, JobResponse.new, replyFrames]

theorem assignWaiting_cases (c : Codec) (now : Nat) (b : Server) (T : MESH_TYPE) :
    assignWaiting c now b T = b
    ∨ ∃ w pool job queue,
        b.WorkerPool.takeWorker T = some (w, pool)
        ∧ b.QueuedJobs.takeJob T = some (job, queue)
        ∧ job.MType = T
        ∧ (∃ r ∈ b.WorkerPool.Pool, r.Address = w ∧ r.MType = job.MType ∧ r.WaitingForWork = true)
        ∧ assignWaiting c now b T
            = assignJobToWorker c now { b with WorkerPool := pool, QueuedJobs := queue } w job := by
  unfold assignWaiting
  cases hw : b.WorkerPool.haveWaitingWorker T
  · left
    simp
  · simp only [if_true]
    cases ht : b.WorkerPool.takeWorker T with
    | none => left; rfl
    | some p =>
      obtain ⟨w, pool⟩ := p
      cases hj : b.QueuedJobs.takeJob T with
      | none => left; rfl
      | some p2 =>
        obtain ⟨job, queue⟩ := p2
        right
        have hjT : job.MType = T := by
          unfold JobQueue.takeJob at hj
          cases hf : takeFirst T b.QueuedJobs.awaiting_worker with
          | none => simp [hf] at hj
          | some p3 =>
            obtain ⟨j3, rest⟩ := p3
            rw [hf] at hj
            simp only [Option.some.injEq, Prod.mk.injEq] at hj
            rw [← hj.1]
            exact (takeFirst_filter T T _ j3 rest hf).1
        obtain ⟨_, r, hr, hra, hrt, hrw⟩ := takeWorker_spec _ _ _ _ ht
        exact ⟨w, pool, job, queue, rfl, rfl, hjT, ⟨r, hr, hra, hrt.trans hjT.symm, hrw⟩, rfl⟩

/-- Invariant of the second loop of `FindWorkerForQueuedJob` relative to the state `s` at
entry. -/
theorem assignWaiting_ready (c : Codec) (now : Nat) (s : Server) (l : List MESH_TYPE)
    (b : Server)
    (hp : ∀ r ∈ b.WorkerPool.Pool, r ∈ s.WorkerPool.Pool)
    (ha : ∀ r ∈ b.ActiveJobs.Info, r ∈ s.ActiveJobs.Info
        ∨ ∃ wr ∈ s.WorkerPool.Pool, wr.Address = r.WorkerAddress ∧ wr.WaitingForWork = true)
    (hm : ∀ m ∈ b.WorkerQueries, m ∈ s.WorkerQueries
        ∨ ∃ wr ∈ s.WorkerPool.Pool, ∃ job : JobDetails, wr.WaitingForWork = true
            ∧ wr.MType = job.MType ∧ m = replyFrames wr.Address (c.job_to_string job)) :
    (∀ r ∈ (l.foldl (assignWaiting c now) b).ActiveJobs.Info, r ∈ s.ActiveJobs.Info
        ∨ ∃ wr ∈ s.WorkerPool.Pool, wr.Address = r.WorkerAddress ∧ wr.WaitingForWork = true)
    ∧ (∀ m ∈ (l.foldl (assignWaiting c now) b).WorkerQueries, m ∈ s.WorkerQueries
        ∨ ∃ wr ∈ s.WorkerPool.Pool, ∃ job : JobDetails, wr.WaitingForWork = true
            ∧ wr.MType = job.MType ∧ m = replyFrames wr.Address (c.job_to_string job)) := by
  induction l generalizing b with
  | nil => exact ⟨ha, hm⟩
  | cons T l ih =>
    simp only [List.foldl_cons]
    rcases assignWaiting_cases c now b T with h | ⟨w, pool, job, queue, hw, _, _, hr, h⟩
    · rw [h]
      exact ih b hp ha hm
    · obtain ⟨hpool, _⟩ := takeWorker_spec _ _ _ _ hw
      obtain ⟨wr, hwr, hwa, hwt, hww⟩ := hr
      rw [h]
      apply ih
      · intro r hr2
        have hr3 : r ∈ pool.Pool := hr2
        rw [hpool] at hr3
        exact hp r (List.mem_filter.mp hr3).1
      · intro r hr2
        have hr3 : r ∈ (b.ActiveJobs.add now w job.JobId).Info := hr2
        unfold ActiveJobs.add at hr3
        simp only [List.mem_append, List.mem_singleton] at hr3
        rcases hr3 with hr3 | hr3
        · exact ha r (List.mem_filter.mp hr3).1
        · right
          refine ⟨wr, hp wr hwr, ?_, hww⟩
          rw [hr3]
          exact hwa
      · intro m hm2
        have hm3 : m ∈ (((JobResponse.new w).setData (c.job_to_string job)).send
            b.WorkerQueries).2.2 := hm2
        rw [send_new_setData] at hm3
        simp only [List.mem_append, List.mem_singleton] at hm3
        rcases hm3 with hm3 | hm3
        · exact hm m hm3
        · right
          refine ⟨wr, hp wr hwr, job, hww, hwt, ?_⟩
          rw [hm3, hwa]

theorem assignWaiting_none_ready (c : Codec) (now : Nat) (l : List MESH_TYPE) (b : Server)
    (h : ∀ r ∈ b.WorkerPool.Pool, r.WaitingForWork = false) :
    l.foldl (assignWaiting c now) b = b := by
  induction l with
  | nil => rfl
  | cons T l ih =>
    simp only [List.foldl_cons]
    have hw : b.WorkerPool.haveWaitingWorker T = false := by
      cases hh : b.WorkerPool.haveWaitingWorker T
      · rfl
      · obtain ⟨r, hr, _, hrw⟩ := (haveWaitingWorker_iff _ _).mp hh
        rw [h r hr] at hrw
        cases hrw
    have : assignWaiting c now b T = b := by
      unfold assignWaiting
      simp [hw]
    rw [this]
    exact ih

theorem requestWorkers_ids (f : WorkerFactory) (s : Server) :
    (requestWorkers f s).QueuedJobs.ids.Perm s.QueuedJobs.ids := by
  unfold requestWorkers
  apply foldl_invariant (fun b : Server => b.QueuedJobs.ids.Perm s.QueuedJobs.ids)
  · intro b T hb
    unfold requestWorker
    split
    · exact (ids_workerDispatched _ _).trans hb
    · split
      · exact (ids_workerDispatched _ _).trans hb
      · exact hb
  · exact List.Perm.refl _

/-- C22. `FindWorkerForQueuedJob` is its first loop followed by its second loop.  In the first
loop, for a mesh type `T` (it is visited exactly when a job of type `T` awaits dispatch): when
the pool has a ready worker of type `T` or `createWorker(T)` succeeds, exactly the oldest job of
type `T` leaves awaiting-dispatch and joins the back of awaiting-worker; otherwise every job of
type `T` stays where it was.  The factory is asked exactly for the visited types without a ready
worker, once each, so never for a type with a ready worker.  The loop loses no job and does not
touch the pool, the active jobs or the sockets. -/
theorem C22_first_loop (c : Codec) (f : WorkerFactory) (now : Nat) (s : Server) (T : MESH_TYPE) :
    FindWorkerForQueuedJob c f now s
        = (requestWorkers f s).QueuedJobs.waitingForWorkerTypes.foldl (assignWaiting c now)
            (requestWorkers f s)
    ∧ (T ∈ s.QueuedJobs.queuedJobTypes
        ↔ s.QueuedJobs.awaiting_dispatch.filter (fun k => k.MType == T) ≠ [])
    ∧ (requestWorkers f s).QueuedJobs.awaiting_dispatch.filter (fun k => k.MType == T)
        = (if (s.WorkerPool.haveWaitingWorker T || f.createWorker T) = true
            then (s.QueuedJobs.awaiting_dispatch.filter (fun k => k.MType == T)).tail
            else s.QueuedJobs.awaiting_dispatch.filter (fun k => k.MType == T))
    ∧ (requestWorkers f s).QueuedJobs.awaiting_worker.filter (fun k => k.MType == T)
        = s.QueuedJobs.awaiting_worker.filter (fun k => k.MType == T) ++
          (if (s.WorkerPool.haveWaitingWorker T || f.createWorker T) = true
            then (s.QueuedJobs.awaiting_dispatch.filter (fun k => k.MType == T)).head?.toList
            else [])
    ∧ (requestWorkers f s).FactoryRequests
        = s.FactoryRequests
            ++ s.QueuedJobs.queuedJobTypes.filter (fun t => !s.WorkerPool.haveWaitingWorker t)
    ∧ (requestWorkers f s).QueuedJobs.ids.Perm s.QueuedJobs.ids
    ∧ (requestWorkers f s).WorkerPool = s.WorkerPool
    ∧ (requestWorkers f s).ActiveJobs = s.ActiveJobs
    ∧ (requestWorkers f s).WorkerQueries = s.WorkerQueries
    ∧ (requestWorkers f s).ClientQueries = s.ClientQueries := by
  have hmem : T ∈ s.QueuedJobs.queuedJobTypes
      ↔ s.QueuedJobs.awaiting_dispatch.filter (fun k => k.MType == T) ≠ [] := by
    unfold JobQueue.queuedJobTypes
    rw [mem_typeSet]
    constructor
    · rintro ⟨j, hj, hjT⟩ hnil
      have : j ∈ s.QueuedJobs.awaiting_dispatch.filter (fun k => k.MType == T) :=
        List.mem_filter.mpr ⟨hj, by simp [hjT]⟩
      rw [hnil] at this
      cases this
    · intro hne
      obtain ⟨j, hj⟩ := List.exists_mem_of_ne_nil _ hne
      obtain ⟨hj1, hj2⟩ := List.mem_filter.mp hj
      exact ⟨j, hj1, by simpa using hj2⟩
  obtain ⟨h1, h2, h3, h4, h5, h6, h7⟩ :=
    requestWorker_phase f T s.QueuedJobs.queuedJobTypes (typeSet_nodup _) s
  refine ⟨rfl, hmem, ?_, ?_, h5, requestWorkers_ids f s, h1, h2, h3, h4⟩
  · unfold requestWorkers
    rw [h6]
    by_cases hT : T ∈ s.QueuedJobs.queuedJobTypes
    · simp [hT]
    · have hnil : s.QueuedJobs.awaiting_dispatch.filter (fun k => k.MType == T) = [] := by
        by_contra hne
        exact hT (hmem.mpr hne)
      simp [hnil]
  · unfold requestWorkers
    rw [h7]
    by_cases hT : T ∈ s.QueuedJobs.queuedJobTypes
    · simp [hT]
    · have hnil : s.QueuedJobs.awaiting_dispatch.filter (fun k => k.MType == T) = [] := by
        by_contra hne
        exact hT (hmem.mpr hne)
      simp [hnil]

/-- C22 at a concrete input: jobs 100 and 101 of type 2 and job 102 of type 3 await dispatch,
worker `[7]` of type 2 is ready, and the factory starts nothing.  Job 100 moves, job 101 and
job 102 stay, and the factory is asked for type 3 only. -/
theorem C22_first_loop_witness :
    (requestWorkers anyFactory threeQueuedServer).QueuedJobs.awaiting_dispatch.filter
        (fun k => k.MType == 2) = [⟨101, 2, [43]⟩]
    ∧ (requestWorkers anyFactory threeQueuedServer).QueuedJobs.awaiting_worker.filter
        (fun k => k.MType == 2) = [⟨100, 2, [42]⟩]
    ∧ (requestWorkers anyFactory threeQueuedServer).QueuedJobs.awaiting_dispatch.filter
        (fun k => k.MType == 3) = [⟨102, 3, [44]⟩]
    ∧ (requestWorkers anyFactory threeQueuedServer).FactoryRequests = [3] :=
  ⟨(C22_first_loop sampleCodec anyFactory 0 threeQueuedServer 2).2.2.1.trans (by decide),
    (C22_first_loop sampleCodec anyFactory 0 threeQueuedServer 2).2.2.2.1.trans (by decide),
    (C22_first_loop sampleCodec anyFactory 0 threeQueuedServer 3).2.2.1.trans (by decide),
    (C22_first_loop sampleCodec anyFactory 0 threeQueuedServer 3).2.2.2.2.1.trans (by decide)⟩

/-- C23. `FindWorkerForQueuedJob` gives jobs to ready workers only.  Each pass of its second
loop either changes nothing or calls `assignJobToWorker` with an identity whose pool record, just
before the call, is ready for work and has the mesh type of the job.  Over the whole call, every
record added to `ActiveJobs` names a worker that was ready at entry, and every message sent on the
worker socket goes to a worker that was ready at entry and carries a job of the type of that worker.
When no worker in the pool is ready, `ActiveJobs`, the worker socket and the pool are unchanged. -/
theorem C23_only_ready_workers (c : Codec) (f : WorkerFactory) (now : Nat) (s : Server) :
    (∀ (b : Server) (T : MESH_TYPE),
        assignWaiting c now b T = b
        ∨ ∃ w pool job queue,
            b.WorkerPool.takeWorker T = some (w, pool)
            ∧ b.QueuedJobs.takeJob T = some (job, queue)
            ∧ job.MType = T
            ∧ (∃ r ∈ b.WorkerPool.Pool,
                r.Address = w ∧ r.MType = job.MType ∧ r.WaitingForWork = true)
            ∧ assignWaiting c now b T
                = assignJobToWorker c now { b with WorkerPool := pool, QueuedJobs := queue }
                    w job)
    ∧ (∀ r ∈ (FindWorkerForQueuedJob c f now s).ActiveJobs.Info, r ∈ s.ActiveJobs.Info
        ∨ ∃ wr ∈ s.WorkerPool.Pool, wr.Address = r.WorkerAddress ∧ wr.WaitingForWork = true)
    ∧ (∀ m ∈ (FindWorkerForQueuedJob c f now s).WorkerQueries, m ∈ s.WorkerQueries
        ∨ ∃ wr ∈ s.WorkerPool.Pool, ∃ job : JobDetails, wr.WaitingForWork = true
            ∧ wr.MType = job.MType ∧ m = replyFrames wr.Address (c.job_to_string job))
    ∧ ((∀ r ∈ s.WorkerPool.Pool, r.WaitingForWork = false) →
        (FindWorkerForQueuedJob c f now s).ActiveJobs = s.ActiveJobs
        ∧ (FindWorkerForQueuedJob c f now s).WorkerQueries = s.WorkerQueries
        ∧ (FindWorkerForQueuedJob c f now s).WorkerPool = s.WorkerPool) := by
  obtain ⟨h1, h2, h3, _⟩ :=
    requestWorker_phase f 0 s.QueuedJobs.queuedJobTypes (typeSet_nodup _) s
  have hfind : FindWorkerForQueuedJob c f now s
      = (requestWorkers f s).QueuedJobs.waitingForWorkerTypes.foldl (assignWaiting c now)
          (requestWorkers f s) := rfl
  have g1 : (requestWorkers f s).WorkerPool = s.WorkerPool := h1
  have g2 : (requestWorkers f s).ActiveJobs = s.ActiveJobs := h2
  have g3 : (requestWorkers f s).WorkerQueries = s.WorkerQueries := h3
  have hloop := assignWaiting_ready c now s (requestWorkers f s).QueuedJobs.waitingForWorkerTypes
    (requestWorkers f s)
    (by rw [g1]; exact fun r hr => hr)
    (by rw [g2]; exact fun r hr => Or.inl hr)
    (by rw [g3]; exact fun m hm => Or.inl hm)
  refine ⟨fun b T => assignWaiting_cases c now b T, ?_, ?_, ?_⟩
  · rw [hfind]
    exact hloop.1
  · rw [hfind]
    exact hloop.2
  · intro hnone
    have hsame := assignWaiting_none_ready c now
      (requestWorkers f s).QueuedJobs.waitingForWorkerTypes (requestWorkers f s)
      (by rw [g1]; exact hnone)
    rw [hfind, hsame]
    exact ⟨g2, g3, g1⟩

/-- C23 at concrete inputs.  Worker `[7]` has only registered type 2 and job 100 of type 2 is
queued: although the factory reports a started worker, the job is given to nobody.  With worker
`[8]` ready as well, the message that assigns job 100 goes to `[8]`, a worker that was ready. -/
theorem C23_only_ready_workers_witness :
    ((FindWorkerForQueuedJob sampleCodec spawningFactory 3 registeredOnlyServer).ActiveJobs
        = registeredOnlyServer.ActiveJobs
      ∧ (FindWorkerForQueuedJob sampleCodec spawningFactory 3 registeredOnlyServer).WorkerQueries
        = registeredOnlyServer.WorkerQueries
      ∧ (FindWorkerForQueuedJob sampleCodec spawningFactory 3 registeredOnlyServer).WorkerPool
        = registeredOnlyServer.WorkerPool)
    ∧ (FindWorkerForQueuedJob sampleCodec spawningFactory 3 registeredOnlyServer).QueuedJobs
        = ⟨[], [⟨100, 2, [42]⟩]⟩
    ∧ (replyFrames [8] (sampleCodec.job_to_string ⟨100, 2, [42]⟩) ∈ mixedPoolServer.WorkerQueries
      ∨ ∃ wr ∈ mixedPoolServer.WorkerPool.Pool, ∃ job : JobDetails, wr.WaitingForWork = true
          ∧ wr.MType = job.MType
          ∧ replyFrames [8] (sampleCodec.job_to_string ⟨100, 2, [42]⟩)
              = replyFrames wr.Address (sampleCodec.job_to_string job)) :=
  ⟨(C23_only_ready_workers sampleCodec spawningFactory 3 registeredOnlyServer).2.2.2
      (by decide),
    by decide,
    (C23_only_ready_workers sampleCodec spawningFactory 3 mixedPoolServer).2.2.1
      (replyFrames [8] (sampleCodec.job_to_string ⟨100, 2, [42]⟩)) (by decide)⟩

/-! ## Unknown service tags on the client endpoint -/

/-- A valid client message whose service tag is none of the four the switch handles takes the
`default` branch: the reply carries the `INVALID_STATUS` enumerator and nothing but the client
socket changes. -/
theorem determineJobQueryResponse_default (c : Codec) (f : WorkerFactory) (jobUUID : uuid)
    (s : Server) (clientIdentity : SocketIdentity) (msg : JobMessage)
    (hv : msg.isValid = true)
    (h1 : msg.serviceType ≠ SERVICE_TYPE.MAKE_MESH)
    (h2 : msg.serviceType ≠ SERVICE_TYPE.MESH_STATUS)
    (h3 : msg.serviceType ≠ SERVICE_TYPE.CAN_MESH)
    (h4 : msg.serviceType ≠ SERVICE_TYPE.RETRIEVE_MESH) :
    DetermineJobQueryResponse c f jobUUID s clientIdentity msg =
      { s with ClientQueries := s.ClientQueries ++
          [replyFrames clientIdentity (objectBytes_STATUS_TYPE STATUS_TYPE.INVALID_STATUS)] } := by
  apply determineJobQueryResponse_eq
  unfold DetermineJobQueryResponse_response
  simp only [hv, Bool.not_true]
  cases hs : msg.serviceType <;>
    simp_all [JobResponse.new, JobResponse.setData]

/-- C6 (the code at the failing input). A client sends a valid message whose service tag,
`HEARTBEAT` or `SHUTDOWN`, is not one the client handler recognises.  The `default` branch of
`DetermineJobQueryResponse` answers with the four bytes of the `INVALID_STATUS` enumerator.  The
branch for invalid messages of the same function answers the same client with the sentinel
`INVALID_MSG`, and the two replies differ. -/
theorem C6_unknown_tag_reply :
    (⟨true, SERVICE_TYPE.HEARTBEAT, 2, []⟩ : JobMessage).isValid = true
    ∧ (DetermineJobQueryResponse sampleCodec noFactory 0 Server.init [9]
        ⟨true, SERVICE_TYPE.HEARTBEAT, 2, []⟩).ClientQueries
        = [replyFrames [9] (objectBytes_STATUS_TYPE STATUS_TYPE.INVALID_STATUS)]
    ∧ (DetermineJobQueryResponse sampleCodec noFactory 0 Server.init [9]
        ⟨true, SERVICE_TYPE.SHUTDOWN, 2, []⟩).ClientQueries
        = [replyFrames [9] (objectBytes_STATUS_TYPE STATUS_TYPE.INVALID_STATUS)]
    ∧ replyFrames [9] (objectBytes_STATUS_TYPE STATUS_TYPE.INVALID_STATUS)
        = [[9], reqHeader, [0, 0, 0, 0]]
    ∧ (DetermineJobQueryResponse sampleCodec noFactory 0 Server.init [9]
        ⟨false, SERVICE_TYPE.HEARTBEAT, 2, []⟩).ClientQueries = [replyFrames [9] INVALID_MSG]
    ∧ replyFrames [9] (objectBytes_STATUS_TYPE STATUS_TYPE.INVALID_STATUS)
        ≠ replyFrames [9] INVALID_MSG := by
  decide

/-! ## Status monotonicity and the expiry sweep -/

/-- The expiry sweep keeps a settled status or replaces it by `EXPIRED`. -/
theorem settledAt_markFailed (threshold : SocketIdentity → Nat) (hbTime : Nat) (s : Server)
    (J : uuid) (t : STATUS_TYPE) (h : SettledAt J t s) :
    SettledAt J t { s with ActiveJobs := s.ActiveJobs.markFailedJobs threshold hbTime }
    ∨ SettledAt J STATUS_TYPE.EXPIRED
        { s with ActiveJobs := s.ActiveJobs.markFailedJobs threshold hbTime } := by
  have hfind : (s.ActiveJobs.markFailedJobs threshold hbTime).find J
      = (s.ActiveJobs.find J).map (fun r =>
          if r.last_heartbeat + threshold r.WorkerAddress < hbTime then
            { r with jstatus := { r.jstatus with Status := STATUS_TYPE.EXPIRED } }
          else r) := by
    unfold ActiveJobs.markFailedJobs
    rw [activeJobs_find_map _ _ (by intro x; split <;> rfl)]
  cases hf : s.ActiveJobs.find J with
  | none =>
    left
    refine ⟨h.1, ?_⟩
    intro r hr
    have hr2 : (s.ActiveJobs.markFailedJobs threshold hbTime).find J = some r := hr
    rw [hfind, hf] at hr2
    cases hr2
  | some r0 =>
    by_cases hold : r0.last_heartbeat + threshold r0.WorkerAddress < hbTime
    · right
      refine ⟨h.1, ?_⟩
      intro r hr
      have hr2 : (s.ActiveJobs.markFailedJobs threshold hbTime).find J = some r := hr
      rw [hfind, hf] at hr2
      simp only [Option.map_some', Option.some.injEq, if_pos hold] at hr2
      rw [← hr2]
    · left
      refine ⟨h.1, ?_⟩
      intro r hr
      have hr2 : (s.ActiveJobs.markFailedJobs threshold hbTime).find J = some r := hr
      rw [hfind, hf] at hr2
      simp only [Option.map_some', Option.some.injEq, if_neg hold] at hr2
      rw [← hr2]
      exact h.2 r0 hf

theorem settledAt_find (c : Codec) (f : WorkerFactory) (now : Nat) (s : Server) (J : uuid)
    (t : STATUS_TYPE) (h : SettledAt J t s) : SettledAt J t (FindWorkerForQueuedJob c f now s) := by
  unfold FindWorkerForQueuedJob
  apply foldl_invariant (SettledAt J t) _ (fun b a hb => settledAt_assignWaiting c now b a J t hb)
  exact foldl_invariant (SettledAt J t) _ (fun b a hb => settledAt_requestWorker f b a J t hb)
    _ _ h

/-- Along a run, a settled terminal status stays or becomes `EXPIRED`. -/
theorem settledAt_runs (c : Codec) (J : uuid) (t : STATUS_TYPE) (ht : t.terminal = true)
    (s0 s : Server) (h0 : SettledAt J t s0) (h : Runs c (OtherId J) AnyWorkerMessage s0 s) :
    SettledAt J t s ∨ SettledAt J STATUS_TYPE.EXPIRED s := by
  refine runs_invariant c (OtherId J) AnyWorkerMessage s0
    (fun b => SettledAt J t b ∨ SettledAt J STATUS_TYPE.EXPIRED b) ?_ ?_ ?_ ?_ ?_ (Or.inl h0) s h
  · intro f jobUUID s clientIdentity msg hs hok
    rcases hs with hs | hs
    · exact Or.inl (settledAt_clientBranch c f jobUUID s clientIdentity msg J t hok hs)
    · exact Or.inr (settledAt_clientBranch c f jobUUID s clientIdentity msg J _ hok hs)
  · intro now s w msg hs _
    rcases hs with hs | hs
    · exact Or.inl (settledAt_workerBranch c now s w msg J t ht hs)
    · exact Or.inr (settledAt_workerBranch c now s w msg J _ rfl hs)
  · intro threshold hbTime s hs
    rcases hs with hs | hs
    · exact settledAt_markFailed threshold hbTime s J t hs
    · rcases settledAt_markFailed threshold hbTime s J _ hs with h2 | h2
      · exact Or.inr h2
      · exact Or.inr h2
  · intro threshold hbTime s hs
    exact hs
  · intro f now s hs
    rcases hs with hs | hs
    · exact Or.inl (settledAt_find c f now s J t hs)
    · exact Or.inr (settledAt_find c f now s J _ hs)

/-- C11 fails as stated.  Job 100 is `FINISHED`: worker `[7]` delivered its result at time 3 and
has been silent since.  A heartbeat-expiry sweep at time 1000 with threshold 10 finds the record
stale and moves it to `EXPIRED`, so the later status query replies neither `FINISHED` nor
`INVALID_STATUS`. -/
theorem C11_counterexample :
    (meshStatus_js sampleCodec finishedJobServer
        ⟨true, SERVICE_TYPE.MESH_STATUS, 2, [100]⟩).Status = STATUS_TYPE.FINISHED
    ∧ Runs sampleCodec (OtherId 100) AnyWorkerMessage finishedJobServer
        { finishedJobServer with
          ActiveJobs := finishedJobServer.ActiveJobs.markFailedJobs (fun _ => 10) 1000 }
    ∧ (meshStatus_js sampleCodec
        { finishedJobServer with
          ActiveJobs := finishedJobServer.ActiveJobs.markFailedJobs (fun _ => 10) 1000 }
        ⟨true, SERVICE_TYPE.MESH_STATUS, 2, [100]⟩).Status = STATUS_TYPE.EXPIRED :=
  ⟨by decide, Runs.markFailed (fun _ => 10) 1000 _ Runs.start, by decide⟩

/-- C11 (amended). Once `MESH_STATUS` for a job id has replied a terminal status (`FINISHED`,
`FAILED` or `EXPIRED`), every later `MESH_STATUS` for the same id replies that same terminal
status, `EXPIRED` or `INVALID_STATUS`, whatever happens in between: worker status messages, worker
result messages and any other worker message, `markFailedJobs` and `purgeDeadWorkers` sweeps,
client messages (the ids generated for new jobs differ from this id) and
`FindWorkerForQueuedJob`.  A worker message alone leaves the terminal reply as it was, and a
sweep alone leaves it as it was or makes it `EXPIRED`. -/
theorem C11_status_monotone (c : Codec) (s s2 : Server) (qmsg qmsg2 : JobMessage)
    (hq : c.to_uuid qmsg2 = c.to_uuid qmsg)
    (hterm : (meshStatus_js c s qmsg).Status.terminal = true)
    (hruns : Runs c (OtherId (c.to_uuid qmsg)) AnyWorkerMessage s s2) :
    ((meshStatus_js c s2 qmsg2).Status = (meshStatus_js c s qmsg).Status
      ∨ (meshStatus_js c s2 qmsg2).Status = STATUS_TYPE.EXPIRED
      ∨ (meshStatus_js c s2 qmsg2).Status = STATUS_TYPE.INVALID_STATUS)
    ∧ (∀ (now : Nat) (w : SocketIdentity) (msg : JobMessage),
        (meshStatus_js c (workerBranch c now s w msg) qmsg2).Status
          = (meshStatus_js c s qmsg).Status)
    ∧ (∀ (threshold : SocketIdentity → Nat) (hbTime : Nat),
        (meshStatus_js c
            { s with ActiveJobs := s.ActiveJobs.markFailedJobs threshold hbTime } qmsg2).Status
          = (meshStatus_js c s qmsg).Status
        ∨ (meshStatus_js c
            { s with ActiveJobs := s.ActiveJobs.markFailedJobs threshold hbTime } qmsg2).Status
          = STATUS_TYPE.EXPIRED) := by
  have hnq : s.QueuedJobs.haveUUID (c.to_uuid qmsg) = false := by
    rw [Bool.eq_false_iff]
    intro hqd
    have : (meshStatus_js c s qmsg).Status = STATUS_TYPE.QUEUED := by
      simp [meshStatus_js, hqd, JobStatus.mk2]
    rw [this] at hterm
    exact Bool.noConfusion hterm
  have hjs := meshStatus_js_of_not_queued c s qmsg hnq
  have h0 : SettledAt (c.to_uuid qmsg) (meshStatus_js c s qmsg).Status s := by
    refine ⟨hnq, ?_⟩
    intro r hr
    rw [hjs, hr]
  -- the reply in a state where the status is settled at `t` and the record is still there
  have hreply : ∀ (b : Server) (t : STATUS_TYPE), SettledAt (c.to_uuid qmsg) t b →
      (meshStatus_js c b qmsg2).Status = t
      ∨ (b.ActiveJobs.find (c.to_uuid qmsg) = none
        ∧ (meshStatus_js c b qmsg2).Status = STATUS_TYPE.INVALID_STATUS) := by
    intro b t hb
    have hjs2 := meshStatus_js_of_not_queued c b qmsg2 (by rw [hq]; exact hb.1)
    rw [hq] at hjs2
    cases hf : b.ActiveJobs.find (c.to_uuid qmsg) with
    | none =>
      right
      rw [hjs2, hf]
      exact ⟨rfl, rfl⟩
    | some r =>
      left
      rw [hjs2, hf]
      exact hb.2 r hf
  -- the record exists in `s`
  have hsome : s.ActiveJobs.haveUUID (c.to_uuid qmsg) = true := by
    rw [activeJobs_haveUUID_eq_find]
    cases hf : s.ActiveJobs.find (c.to_uuid qmsg) with
    | none =>
      rw [hjs, hf] at hterm
      exact Bool.noConfusion hterm
    | some r => rfl
  refine ⟨?_, ?_, ?_⟩
  · rcases settledAt_runs c _ _ hterm s s2 h0 hruns with h2 | h2
    · rcases hreply s2 _ h2 with h3 | h3
      · exact Or.inl h3
      · exact Or.inr (Or.inr h3.2)
    · rcases hreply s2 _ h2 with h3 | h3
      · exact Or.inr (Or.inl h3)
      · exact Or.inr (Or.inr h3.2)
  · intro now w msg
    have h2 := settledAt_workerBranch c now s w msg _ _ hterm h0
    rcases hreply _ _ h2 with h3 | h3
    · exact h3
    · exfalso
      have hids := (workerBranch_ids c now s w msg).2
      have hin : (c.to_uuid qmsg) ∈ (workerBranch c now s w msg).ActiveJobs.ids := by
        rw [hids]
        exact (activeJobs_haveUUID_iff _ _).mp hsome
      have hhave := (activeJobs_haveUUID_iff _ _).mpr hin
      rw [activeJobs_haveUUID_eq_find, h3.1] at hhave
      exact Bool.noConfusion hhave
  · intro threshold hbTime
    have hids := ids_markFailedJobs s.ActiveJobs threshold hbTime
    have hin : (c.to_uuid qmsg) ∈ (s.ActiveJobs.markFailedJobs threshold hbTime).ids := by
      rw [hids]
      exact (activeJobs_haveUUID_iff _ _).mp hsome
    have hhave := (activeJobs_haveUUID_iff _ _).mpr hin
    rw [activeJobs_haveUUID_eq_find] at hhave
    rcases settledAt_markFailed threshold hbTime s _ _ h0 with h2 | h2
    · rcases hreply _ _ h2 with h3 | h3
      · exact Or.inl h3
      · exfalso
        have h4 : (s.ActiveJobs.markFailedJobs threshold hbTime).find (c.to_uuid qmsg) = none :=
          h3.1
        rw [h4] at hhave
        exact Bool.noConfusion hhave
    · rcases hreply _ _ h2 with h3 | h3
      · exact Or.inr h3
      · exfalso
        have h4 : (s.ActiveJobs.markFailedJobs threshold hbTime).find (c.to_uuid qmsg) = none :=
          h3.1
        rw [h4] at hhave
        exact Bool.noConfusion hhave

/-- C11 (amended) at a concrete input: job 100 is `FINISHED`; the worker then reports
`IN_PROGRESS` with progress 50 at time 995, and a sweep at time 1000 finds the record fresh.  The
reply stays `FINISHED`, also right after the worker message. -/
theorem C11_status_monotone_witness :
    (meshStatus_js sampleCodec
        { (workerBranch sampleCodec 995 finishedJobServer [7]
            ⟨true, SERVICE_TYPE.MESH_STATUS, 2, [100, 2, 50]⟩) with
          ActiveJobs := (workerBranch sampleCodec 995 finishedJobServer [7]
            ⟨true, SERVICE_TYPE.MESH_STATUS, 2, [100, 2, 50]⟩).ActiveJobs.markFailedJobs
              (fun _ => 10) 1000 }
        ⟨true, SERVICE_TYPE.MESH_STATUS, 2, [100]⟩).Status = STATUS_TYPE.FINISHED
    ∧ (meshStatus_js sampleCodec
        (workerBranch sampleCodec 995 finishedJobServer [7]
          ⟨true, SERVICE_TYPE.MESH_STATUS, 2, [100, 2, 50]⟩)
        ⟨true, SERVICE_TYPE.MESH_STATUS, 2, [100]⟩).Status = STATUS_TYPE.FINISHED :=
  ⟨((C11_status_monotone sampleCodec finishedJobServer _
      ⟨true, SERVICE_TYPE.MESH_STATUS, 2, [100]⟩ ⟨true, SERVICE_TYPE.MESH_STATUS, 2, [100]⟩ rfl
      (by decide)
      (Runs.markFailed (fun _ => 10) 1000 _ (Runs.worker 995 _ [7]
        ⟨true, SERVICE_TYPE.MESH_STATUS, 2, [100, 2, 50]⟩ Runs.start trivial))).1).elim
      (fun h => h.trans (by decide))
      (fun h => absurd h (by decide)),
    ((C11_status_monotone sampleCodec finishedJobServer finishedJobServer
      ⟨true, SERVICE_TYPE.MESH_STATUS, 2, [100]⟩ ⟨true, SERVICE_TYPE.MESH_STATUS, 2, [100]⟩ rfl
      (by decide) Runs.start).2.1 995 [7]
        ⟨true, SERVICE_TYPE.MESH_STATUS, 2, [100, 2, 50]⟩).trans (by decide)⟩

/-! ## Liveness-driven failure: one iteration -/

end Remus
